import Mathlib

/-! node-basecontroller-libs: a verification development.

Shallow embedding of `lib/async.js` (the `ASync` completion tracker),
`lib/seq.js` (the `Seq` step sequencer) and the lifecycle part of `lib/base.js`
(`BaseController`), followed by theorems about them.

Conventions of the embedding.

* JavaScript values are the type `Val`; only what the library inspects is kept:
  truthiness and "is a function".
* A user function is an identifier (`Val.fn id`).  What a call of a user
  function does is supplied where the call happens: an invocation of a handle
  carries the value its function throws (if any), an operation that may call
  the success callback carries the truthiness of what the callback returns.
  User functions are assumed not to call back into the object they are given to.
* Calls of user callbacks are recorded in a log of events, in call order.
* Calls of the logging collaborator have no effect on the modelled state and
  are left out.
-/

namespace BaseControllerLibs

/-! # Part I: the embedding -/

/-! ## JavaScript values -/

/-- JavaScript values, up to what the library can observe of them. -/
inductive Val where
  | undefined
  | null
  | bool (b : Bool)
  | num (n : Int)
  | str (s : String)
  | obj (tag : Nat)
  | err (msg : String)
  | fn (id : Nat)
  deriving DecidableEq, Repr

/-- JavaScript truthiness (`if (v)`, `!v`, `v && ...`). -/
def Val.truthy : Val → Bool
  | .undefined => false
  | .null => false
  | .bool b => b
  | .num n => n != 0
  | .str s => s != ""
  | .obj _ => true
  | .err _ => true
  | .fn _ => true

/-- The test `typeof v == 'function'`. -/
def Val.isFunction : Val → Bool
  | .fn _ => true
  | _ => false

/-- The `TypeError` raised when a value that is not a function is called. -/
def typeError : Val := .err "TypeError: not a function"

/-! ## Array helpers (`indexOf`, `splice`) -/

/-- Position of the first occurrence of `x`, if any. -/
def indexOfAux : List Nat → Nat → Option Nat
  | [], _ => none
  | y :: ys, x => if y = x then some 0 else (indexOfAux ys x).map (· + 1)

/-- `Array.prototype.indexOf`: index of the first occurrence, `-1` when absent. -/
def indexOf (l : List Nat) (x : Nat) : Int :=
  match indexOfAux l x with
  | some i => (i : Int)
  | none => -1

/-- `Array.prototype.splice(start, deleteCount)` without inserted items: a negative
`start` counts from the end of the array. -/
def splice (l : List Nat) (start : Int) (deleteCount : Nat) : List Nat :=
  let len : Int := (l.length : Int)
  let actualStart : Nat := (if start < 0 then max (len + start) 0 else min start len).toNat
  let dc : Nat := min deleteCount (l.length - actualStart)
  l.take actualStart ++ l.drop (actualStart + dc)

/-! ## `lib/async.js` -/

/-- What `wait`/`success` and `error` store in `this.callback` / `this.handler`:
the function given as first argument, or a wrapper
`function() { fn.apply(ctx, arguments) }` around the second. -/
inductive Cb where
  | direct (f : Nat)
  | wrapped (f : Nat) (ctx : Val)
  deriving DecidableEq, Repr

/-- Truthiness of what a call of the stored callback returns, `r` being the
truthiness of what the user function returns: the wrapper returns `undefined`. -/
def Cb.ret : Cb → Bool → Bool
  | .direct _, r => r
  | .wrapped _ _, _ => false

/-- The fields of an `ASync` object (`_args` is never read or written after
construction and is left out). -/
structure ASync where
  _waits : List Nat
  callback : Option Cb
  handler : Option Cb
  _error : Val
  _done : Bool
  deriving DecidableEq, Repr

/-- Observable calls, in call order.
* `invoked id`: the handle with identifier `id` was called;
* `success cb waits err`: `this.callback()` was called, `waits` and `err` being
  `_waits` and `_error` at the time of the call;
* `fault h args`: `this.handler(...args)` was called;
* `raised e`: an operation threw `e` to its caller. -/
inductive Ev where
  | invoked (id : Nat)
  | success (cb : Cb) (waits : List Nat) (err : Val)
  | fault (h : Cb) (args : List Val)
  | raised (e : Val)
  deriving DecidableEq, Repr

/-- Result of a method call: the object afterwards, the calls made, and the
exception thrown to the caller, if any. -/
structure Res where
  g : ASync
  log : List Ev
  thrown : Option Val
  deriving DecidableEq, Repr

/-- The closure `func` returned by `getHandler`: it captures `id`, `ctx`, `fn`. -/
structure Handle where
  id : Nat
  ctx : Val
  fn : Val
  deriving DecidableEq, Repr

/-- The constructor `new ASync()`. -/
def ASync.new : ASync :=
  { _waits := [], callback := none, handler := none, _error := .undefined, _done := false }

/-- The method `getHandler(ctx, fn)`, `seq` being the module-level counter: returns
the object, the counter after `seq++` and the handle, or the thrown error. -/
def ASync.getHandler (g : ASync) (seq : Nat) (ctx fn : Val) : Except Val (ASync × Nat × Handle) :=
  if g.callback.isSome then
    .error (.err "Syncronization task added while waiting!")
  else
    let swap := ctx.isFunction && !fn.truthy
    let fn1 := if swap then ctx else fn
    let ctx1 := if swap then Val.null else ctx
    .ok ({ g with _waits := g._waits ++ [seq] }, seq + 1, { id := seq, ctx := ctx1, fn := fn1 })

/-- The method `cancel(fn, error)`. -/
def ASync.cancel (g : ASync) (fn error : Val) : ASync × List Ev :=
  ({ g with _error := error },
    match g.handler with
    | some h => [Ev.fault h [fn, error]]
    | none => [])

/-- The method `_progress()`; `r` is the truthiness of what the user callback returns. -/
def ASync._progress (g : ASync) (r : Bool) : ASync × List Ev :=
  if !g._error.truthy && g._waits.length == 0 then
    match g.callback with
    | none => ({ g with _done := true }, [])
    | some cb =>
      (if cb.ret r then { g with _done := true } else g, [Ev.success cb g._waits g._error])
  else (g, [])

/-- The block `try { if (fn) fn.apply(ctx, arguments); } catch(e) { ref.cancel(fn, e); }`
of a handle: `thrown` is what `fn` throws when called (`none`: it returns).  A truthy
`fn` that is not a function makes `fn.apply(...)` raise a `TypeError`, which is caught
like any other. -/
def ASync.tryFn (g : ASync) (h : Handle) (thrown : Option Val) : ASync × List Ev :=
  if h.fn.truthy then
    if h.fn.isFunction then
      match thrown with
      | some e => g.cancel h.fn e
      | none => (g, [])
    else g.cancel h.fn typeError
  else (g, [])

/-- A call of the handle `h` (the closure `func` of `getHandler`): the `try` block,
then `ref._waits.splice(ref._waits.indexOf(id), 1)`, then `ref._progress()`. -/
def ASync.invoke (g : ASync) (h : Handle) (thrown : Option Val) (r : Bool) : ASync × List Ev :=
  let r1 := g.tryFn h thrown
  let g2 : ASync := { r1.1 with _waits := splice r1.1._waits (indexOf r1.1._waits h.id) 1 }
  let r3 := g2._progress r
  (r3.1, Ev.invoked h.id :: (r1.2 ++ r3.2))

/-- The assignment shared by `error` and `wait`: the first argument when it is a
function, else a wrapper around the second when that is a function, else nothing. -/
def pickCb (ctx fn : Val) : Option Cb :=
  match ctx with
  | .fn f => some (.direct f)
  | _ =>
    match fn with
    | .fn f => some (.wrapped f ctx)
    | _ => none

/-- The method `error(ctx, fn)`. -/
def ASync.error (g : ASync) (ctx fn : Val) : Res :=
  let g1 : ASync :=
    match pickCb ctx fn with
    | some h => { g with handler := some h }
    | none => g
  if g1._error.truthy then
    match g1.handler with
    | some h => { g := g1, log := [Ev.fault h []], thrown := none }
    | none => { g := g1, log := [], thrown := some typeError }
  else { g := g1, log := [], thrown := none }

/-- The method `wait(ctx, fn)` (alias `success`). -/
def ASync.wait (g : ASync) (ctx fn : Val) (r : Bool) : Res :=
  let g1 : ASync :=
    match pickCb ctx fn with
    | some cb => { g with callback := some cb }
    | none => g
  if !g1._error.truthy && g1._waits.length == 0 then
    match g1.callback with
    | some cb =>
      { g := if cb.ret r then { g1 with _done := true } else g1,
        log := [Ev.success cb g1._waits g1._error], thrown := none }
    | none => { g := g1, log := [], thrown := some typeError }
  else { g := g1, log := [], thrown := none }

/-! ### A group under a sequence of operations -/

/-- One operation of a client on a group. `invoke id` calls the handle that
`getHandler` returned with identifier `id`. -/
inductive Op where
  | getHandler (ctx fn : Val)
  | invoke (id : Nat) (thrown : Option Val) (r : Bool)
  | error (ctx fn : Val)
  | wait (ctx fn : Val) (r : Bool)
  deriving DecidableEq, Repr

/-- A group together with the module counter `seq`, the handles returned so far
and the log of calls. -/
structure Sys where
  seq : Nat
  grp : ASync
  handles : List Handle
  log : List Ev
  deriving DecidableEq, Repr

/-- A fresh group, the module counter being at `seq0`. -/
def Sys.fresh (seq0 : Nat) : Sys :=
  { seq := seq0, grp := ASync.new, handles := [], log := [] }

/-- One operation. Calling a handle that was never returned is not possible and
is modelled as doing nothing. -/
def Sys.step (s : Sys) : Op → Sys
  | .getHandler ctx fn =>
    match s.grp.getHandler s.seq ctx fn with
    | .ok (g, seq1, h) => { s with seq := seq1, grp := g, handles := s.handles ++ [h] }
    | .error e => { s with log := s.log ++ [Ev.raised e] }
  | .invoke id thrown r =>
    match s.handles.find? (fun h => h.id == id) with
    | some h =>
      let p := s.grp.invoke h thrown r
      { s with grp := p.1, log := s.log ++ p.2 }
    | none => s
  | .error ctx fn =>
    let p := s.grp.error ctx fn
    { s with grp := p.g, log := s.log ++ p.log ++ (p.thrown.map Ev.raised).toList }
  | .wait ctx fn r =>
    let p := s.grp.wait ctx fn r
    { s with grp := p.g, log := s.log ++ p.log ++ (p.thrown.map Ev.raised).toList }

/-- A sequence of operations, in order. -/
def Sys.run (s : Sys) (ops : List Op) : Sys := ops.foldl Sys.step s

/-- Whether an event is a call of the success callback. -/
def Ev.isSuccess : Ev → Bool
  | .success _ _ _ => true
  | _ => false

/-- Number of calls of the success callback in a log. -/
def successCount (log : List Ev) : Nat := log.countP Ev.isSuccess

/-! ### Auxiliary definitions for the statements on a group -/

/-- The group with the identifier `id` taken out of the outstanding set. -/
def ASync.retire (g : ASync) (id : Nat) : ASync := { g with _waits := g._waits.erase id }

/-- A handle whose function is a function or is absent. -/
def Handle.plain (h : Handle) : Prop := h.fn.isFunction = true ∨ h.fn.truthy = false

/-- The handles returned by successive `getHandler(ctx, fn)` calls, the counter
starting at `n`. -/
def mkHandles : Nat → List (Val × Val) → List Handle
  | _, [] => []
  | n, a :: as =>
    { id := n,
      ctx := if a.1.isFunction && !a.2.truthy then Val.null else a.1,
      fn := if a.1.isFunction && !a.2.truthy then a.1 else a.2 } :: mkHandles (n + 1) as

/-- The operations calling each listed handle once, none of the functions throwing. -/
def invokeOps (l : List (Nat × Bool)) : List Op := l.map (fun p => Op.invoke p.1 none p.2)

/-- An event that is neither a handle call nor a call of the success callback. -/
def Ev.quiet : Ev → Prop
  | .invoked _ => False
  | .success _ _ _ => False
  | _ => True

/-- The identifier of the handle an operation calls. -/
def Op.invokedId : Op → Option Nat
  | .invoke id _ _ => some id
  | _ => none

/-- Whether an operation is a call of `wait`/`success`. -/
def Op.isWait : Op → Bool
  | .wait _ _ _ => true
  | _ => false

/-- The identifiers of the handles called by a sequence of operations, in order. -/
def invokeIds (ops : List Op) : List Nat := ops.filterMap Op.invokedId

/-- The number of calls of `wait`/`success` in a sequence of operations. -/
def waitCount (ops : List Op) : Nat := ops.countP Op.isWait

/-- Invariant of a group on which no handle has been called twice: the outstanding
identifiers are distinct, below the module counter, and a returned handle is
outstanding exactly when it has not been called. -/
structure Inv (s : Sys) : Prop where
  ids_lt : ∀ h ∈ s.handles, h.id < s.seq
  waits_lt : ∀ x ∈ s.grp._waits, x < s.seq
  nodup : s.grp._waits.Nodup
  mem_iff : ∀ h ∈ s.handles, (h.id ∈ s.grp._waits ↔ Ev.invoked h.id ∉ s.log)
  log_lt : ∀ id, Ev.invoked id ∈ s.log → id < s.seq

/-! ## `lib/seq.js` -/

/-- What a step does when it is called with `(continuation, ...args)`:
* `callNext a`: it calls `continuation(...a)` before it returns, and returns
  something other than the continuation;
* `returnNext`: it returns the continuation;
* `deferNext a`: it hands the continuation to a timer, a tick or an I/O call,
  which calls `continuation(...a)` after the step has returned;
* `throws e`: it throws `e` before advancing;
* `halt`: it returns without advancing. -/
inductive StepResult where
  | callNext (args : List Val)
  | returnNext
  | deferNext (args : List Val)
  | throws (e : Val)
  | halt
  deriving DecidableEq, Repr

/-- A step: its behaviour as a function of the forwarded arguments. -/
abbrev Step := List Val → StepResult

/-- The functions a continuation can be: the final `callback` (`none`: the default
`function(){}`), or a closure made by `stepHandler(step, nextstep, stepnum)`. -/
inductive Target where
  | callback (cb : Option Nat)
  | proxy (step : Step) (nextstep : Target) (stepnum : Nat)

/-- Observable calls of a sequence: a step called with its forwarded arguments,
the final callback called, the fault handler called with `(stepnum, e)`. -/
inductive SEv where
  | step (stepnum : Nat) (args : List Val)
  | callback (cb : Nat) (args : List Val)
  | handler (h : Nat) (stepnum : Nat) (e : Val)
  deriving DecidableEq, Repr

/-- Result of calling a continuation: the calls made before it returned, the
continuations handed over for a later call (with the arguments of that call), and
the exception thrown to the caller, if any. -/
structure SRes where
  log : List SEv
  pending : List (Target × List Val)
  thrown : Option Val

/-- The `try` block of a closure of `stepHandler(step, nextstep, stepnum)`:
`if (step.apply(this, arg) === nextstep) nextstep();`, where `callNext a` is what a
call `nextstep(...a)` does. -/
def tryStep (step : Step) (nextstep : Target) (callNext : List Val → SRes) (args : List Val) :
    SRes :=
  match step args with
  | .callNext a => callNext a
  | .returnNext => callNext []
  | .deferNext a => { log := [], pending := [(nextstep, a)], thrown := none }
  | .throws e => { log := [], pending := [], thrown := some e }
  | .halt => { log := [], pending := [], thrown := none }

/-- The `catch` block of a closure of `stepHandler`, applied to what the `try`
block did: an exception is passed to `this._handler(stepnum, e)` when there is a
handler, and thrown again otherwise. -/
def catchRes (handler : Option Nat) (stepnum : Nat) (args : List Val) (body : SRes) : SRes :=
  match body.thrown, handler with
  | some e, some h =>
    { log := SEv.step stepnum args :: (body.log ++ [SEv.handler h stepnum e]),
      pending := body.pending, thrown := none }
  | _, _ => { log := SEv.step stepnum args :: body.log, pending := body.pending,
              thrown := body.thrown }

/-- A call of a continuation with `args`, `handler` being `this._handler` of the
`Seq` object the closures are bound to. -/
def Target.call (handler : Option Nat) : Target → List Val → SRes
  | .callback none, _ => { log := [], pending := [], thrown := none }
  | .callback (some cb), args => { log := [SEv.callback cb args], pending := [], thrown := none }
  | .proxy step nextstep stepnum, args =>
    catchRes handler stepnum args (tryStep step nextstep (nextstep.call handler) args)

/-- The fields of a `Seq` object (`_data` is never used and is left out). -/
structure Seq where
  _steps : List Step
  _proxies : List Target
  _handler : Option Nat

/-- The constructor `new Seq()`. -/
def Seq.new : Seq := { _steps := [], _proxies := [], _handler := none }

/-- The method `push(func)`. -/
def Seq.push (s : Seq) (func : Step) : Seq := { s with _steps := s._steps ++ [func] }

/-- The method `concat(arr)`. -/
def Seq.concat (s : Seq) (arr : List Step) : Seq := arr.foldl Seq.push s

/-- The loop of `get`, for `i` from the given bound minus one down to `0`:
`_proxies.unshift(stepHandler(_steps[i], _proxies[0] || callback, i))`. -/
def getLoop (steps : List Step) (callback : Target) : Nat → List Target → List Target
  | 0, proxies => proxies
  | i + 1, proxies =>
    match steps[i]? with
    | some st => getLoop steps callback i (Target.proxy st (proxies.head?.getD callback) i :: proxies)
    | none => getLoop steps callback i proxies

/-- The method `get(callback, handler)`: the object afterwards and the returned
entry point (`callback` itself when there are no steps, else `_proxies[0]`). -/
def Seq.get (s : Seq) (callback handler : Option Nat) : Seq × Target :=
  let cb := Target.callback callback
  let s1 : Seq := { s with _handler := handler }
  if s1._steps.length = 0 then (s1, cb)
  else
    let ps := getLoop s1._steps cb s1._steps.length s1._proxies
    ({ s1 with _proxies := ps }, ps.head?.getD cb)

/-- The static `Seq.get(arr, callback, handler)`. -/
def Seq.getOf (arr : List Step) (callback handler : Option Nat) : Seq × Target :=
  (Seq.new.concat arr).get callback handler

/-- The static `Seq.run(arr, callback, handler)`: the entry point is called at once,
with no arguments. -/
def Seq.run (arr : List Step) (callback handler : Option Nat) : SRes :=
  (Seq.getOf arr callback handler).2.call (Seq.getOf arr callback handler).1._handler []

/-- A whole run: what the entry point did, then what the continuations that were
handed over did when they were called. -/
structure Run where
  log : List SEv
  thrown : Option Val
  uncaught : List Val
  left : List (Target × List Val)

/-- The event loop: the continuations handed over are called in turn, at most
`fuel` of them; an exception leaving one of them goes to the event loop. -/
def drain (handler : Option Nat) : Nat → List (Target × List Val) → Run
  | 0, pending => { log := [], thrown := none, uncaught := [], left := pending }
  | _ + 1, [] => { log := [], thrown := none, uncaught := [], left := [] }
  | fuel + 1, (t, a) :: rest =>
    let r := t.call handler a
    let d := drain handler fuel (rest ++ r.pending)
    { log := r.log ++ d.log, thrown := none, uncaught := r.thrown.toList ++ d.uncaught,
      left := d.left }

/-- `Seq.run(arr, callback, handler)` followed by the event loop. -/
def Seq.runToEnd (fuel : Nat) (arr : List Step) (callback handler : Option Nat) : Run :=
  let r := Seq.run arr callback handler
  let d := drain handler fuel r.pending
  { log := r.log ++ d.log, thrown := r.thrown, uncaught := d.uncaught, left := d.left }

/-- The chain of closures for `steps`, numbered from `k`, ending in `last`. -/
def chain : List Step → Nat → Target → Target
  | [], _, last => last
  | st :: rest, k, last => Target.proxy st (chain rest (k + 1) last) k

/-- The arguments a step passes to its continuation. -/
def StepResult.outArgs : StepResult → List Val
  | .callNext a => a
  | .deferNext a => a
  | _ => []

/-- The step advances: it calls its continuation, returns it, or hands it over. -/
def StepResult.advances : StepResult → Bool
  | .callNext _ => true
  | .returnNext => true
  | .deferNext _ => true
  | _ => false

/-- The step advances before it returns. -/
def StepResult.advancesNow : StepResult → Bool
  | .callNext _ => true
  | .returnNext => true
  | _ => false

/-- Every step advances, the first one receiving `args` and each next one what the
previous one passed on. -/
def advancesAll : List Step → List Val → Bool
  | [], _ => true
  | st :: rest, args => (st args).advances && advancesAll rest (st args).outArgs

/-- The run the specification describes, for steps numbered from `k`, the first one
receiving `args`: each step in declared order with the arguments the previous
step passed on, then the callback with the arguments of the last step. -/
def expectedTrace (cb : Option Nat) : List Step → Nat → List Val → List SEv
  | [], _, args =>
    match cb with
    | some c => [SEv.callback c args]
    | none => []
  | st :: rest, k, args => SEv.step k args :: expectedTrace cb rest (k + 1) (st args).outArgs

/-- The index of the step an event is the start of. -/
def SEv.stepNum : SEv → Option Nat
  | .step k _ => some k
  | _ => none

/-- Steps `0 .. k-1` advance and step `k` throws `e`, the first step receiving `args`. -/
def throwsAt : List Step → Nat → Val → List Val → Prop
  | [], _, _, _ => False
  | st :: _, 0, e, args => st args = .throws e
  | st :: rest, k + 1, e, args => (st args).advances = true ∧ throwsAt rest k e (st args).outArgs

/-- Steps `0 .. k-1` all advance before they return, the first step receiving `args`. -/
def syncBefore : List Step → Nat → List Val → Bool
  | [], _, _ => true
  | _ :: _, 0, _ => true
  | st :: rest, k + 1, args => (st args).advancesNow && syncBefore rest k (st args).outArgs

/-- The starts of the steps numbered `b .. b+k`, each with the arguments the
previous step passed on. -/
def traceUpTo : List Step → Nat → Nat → List Val → List SEv
  | [], _, _, _ => []
  | _ :: _, 0, b, args => [SEv.step b args]
  | st :: rest, k + 1, b, args => SEv.step b args :: traceUpTo rest k (b + 1) (st args).outArgs

/-- The call of the fault handler, when there is one. -/
def faultEvents (handler : Option Nat) (stepnum : Nat) (e : Val) : List SEv :=
  match handler with
  | some h => [SEv.handler h stepnum e]
  | none => []

/-- What the innermost `catch` throws again: nothing with a handler, `e` without. -/
def thrownTo (handler : Option Nat) (e : Val) : Option Val :=
  match handler with
  | some _ => none
  | none => some e

/-! ## `lib/base.js`

The supervisor is modelled once `initLog` has run, so that `this.logger` exists;
calls of the logger are left out. `this.ipc` is the channel given to `registerIPC`,
which binds it to a process, so that `ipc.send` transmits. Node's `fs` and `process`
are modelled by their documented behaviour. -/

/-- The file system as the supervisor uses it: the files (path and content), the
paths whose removal the operating system refuses, and the paths that cannot be
written (a missing or protected directory, a protected file). -/
structure Fs where
  files : List (String × String)
  pinned : List String
  unwritable : List String := []
  deriving DecidableEq, Repr

/-- Whether a file exists at `path`. -/
def Fs.has (fs : Fs) (path : String) : Bool := fs.files.any (fun f => f.1 == path)

/-- Node's `fs.statSync(path)`: a `Stats` object when the file exists, an exception
otherwise. -/
def Fs.statSync (fs : Fs) (path : String) : Except Val Val :=
  if fs.has path then .ok (.obj 0) else .error (.err "ENOENT")

/-- Node's `fs.writeFileSync(path, data)`: the file is created or replaced, or an
exception is thrown when the path cannot be written. -/
def Fs.writeFileSync (fs : Fs) (path data : String) : Except Val Fs :=
  if fs.unwritable.contains path then .error (.err "EACCES")
  else .ok { fs with files := fs.files.filter (fun f => f.1 != path) ++ [(path, data)] }

/-- Node's `fs.unlinkSync(path)`: the file is removed, or an exception is thrown
when there is no such file or its removal is refused. -/
def Fs.unlinkSync (fs : Fs) (path : String) : Except Val Fs :=
  if fs.has path && !fs.pinned.contains path then
    .ok { fs with files := fs.files.filter (fun f => f.1 != path) }
  else .error (.err "unlink failed")

/-- The configuration fields read by the modelled methods. A field that is absent
or falsy is the empty string, `0` or `false`: the code only tests truthiness. -/
structure Cfg where
  init : Bool
  failok : Bool
  lockFile : String
  maxiumum_memory_usage : Nat
  deriving DecidableEq, Repr

/-- What a registered cleanup callback does when called with `(handle, graceful)`:
it calls the handle before it returns, it hands the handle over for a later call,
or it throws. -/
inductive Cleanup where
  | callsNow
  | callsLater
  | throws (e : Val)
  deriving DecidableEq, Repr

/-- What a registered tick callback does when called with `(handle)`: it calls the
handle before it returns, it hands the handle over for a later call, or it throws. -/
inductive Tick where
  | callsNow
  | callsLater
  | throws (e : Val)
  deriving DecidableEq, Repr

/-- The fields of the supervisor read or written by the modelled methods
(`lockfile` is the empty string and `_cleanups` is `none` while unset; `_ticks` is
empty while unset, `for (var id in this._ticks)` making no difference between the
two). -/
structure BaseController where
  cfg : Cfg
  _exitstatus : Nat
  lockfile : String
  _is_locking : Bool
  locked : Bool
  _exiting : Bool
  interval_selfCheck : Bool
  interval_tick : Bool
  _cleanups : Option (List Cleanup)
  initialized : Bool := false
  _runTimeout : Bool := false
  _ticks : List Tick := []
  deriving DecidableEq, Repr

/-- The functions given to timers. -/
inductive TimerFn where
  | retryBegin
  | selfCheck
  | tick
  deriving DecidableEq, Repr

/-- Observable effects of the supervisor, in order: a cleanup callback called, a
timer set, a message sent to the parent, `process.exit`, a tick callback called,
the pending-exit callback `this._exiting()` called. -/
inductive BEv where
  | cleanup (i : Nat)
  | setTimeout (what : TimerFn) (ms : Nat)
  | setInterval (what : TimerFn) (ms : Nat)
  | ipcSend (name : String)
  | exit (code : Nat)
  | tick (i : Nat)
  | exiting
  deriving DecidableEq, Repr

/-- A cleanup batch in flight: the `ASync` object made by `cleanup` and the handles
handed over to cleanup callbacks and not yet called. -/
structure Batch where
  sync : ASync
  pending : List Handle
  deriving DecidableEq, Repr

/-- A tick batch: the `ASync` object made by `exec`, the handles handed over to tick
callbacks and not yet called, and the handles handed over and called at least once
(a tick callback that keeps its handle can call it again). -/
structure TickBatch where
  sync : ASync
  pending : List Handle
  called : List Handle := []
  deriving DecidableEq, Repr

/-- The process: the supervisor, the file system, the process identifier, the
module-level `initial_mem_usage` of `base.js` and `seq` of `async.js`, the cleanup
batches in flight, the exit status once `process.exit` was called, and the log;
then the number of calls of `exec` queued with `process.nextTick` and not yet run,
and the tick batches made by `exec`. -/
structure World where
  ctl : BaseController
  fs : Fs
  pid : Nat
  initial_mem_usage : Nat
  seq : Nat
  batches : List Batch
  exited : Option Nat
  log : List BEv
  scheduledExec : Nat := 0
  tickBatches : List TickBatch := []
  deriving DecidableEq, Repr

/-- The method `_lockFile()`. -/
def BaseController._lockFile (c : BaseController) : String :=
  if c.cfg.lockFile ≠ "" then c.cfg.lockFile ++ ".lock" else ""

/-- The method `isLocked()`:
`try { return !fs.statSync(this.lockfile || this._lockFile()); } catch(e) { return false; }`. -/
def isLocked (w : World) : Bool :=
  match w.fs.statSync (if w.ctl.lockfile ≠ "" then w.ctl.lockfile else w.ctl._lockFile) with
  | .ok stats => !stats.truthy
  | .error _ => false

/-- The method `setLock()`: the process afterwards, and the value returned or the
exception thrown by `fs.writeFileSync`. `_is_locking` and `lockfile` are assigned
before the write, so they stay set when the write throws. -/
def setLock (w : World) : World × Except Val Bool :=
  if isLocked w then (w, .ok false)
  else if w.ctl._lockFile ≠ "" then
    match w.fs.writeFileSync w.ctl._lockFile (toString w.pid) with
    | .ok fs1 =>
      ({ w with ctl := { w.ctl with _is_locking := true, lockfile := w.ctl._lockFile },
                fs := fs1 }, .ok true)
    | .error e =>
      ({ w with ctl := { w.ctl with _is_locking := true, lockfile := w.ctl._lockFile } },
        .error e)
  else (w, .ok true)

/-- The method `releaseLock()`. -/
def releaseLock (w : World) : World × Bool :=
  if !w.ctl._is_locking then (w, false)
  else
    let w1 : World := { w with ctl := { w.ctl with _is_locking := false } }
    match w1.fs.unlinkSync w1.ctl.lockfile with
    | .ok fs1 => ({ w1 with fs := fs1 }, true)
    | .error _ => (w1, true)

/-- The method `kill()`: `this.releaseLock(); process.exit(0);`. -/
def kill (w : World) : World :=
  let w1 := (releaseLock w).1
  { w1 with exited := some 0, log := w1.log ++ [BEv.exit 0] }

/-- The method `restart()`: `this.ipc.send('restart')`. -/
def restart (w : World) : World := { w with log := w.log ++ [BEv.ipcSend "restart"] }

/-- The method `handleSelfCheck()`. `rss` is `process.memoryUsage().rss`; `idle` is
the idle predicate: `none` when `this._idleCheck` is unset, else the truthiness of
what it returns (the default `_idleCheck` returns `false`). -/
def handleSelfCheck (w : World) (rss : Nat) (idle : Option Bool) : World :=
  let w1 : World :=
    if w.initial_mem_usage = 0 then
      { w with initial_mem_usage :=
          if w.ctl.cfg.maxiumum_memory_usage ≠ 0 then w.ctl.cfg.maxiumum_memory_usage
          else 768 * 1024 * 1024 }
    else w
  if rss ≥ w1.initial_mem_usage then restart w1
  else if 2 * rss ≥ w1.initial_mem_usage && idle == some true then restart w1
  else w1

/-- The method `begin()`, with the inputs of the self-check it runs: the process
afterwards, and the value returned or the exception thrown (by the write of
`setLock()`, before any timer is started). -/
def begin (w : World) (rss : Nat) (idle : Option Bool) : World × Except Val Bool :=
  if isLocked w then
    ({ w with ctl := { w.ctl with locked := true },
              log := w.log ++ [BEv.setTimeout .retryBegin 10000] }, .ok false)
  else
    match (setLock w).2 with
    | .error e => ((setLock w).1, .error e)
    | .ok _ =>
      let w1 := (setLock w).1
      let w2 : World :=
        { w1 with ctl := { w1.ctl with _exiting := false, interval_selfCheck := true,
                                       interval_tick := true },
                  log := w1.log ++ [BEv.setInterval .selfCheck (10 * 60 * 1000),
                                    BEv.setInterval .tick (1 * 1000)] }
      (handleSelfCheck w2 rss idle, .ok true)

/-- Whether a call of the group made by `cleanup` calls `kill`: both the success
callback and the fault handler of that group are `kill`. -/
def callsKill (evs : List Ev) : Bool :=
  evs.any (fun ev =>
    match ev with
    | .success _ _ _ => true
    | .fault _ _ => true
    | _ => false)

/-- The identifier standing for the bound function `this.kill.bind(this)`. -/
def killFn : Nat := 0

/-- The loop of `cleanup`: `this._cleanups[i](sync.getHandler(), graceful)` for each
`i`. Returns the process, the group, the handles handed over, and the exception
that ended the loop, if any. -/
def cleanupLoop (w : World) (sync : ASync) (pending : List Handle) :
    Nat → List Cleanup → World × ASync × List Handle × Option Val
  | _, [] => (w, sync, pending, none)
  | i, c :: cs =>
    match sync.getHandler w.seq .undefined .undefined with
    | .error e => (w, sync, pending, some e)
    | .ok (g, seq1, h) =>
      let w1 : World := { w with seq := seq1, log := w.log ++ [BEv.cleanup i] }
      match c with
      | .callsNow => cleanupLoop w1 (g.invoke h none false).1 pending (i + 1) cs
      | .callsLater => cleanupLoop w1 g (pending ++ [h]) (i + 1) cs
      | .throws e => (w1, g, pending, some e)

/-- The method `cleanup(callback, graceful)` with `callback = this.kill.bind(this)`,
as `shutdown` calls it. Returns the process and the exception thrown to the
caller, if any. After `kill` the process has exited and nothing else runs. -/
def cleanup (w : World) : World × Option Val :=
  match w.ctl._cleanups with
  | none => (kill w, none)
  | some cs =>
    match cleanupLoop w ASync.new [] 0 cs with
    | (w1, _, _, some e) => (w1, some e)
    | (w1, sync, pending, none) =>
      let r := sync.wait (.fn killFn) .undefined false
      if callsKill r.log then (kill w1, none)
      else
        let r2 := r.g.error (.fn killFn) .undefined
        if callsKill r2.log then (kill w1, none)
        else ({ w1 with batches := w1.batches ++ [{ sync := r2.g, pending := pending }] }, none)

/-- The method `shutdown(force)`. Once the process has exited nothing runs. -/
def shutdown (w : World) (force : Bool) : World × Option Val :=
  if w.exited.isSome then (w, none)
  else if w.ctl._exitstatus ≥ 3 && !force then (w, none)
  else cleanup { w with ctl := { w.ctl with _exitstatus := 3 } }

/-- A handle handed over to a cleanup callback is called: the `j`-th pending handle
of the `b`-th batch. -/
def fire (w : World) (b j : Nat) : World :=
  if w.exited.isSome then w
  else
    match w.batches[b]? with
    | none => w
    | some batch =>
      match batch.pending[j]? with
      | none => w
      | some h =>
        let p := batch.sync.invoke h none false
        let w1 : World :=
          { w with batches := w.batches.set b { sync := p.1, pending := batch.pending.eraseIdx j } }
        if callsKill p.2 then kill w1 else w1

/-- Handles handed over are called, in the given order. -/
def fireAll (w : World) (fires : List (Nat × Nat)) : World :=
  fires.foldl (fun w f => fire w f.1 f.2) w

/-- The indices of the cleanup callbacks called, in call order. -/
def cleanupCalls (log : List BEv) : List Nat :=
  log.filterMap (fun ev =>
    match ev with
    | .cleanup i => some i
    | _ => none)

/-- The number of calls of `process.exit` in a log. -/
def exitCount (log : List BEv) : Nat :=
  log.countP (fun ev =>
    match ev with
    | .exit _ => true
    | _ => false)

/-- The number of restart requests sent to the parent in a log. -/
def restartCount (log : List BEv) : Nat :=
  log.countP (fun ev => ev == BEv.ipcSend "restart")

/-- An initial process for examples: nothing locked, no file, no cleanup registered. -/
def World.start (cfg : Cfg) (fs : Fs) : World :=
  { ctl := { cfg := cfg, _exitstatus := 1, lockfile := "", _is_locking := false, locked := false,
             _exiting := false, interval_selfCheck := false, interval_tick := false,
             _cleanups := none },
    fs := fs, pid := 4242, initial_mem_usage := 0, seq := 0, batches := [], exited := none,
    log := [] }

/-- The cleanup callback does not throw. -/
def Cleanup.returns : Cleanup → Bool
  | .throws _ => false
  | _ => true

/-- An initialized supervisor with the given cleanup callbacks registered, no lock
file configured and an empty file system. -/
def World.example1 (cs : List Cleanup) : World :=
  let w := World.start { init := true, failok := false, lockFile := "", maxiumum_memory_usage := 0 }
    { files := [], pinned := [] }
  { w with ctl := { w.ctl with _cleanups := some cs } }

/-- An initialized supervisor configured with the lock file `/tmp/app`, on an empty
file system. -/
def World.example2 : World :=
  World.start { init := true, failok := false, lockFile := "/tmp/app", maxiumum_memory_usage := 0 }
    { files := [], pinned := [] }

/-- The ceiling a self-check compares with: the value captured by an earlier
self-check, else `cfg.maxiumum_memory_usage`, else `768 * 1024 * 1024`. -/
def capturedCeiling (w : World) : Nat :=
  if w.initial_mem_usage ≠ 0 then w.initial_mem_usage
  else if w.ctl.cfg.maxiumum_memory_usage ≠ 0 then w.ctl.cfg.maxiumum_memory_usage
  else 768 * 1024 * 1024

/-- The function given to `setTimeout` by `begin()` when locked:
`function() { ref.begin(); ref.handleSelfCheck(); }`. -/
def retryBegin (w : World) (rss : Nat) (idle : Option Bool) : World × Option Val :=
  match (begin w rss idle).2 with
  | .error e => ((begin w rss idle).1, some e)
  | .ok _ => (handleSelfCheck (begin w rss idle).1 rss idle, none)

/-! ## `lib/ipc.js`

A link (a process-like object) is an identifier. The listeners that `setProcess`
registers on a link are never removed; the channel keeps in `bound` one entry per
registration. -/

/-- The calls a channel makes: `this.emit(name, ...args)` on itself, and
`this._process.send(msg)` on its link. -/
inductive IEv where
  | emit (name : Val) (args : List Val)
  | transmit (link : Nat) (msg : List Val)
  deriving DecidableEq, Repr

/-- The fields of an `IPC` object: the link stored in `_process`, and the links on
which the channel has registered its `message` and `close` listeners. -/
structure IPC where
  _process : Option Nat
  bound : List Nat
  deriving DecidableEq, Repr

/-- The method `setProcess(proc)`. -/
def IPC.setProcess (c : IPC) (proc : Nat) : IPC :=
  { _process := some proc, bound := c.bound ++ [proc] }

/-- The constructor `new IPC(proc)`: `if (proc) this.setProcess(proc)`. -/
def IPC.new (proc : Option Nat) : IPC :=
  match proc with
  | some p => IPC.setProcess { _process := none, bound := [] } p
  | none => { _process := none, bound := [] }

/-- The call `this.emit.apply(this, msg)` of the `message` listener. -/
def emitApply (msg : List Val) : IEv :=
  match msg with
  | [] => IEv.emit .undefined []
  | name :: payload => IEv.emit name payload

/-- The link `link` delivers the message `msg`: every `message` listener the
channel registered on that link runs. -/
def IPC.onMessage (c : IPC) (link : Nat) (msg : List Val) : List IEv :=
  (c.bound.filter (fun l => l == link)).map (fun _ => emitApply msg)

/-- The link `link` reports `close`: every `close` listener the channel registered on
that link runs `this.emit('close')`. -/
def IPC.onClose (c : IPC) (link : Nat) : List IEv :=
  (c.bound.filter (fun l => l == link)).map (fun _ => IEv.emit (.str "close") [])

/-- The method `send(...args)`: the calls made and the exception thrown, `linkThrows`
being what `this._process.send(msg)` throws, if anything. -/
def IPC.send (c : IPC) (args : List Val) (linkThrows : Option Val) : List IEv × Option Val :=
  match c._process with
  | none => ([], none)
  | some p => ([IEv.transmit p args], linkThrows)

/-! ## `lib/streambuffer.js`

A buffer is the list of its bytes. -/

/-- The fields of a `StreamBuffer`. -/
structure StreamBuffer where
  writable : Bool
  _buffers : List (List Nat)
  _size : Nat
  deriving DecidableEq, Repr

/-- The constructor `new StreamBuffer()`. -/
def StreamBuffer.new : StreamBuffer := { writable := true, _buffers := [], _size := 0 }

/-- The method `write(data, encoding)`, `data` being the bytes of the chunk (after
`new Buffer(data, encoding)` when it is not a buffer). -/
def StreamBuffer.write (s : StreamBuffer) (data : List Nat) : StreamBuffer × Bool :=
  ({ s with _buffers := s._buffers ++ [data], _size := s._size + data.length }, true)

/-- The method `getSize()`. -/
def StreamBuffer.getSize (s : StreamBuffer) : Nat := s._size

/-- Node's `src.copy(target, targetStart)`: the bytes of `src` that fit are written
into `target` from `targetStart` on. -/
def bufCopy (src target : List Nat) (targetStart : Nat) : List Nat :=
  target.take targetStart ++ src.take (target.length - targetStart)
    ++ target.drop (targetStart + min src.length (target.length - targetStart))

/-- The loop of `copyToBuffer`:
`this._buffers.forEach(function(buf) { buf.copy(buffer, start); start += buf.length; })`. -/
def copyLoop : List (List Nat) → List Nat → Nat → List Nat × Nat
  | [], buffer, start => (buffer, start)
  | buf :: rest, buffer, start => copyLoop rest (bufCopy buf buffer start) (start + buf.length)

/-- The method `copyToBuffer(buffer, start)`: the buffer afterwards and the returned
position, or the thrown error (`start` is `none` when omitted). -/
def StreamBuffer.copyToBuffer (s : StreamBuffer) (buffer : List Nat) (start : Option Nat) :
    Except Val (List Nat × Nat) :=
  if start.getD 0 ≥ buffer.length then .error (.err "start position is out of bounds")
  else if start.getD 0 + s._size > buffer.length then .error (.err "insufficient buffer size")
  else .ok (copyLoop s._buffers buffer (start.getD 0))

/-- The method `getBuffer()`. `new Buffer(n)` does not clear its memory: `junk i` is
the byte found at position `i`. -/
def StreamBuffer.getBuffer (s : StreamBuffer) (junk : Nat → Nat) : Except Val (List Nat) :=
  if s._size = 0 then .ok []
  else
    match s.copyToBuffer ((List.range s._size).map junk) none with
    | .ok r => .ok r.1
    | .error e => .error e

/-- The chunks are written in order. -/
def StreamBuffer.writeAll (s : StreamBuffer) (chunks : List (List Nat)) : StreamBuffer :=
  chunks.foldl (fun s c => (s.write c).1) s

/-! ### The tick loop of `lib/base.js` -/

/-- Whether a call of the group made by `exec` calls one of its two callbacks: the
success callback and the fault handler of that group both clear `_runTimeout`. -/
def clearsGuard (evs : List Ev) : Bool :=
  evs.any (fun ev =>
    match ev with
    | .success _ _ _ => true
    | .fault _ _ => true
    | _ => false)

/-- The identifier standing for the success callback that `exec` gives to `wait`. -/
def tickDoneFn : Nat := 1

/-- The identifier standing for the fault handler that `exec` gives to `error`. -/
def tickFaultFn : Nat := 2

/-- The method `run()`:
`if (this._runTimeout) return; this._runTimeout = true; process.nextTick(this.exec.bind(this));`. -/
def run (w : World) : World :=
  if w.ctl._runTimeout then w
  else { w with ctl := { w.ctl with _runTimeout := true }, scheduledExec := w.scheduledExec + 1 }

/-- The method `handleTick()`. -/
def handleTick (w : World) : World := run w

/-- The loop of `exec`: `this._ticks[id](sync.getHandler())` for each `id`, `b` being
the batch so far. Returns the process, the batch, and the exception that ended the
loop, if any. -/
def execLoop (w : World) (b : TickBatch) : Nat → List Tick → World × TickBatch × Option Val
  | _, [] => (w, b, none)
  | i, c :: cs =>
    match b.sync.getHandler w.seq .undefined .undefined with
    | .error e => (w, b, some e)
    | .ok (g, seq1, h) =>
      let w1 : World := { w with seq := seq1, log := w.log ++ [BEv.tick i] }
      match c with
      | .callsNow =>
        execLoop w1 { b with sync := (g.invoke h none false).1, called := b.called ++ [h] }
          (i + 1) cs
      | .callsLater => execLoop w1 { b with sync := g, pending := b.pending ++ [h] } (i + 1) cs
      | .throws e => (w1, { b with sync := g }, some e)

/-- The process with the guard `_runTimeout` cleared when `clear` holds. -/
def World.clearGuardIf (w : World) (clear : Bool) : World :=
  if clear then { w with ctl := { w.ctl with _runTimeout := false } } else w

/-- The method `exec()`. Returns the process and the exception thrown to the caller,
if any. `cleaned_up` is never assigned in the source, so `!this.cleaned_up` holds. -/
def exec (w : World) : World × Option Val :=
  match execLoop w { sync := ASync.new, pending := [] } 0 w.ctl._ticks with
  | (w1, b, some e) => ({ w1 with tickBatches := w1.tickBatches ++ [b] }, some e)
  | (w1, b, none) =>
    let r := b.sync.wait (.fn tickDoneFn) .undefined false
    let w2 := w1.clearGuardIf (clearsGuard r.log)
    let r2 := r.g.error (.fn tickFaultFn) .undefined
    let w3 := w2.clearGuardIf (clearsGuard r2.log)
    let w4 : World := { w3 with tickBatches := w3.tickBatches ++ [{ b with sync := r2.g }] }
    if w4.ctl._exiting then ({ w4 with log := w4.log ++ [BEv.exiting] }, none) else (w4, none)

/-- A handle handed over to a tick callback is called for the first time: the `j`-th
pending handle of the `b`-th tick batch. -/
def fireTick (w : World) (b j : Nat) : World :=
  match w.tickBatches[b]? with
  | none => w
  | some batch =>
    match batch.pending[j]? with
    | none => w
    | some h =>
      let p := batch.sync.invoke h none false
      let nb : TickBatch :=
        { sync := p.1, pending := batch.pending.eraseIdx j, called := batch.called ++ [h] }
      let w1 : World := { w with tickBatches := w.tickBatches.set b nb }
      w1.clearGuardIf (clearsGuard p.2)

/-- A handle that was already called is called again: the `j`-th called handle of the
`b`-th tick batch. -/
def refireTick (w : World) (b j : Nat) : World :=
  match w.tickBatches[b]? with
  | none => w
  | some batch =>
    match batch.called[j]? with
    | none => w
    | some h =>
      let p := batch.sync.invoke h none false
      let w1 : World := { w with tickBatches := w.tickBatches.set b { batch with sync := p.1 } }
      w1.clearGuardIf (clearsGuard p.2)

/-- What can happen to the tick loop: the tick timer calls `handleTick()`, a queued
call of `exec` runs, a handle handed over to a tick callback is called for the first
time, a handle is called again. -/
inductive TickOp where
  | handleTick
  | runQueued
  | fire (b j : Nat)
  | refire (b j : Nat)
  deriving DecidableEq, Repr

/-- Whether the event is a repeated call of a handle. -/
def TickOp.isRefire : TickOp → Bool
  | .refire _ _ => true
  | _ => false

/-- One event of the tick loop; nothing runs once the process has exited. -/
def tickStep (w : World) (op : TickOp) : World :=
  if w.exited.isSome then w
  else
    match op with
    | .handleTick => handleTick w
    | .runQueued =>
      if w.scheduledExec = 0 then w
      else (exec { w with scheduledExec := w.scheduledExec - 1 }).1
    | .fire b j => fireTick w b j
    | .refire b j => refireTick w b j

/-- A sequence of events of the tick loop, in order. -/
def tickRun (w : World) (ops : List TickOp) : World := ops.foldl tickStep w

/-- The number of tick batches scheduled or running: the queued calls of `exec`,
and the batches that still have a handle that was never called. -/
def inFlight (w : World) : Nat :=
  w.scheduledExec + w.tickBatches.countP (fun b => !b.pending.isEmpty)

/-- A batch as `exec` makes them: the handles handed over carry no function, and
either the loop was cut short by an exception, so that the group has no callback, or
the outstanding set is exactly the identifiers of the handles handed over and not
yet called. -/
def TickBatch.good (b : TickBatch) : Prop :=
  (∀ h ∈ b.pending, h.fn = Val.undefined) ∧
  (∀ h ∈ b.called, h.fn = Val.undefined) ∧
  (b.sync.callback = none ∨ b.sync._waits.Perm (b.pending.map Handle.id))

/-- Invariant of the tick loop while no handle is called twice: with the guard clear
nothing is scheduled or running; at most one batch is scheduled or running; every
batch is good. -/
structure TickInv (w : World) : Prop where
  idle : w.ctl._runTimeout = false → inFlight w = 0
  one : inFlight w ≤ 1
  good : ∀ b ∈ w.tickBatches, b.good

/-- An initialized supervisor with the given tick callbacks registered. -/
def World.example3 (ticks : List Tick) : World :=
  { World.example2 with ctl := { World.example2.ctl with _ticks := ticks } }

/-! ### `init` of `lib/base.js` -/

/-- The identifier standing for the success callback that `init` gives to `Seq.run`. -/
def initDoneFn : Nat := 3

/-- The identifier standing for the fault handler that `init` gives to `Seq.run`. -/
def initFaultFn : Nat := 4

/-- The method `initLog()`, as far as the modelled state goes: it registers a cleanup
callback that hands its handle to `logger.close` on the next tick. -/
def initLog (w : World) : World :=
  { w with ctl := { w.ctl with
      _cleanups := some (w.ctl._cleanups.getD [] ++ [Cleanup.callsLater]) } }

/-- The array of steps that `init` gives to `Seq.run`: first
`function(next) { process.nextTick(next); }`, then the ten phases
(`initBeforeConfig`, `initConfig`, the `config` event, `initBeforeServices`,
`initServices`, the `services` event, `initBeforeHandlers`, `initHandlers`, the
`handlers` event, `initBeforeDone`), whose behaviour depends on the overridden
hooks, the configured services and the listeners, and is given by `phases`. -/
def initPipeline (phases : List Step) : List Step :=
  (fun _ => StepResult.deferNext []) :: phases

/-- What the collaborators called by the success callback of `init` do: what
`ref.emit('init')` throws (a listener of `init` that throws) and what
`ref.ipc.send('init')` throws (the link refusing the message), if anything. -/
structure InitHooks where
  emitThrows : Option Val
  sendThrows : Option Val
  deriving DecidableEq, Repr

/-- Observable calls of the init pipeline: a step called with its forwarded
arguments, the success callback called, the fault handler called with
`(stepnum, e)`, `shutdown()` called by the fault handler. -/
inductive InitEv where
  | step (stepnum : Nat) (args : List Val)
  | done
  | fault (stepnum : Nat) (e : Val)
  | shutdown
  deriving DecidableEq, Repr

/-- The success callback that `init` gives to `Seq.run`:
`ref.emit('init'); ...; ref.initialized = true; ref.ipc.send('init');`. Returns the
process and the exception thrown, if any; a message that the link refuses does not
reach the parent. -/
def initDone (hooks : InitHooks) (w : World) : World × Option Val :=
  match hooks.emitThrows with
  | some e => (w, some e)
  | none =>
    match hooks.sendThrows with
    | some e => ({ w with ctl := { w.ctl with initialized := true } }, some e)
    | none =>
      ({ w with ctl := { w.ctl with initialized := true },
                log := w.log ++ [BEv.ipcSend "init"] }, none)

/-- The fault handler that `init` gives to `Seq.run`:
`function(step, e) { ...; if (!cfg.failok) ref.shutdown(); }`. Returns the process,
the call of `shutdown()` if it is made, and the exception thrown, if any. -/
def initFault (failok : Bool) (w : World) : World × List InitEv × Option Val :=
  if failok then (w, [], none)
  else ((shutdown w false).1, [InitEv.shutdown], (shutdown w false).2)

/-- Result of calling a continuation of the init pipeline: the process afterwards,
the calls made before it returned, the continuations handed over for a later call,
and the exception thrown to the caller, if any. -/
structure InitRes where
  w : World
  log : List InitEv
  pending : List (Target × List Val)
  thrown : Option Val

/-- The `try` block of a closure of `stepHandler`, as `tryStep`, the process being
passed along. -/
def initTry (step : Step) (nextstep : Target) (callNext : World → List Val → InitRes)
    (w : World) (args : List Val) : InitRes :=
  match step args with
  | .callNext a => callNext w a
  | .returnNext => callNext w []
  | .deferNext a => { w := w, log := [], pending := [(nextstep, a)], thrown := none }
  | .throws e => { w := w, log := [], pending := [], thrown := some e }
  | .halt => { w := w, log := [], pending := [], thrown := none }

/-- The `catch` block of a closure of `stepHandler`, `this._handler` being the fault
handler of `init`: an exception of the `try` block is passed to the handler, and
what the handler throws leaves the closure. -/
def initCatch (failok : Bool) (stepnum : Nat) (args : List Val) (body : InitRes) : InitRes :=
  match body.thrown with
  | some e =>
    { w := (initFault failok body.w).1,
      log := InitEv.step stepnum args ::
        (body.log ++ InitEv.fault stepnum e :: (initFault failok body.w).2.1),
      pending := body.pending,
      thrown := (initFault failok body.w).2.2 }
  | none =>
    { w := body.w, log := InitEv.step stepnum args :: body.log, pending := body.pending,
      thrown := none }

/-- A call of a continuation of the init pipeline with `args`: the final callback is
the success callback of `init` (`none`: the default `function(){}`), and it runs, as
in `stepHandler`, inside the `try` block of the closure that calls it. -/
def initCall (hooks : InitHooks) (failok : Bool) : Target → World → List Val → InitRes
  | .callback none, w, _ => { w := w, log := [], pending := [], thrown := none }
  | .callback (some _), w, _ =>
    { w := (initDone hooks w).1, log := [InitEv.done], pending := [],
      thrown := (initDone hooks w).2 }
  | .proxy step nextstep stepnum, w, args =>
    initCatch failok stepnum args (initTry step nextstep (initCall hooks failok nextstep) w args)

/-- What `init(cfg)` does once the pipeline has been started and has not thrown:
`this.begin()`, whose exception leaves `init`. Nothing runs once the process has
exited. -/
def initBegin (w : World) (pending : List (Target × List Val)) (rss : Nat)
    (idle : Option Bool) : World × List (Target × List Val) × Option Val :=
  if w.exited.isSome then (w, pending, none)
  else
    match (begin w rss idle).2 with
    | .error e => ((begin w rss idle).1, pending, some e)
    | .ok _ => ((begin w rss idle).1, pending, none)

/-- The method `init(cfg)`, with the inputs of the self-check that `begin()` runs.
Returns the process, the continuations of the pipeline handed over for a later
call, and the exception thrown to the caller, if any. -/
def init (w : World) (cfg : Cfg) (phases : List Step) (hooks : InitHooks) (rss : Nat)
    (idle : Option Bool) : World × List (Target × List Val) × Option Val :=
  let w1 := initLog { w with ctl := { w.ctl with cfg := cfg, _exitstatus := 1 } }
  if !w1.ctl.initialized then
    if cfg.init then
      let r := initCall hooks cfg.failok
        (Seq.getOf (initPipeline phases) (some initDoneFn) (some initFaultFn)).2 w1 []
      match r.thrown with
      | some e => (r.w, r.pending, some e)
      | none => initBegin r.w r.pending rss idle
    else
      match hooks.sendThrows with
      | some e => ({ w1 with ctl := { w1.ctl with initialized := true } }, [], some e)
      | none =>
        initBegin { w1 with ctl := { w1.ctl with initialized := true },
                            log := w1.log ++ [BEv.ipcSend "init"] } [] rss idle
  else initBegin w1 [] rss idle

/-- Result of the event loop running the init pipeline: the process afterwards, the
calls made, the exceptions that reached the event loop, and the continuations left. -/
structure InitRun where
  w : World
  log : List InitEv
  uncaught : List Val
  left : List (Target × List Val)

/-- The event loop runs the continuations of the init pipeline that were handed
over, at most `fuel` of them; an exception leaving one of them goes to the event
loop. Nothing runs once the process has exited. -/
def initResume (hooks : InitHooks) (failok : Bool) :
    Nat → World → List (Target × List Val) → InitRun
  | 0, w, pending => { w := w, log := [], uncaught := [], left := pending }
  | _ + 1, w, [] => { w := w, log := [], uncaught := [], left := [] }
  | fuel + 1, w, (t, a) :: rest =>
    if w.exited.isSome then { w := w, log := [], uncaught := [], left := (t, a) :: rest }
    else
      { w := (initResume hooks failok fuel (initCall hooks failok t w a).w
                (rest ++ (initCall hooks failok t w a).pending)).w,
        log := (initCall hooks failok t w a).log ++
          (initResume hooks failok fuel (initCall hooks failok t w a).w
            (rest ++ (initCall hooks failok t w a).pending)).log,
        uncaught := (initCall hooks failok t w a).thrown.toList ++
          (initResume hooks failok fuel (initCall hooks failok t w a).w
            (rest ++ (initCall hooks failok t w a).pending)).uncaught,
        left := (initResume hooks failok fuel (initCall hooks failok t w a).w
            (rest ++ (initCall hooks failok t w a).pending)).left }

/-- The number of `init` messages sent to the parent in a log. -/
def initSent (log : List BEv) : Nat := log.countP (fun ev => ev == BEv.ipcSend "init")

/-- Ten phases that advance at once, as the default hooks do with no service
configured. -/
def defaultPhases : List Step := List.replicate 10 (fun _ => StepResult.returnNext)

/-- Listeners and a link that do not throw. -/
def InitHooks.quiet : InitHooks := { emitThrows := none, sendThrows := none }

/-- The index of the step an event is the start of. -/
def InitEv.stepNum : InitEv → Option Nat
  | .step k _ => some k
  | _ => none

/-- Whether the event is a call of the fault handler or of `shutdown()`. -/
def InitEv.isFault : InitEv → Bool
  | .fault _ _ => true
  | .shutdown => true
  | _ => false

/-- The process left by the fault handler of `init`. -/
def faultWorld (failok : Bool) (w : World) : World :=
  if failok then w else (shutdown w false).1

/-- The starts of all the steps, numbered from `k`, each with the arguments the
previous step passed on. -/
def stepEvents : List Step → Nat → List Val → List InitEv
  | [], _, _ => []
  | st :: rest, k, args => InitEv.step k args :: stepEvents rest (k + 1) (st args).outArgs

/-- The starts of the steps numbered `b .. b+k`, each with the arguments the
previous step passed on. -/
def stepEventsUpTo : List Step → Nat → Nat → List Val → List InitEv
  | [], _, _, _ => []
  | _ :: _, 0, b, args => [InitEv.step b args]
  | st :: rest, k + 1, b, args =>
    InitEv.step b args :: stepEventsUpTo rest k (b + 1) (st args).outArgs

/-! ### Control operations on the supervisor -/

/-- The method `reopen()`: it logs, calls `beforeReopen()` (empty in `base.js`) and
`this.logger.reopen()` when there is one; none of the modelled fields changes. -/
def reopen (w : World) : World := w

/-- What can happen to a supervisor: `init(cfg)` is called (by the program or by an
`init` message of the parent), the event loop calls a continuation of the init
pipeline, `begin()`, `shutdown(force)`, `reopen()`, `handleTick()`, a queued call of
`exec` runs, a handle handed to a tick callback is called, or called again,
`handleSelfCheck()`, a handle handed to a cleanup callback is called. -/
inductive CtlOp where
  | init (cfg : Cfg) (phases : List Step) (hooks : InitHooks) (rss : Nat) (idle : Option Bool)
  | initTurn (hooks : InitHooks) (failok : Bool) (t : Target) (args : List Val)
  | begin (rss : Nat) (idle : Option Bool)
  | shutdown (force : Bool)
  | reopen
  | handleTick
  | runQueued
  | fireTick (b j : Nat)
  | refireTick (b j : Nat)
  | handleSelfCheck (rss : Nat) (idle : Option Bool)
  | fire (b j : Nat)

/-- Whether the operation is a call of `init(cfg)`. -/
def CtlOp.isInit : CtlOp → Bool
  | .init _ _ _ _ _ => true
  | _ => false

/-- One control operation; nothing runs once the process has exited. -/
def ctlStep (w : World) (op : CtlOp) : World :=
  if w.exited.isSome then w
  else
    match op with
    | .init cfg phases hooks rss idle => (init w cfg phases hooks rss idle).1
    | .initTurn hooks failok t args => (initCall hooks failok t w args).w
    | .begin rss idle => (begin w rss idle).1
    | .shutdown force => (shutdown w force).1
    | .reopen => reopen w
    | .handleTick => handleTick w
    | .runQueued =>
      if w.scheduledExec = 0 then w
      else (exec { w with scheduledExec := w.scheduledExec - 1 }).1
    | .fireTick b j => fireTick w b j
    | .refireTick b j => refireTick w b j
    | .handleSelfCheck rss idle => handleSelfCheck w rss idle
    | .fire b j => fire w b j

/-- A sequence of control operations, in order. -/
def ctlRun (w : World) (ops : List CtlOp) : World := ops.foldl ctlStep w

/-! # Part II: lemmas and claims -/

/-! ### Lemmas on the array helpers -/

theorem indexOfAux_of_mem (l : List Nat) (x : Nat) (h : x ∈ l) :
    ∃ i, indexOfAux l x = some i ∧ i < l.length ∧ l.take i ++ l.drop (i + 1) = l.erase x := by
  induction l with
  | nil => simp at h
  | cons y ys ih =>
    by_cases hy : y = x
    · exact ⟨0, by simp [indexOfAux, hy]⟩
    · have hx : x ∈ ys := by
        rcases List.mem_cons.1 h with h1 | h1
        · exact absurd h1.symm hy
        · exact h1
      obtain ⟨i, hi, hlt, he⟩ := ih hx
      refine ⟨i + 1, by simp [indexOfAux, hy, hi], by simpa using hlt, ?_⟩
      have hne : (y == x) = false := by simpa using hy
      simp [List.erase_cons, hne, he]

theorem splice_indexOf_of_mem (l : List Nat) (x : Nat) (h : x ∈ l) :
    splice l (indexOf l x) 1 = l.erase x := by
  obtain ⟨i, hi, hlt, he⟩ := indexOfAux_of_mem l x h
  have h1 : ¬ ((i : Int) < 0) := by omega
  have h2 : (min (i : Int) (l.length : Int)).toNat = i := by
    rw [min_eq_left (by omega)]; simp
  have h3 : min 1 (l.length - i) = 1 := by omega
  simp only [splice, indexOf, hi, h1, if_false, h2, h3, he]

theorem splice_nil (start : Int) (n : Nat) : splice [] start n = [] := by
  simp [splice]

theorem invoke_returns (g : ASync) (h : Handle) (r : Bool) (hp : h.plain)
    (hmem : h.id ∈ g._waits) :
    g.invoke h none r
      = (((g.retire h.id)._progress r).1, Ev.invoked h.id :: ((g.retire h.id)._progress r).2) := by
  have hs := splice_indexOf_of_mem g._waits h.id hmem
  rcases hp with hp | hp
  · have ht : h.fn.truthy = true := by
      cases hf : h.fn <;> simp [hf, Val.isFunction] at hp
      simp [Val.truthy]
    simp [ASync.invoke, ASync.tryFn, ASync.retire, ht, hp, hs]
  · simp [ASync.invoke, ASync.tryFn, ASync.retire, hp, hs]

theorem progress_fields (g : ASync) (r : Bool) :
    (g._progress r).1._waits = g._waits ∧ (g._progress r).1.callback = g.callback ∧
    (g._progress r).1._error = g._error ∧ (g._progress r).1.handler = g.handler := by
  unfold ASync._progress
  split
  · split
    · simp
    · split <;> simp
  · simp

theorem progress_log_none (g : ASync) (r : Bool) (h : g.callback = none) :
    (g._progress r).2 = [] := by
  unfold ASync._progress
  split
  · simp [h]
  · rfl

theorem progress_log_some (g : ASync) (r : Bool) (cb : Cb) (h : g.callback = some cb) :
    (g._progress r).2
      = if !g._error.truthy && g._waits.length == 0 then [Ev.success cb g._waits g._error]
        else [] := by
  unfold ASync._progress
  split
  · simp [h]
  · rfl

theorem run_nil (s : Sys) : s.run [] = s := rfl

theorem run_cons (s : Sys) (o : Op) (ops : List Op) : s.run (o :: ops) = (s.step o).run ops := rfl

theorem run_append (s : Sys) (a b : List Op) : s.run (a ++ b) = (s.run a).run b := by
  simp [Sys.run, List.foldl_append]

theorem run_getHandlers (args : List (Val × Val)) (s : Sys) (hcb : s.grp.callback = none) :
    s.run (args.map (fun a => Op.getHandler a.1 a.2))
      = { s with seq := s.seq + args.length,
                 grp := { s.grp with _waits := s.grp._waits ++ List.range' s.seq args.length },
                 handles := s.handles ++ mkHandles s.seq args } := by
  induction args generalizing s with
  | nil => simp [run_nil, mkHandles]
  | cons a as ih =>
    rw [List.map_cons, run_cons]
    have hstep : s.step (Op.getHandler a.1 a.2)
        = { s with seq := s.seq + 1,
                   grp := { s.grp with _waits := s.grp._waits ++ [s.seq] },
                   handles := s.handles ++ mkHandles s.seq [a] } := by
      simp [Sys.step, ASync.getHandler, hcb, mkHandles]
    rw [hstep, ih _ (by simpa using hcb)]
    simp [mkHandles, List.range'_succ, Nat.add_assoc, Nat.add_comm 1]

theorem find_mkHandles (args : List (Val × Val)) (n id : Nat) (h1 : n ≤ id)
    (h2 : id < n + args.length) (hfn : ∀ a ∈ args, a.2.isFunction = true ∨ a.2.truthy = false) :
    ∃ h, (mkHandles n args).find? (fun h => h.id == id) = some h ∧ h.id = id ∧ h.plain := by
  induction args generalizing n with
  | nil => simp at h2; omega
  | cons a as ih =>
    by_cases hn : n = id
    · subst hn
      have ha := hfn a (List.mem_cons_self _ _)
      refine ⟨{ id := n,
                ctx := if a.1.isFunction && !a.2.truthy then Val.null else a.1,
                fn := if a.1.isFunction && !a.2.truthy then a.1 else a.2 }, ?_, rfl, ?_⟩
      · simp [mkHandles]
      · unfold Handle.plain
        by_cases hsw : (a.1.isFunction && !a.2.truthy) = true
        · simp only [hsw, if_true]
          left
          simp only [Bool.and_eq_true] at hsw
          exact hsw.1
        · simp only [hsw]
          simpa using ha
    · have hlt : n + 1 ≤ id := by omega
      obtain ⟨h, hf, hid, hp⟩ := ih (n + 1) hlt (by simp at h2; omega)
        (fun b hb => hfn b (List.mem_cons_of_mem _ hb))
      refine ⟨h, ?_, hid, hp⟩
      simp [mkHandles, hn, hf]

theorem step_invoke_plain (s : Sys) (id : Nat) (r : Bool) (h : Handle)
    (hf : s.handles.find? (fun h => h.id == id) = some h) (hid : h.id = id) (hp : h.plain)
    (hmem : id ∈ s.grp._waits) :
    (s.step (.invoke id none r)).grp._waits = s.grp._waits.erase id ∧
    (s.step (.invoke id none r)).grp.callback = s.grp.callback ∧
    (s.step (.invoke id none r)).grp._error = s.grp._error ∧
    (s.step (.invoke id none r)).handles = s.handles ∧
    (s.step (.invoke id none r)).log
      = s.log ++ Ev.invoked id ::
          (match s.grp.callback with
           | none => []
           | some cb =>
             if !s.grp._error.truthy && (s.grp._waits.erase id).length == 0 then
               [Ev.success cb (s.grp._waits.erase id) s.grp._error]
             else []) := by
  subst hid
  have hi := invoke_returns s.grp h r hp hmem
  have hpf := progress_fields (s.grp.retire h.id) r
  have hst : s.step (.invoke h.id none r)
      = { s with grp := ((s.grp.retire h.id)._progress r).1,
                 log := s.log ++ Ev.invoked h.id :: ((s.grp.retire h.id)._progress r).2 } := by
    simp only [Sys.step, hf, hi]
  rw [hst]
  refine ⟨hpf.1, hpf.2.1, hpf.2.2.1, rfl, ?_⟩
  show s.log ++ Ev.invoked h.id :: ((s.grp.retire h.id)._progress r).2 = _
  cases hc : s.grp.callback with
  | none => rw [progress_log_none (s.grp.retire h.id) r hc]
  | some cb => rw [progress_log_some (s.grp.retire h.id) r cb hc]; rfl

theorem run_invokes_unattached (l : List (Nat × Bool)) (rest : List Nat) (s : Sys)
    (hcb : s.grp.callback = none)
    (hperm : s.grp._waits.Perm (l.map Prod.fst ++ rest))
    (hh : ∀ p ∈ l, ∃ h, s.handles.find? (fun h => h.id == p.1) = some h ∧ h.id = p.1 ∧ h.plain) :
    (s.run (invokeOps l)).grp._waits.Perm rest ∧
    (s.run (invokeOps l)).log = s.log ++ l.map (fun p => Ev.invoked p.1) ∧
    (s.run (invokeOps l)).grp.callback = none ∧
    (s.run (invokeOps l)).grp._error = s.grp._error ∧
    (s.run (invokeOps l)).handles = s.handles := by
  induction l generalizing s with
  | nil => exact ⟨by simpa [invokeOps, run_nil] using hperm, by simp [invokeOps, run_nil], hcb, rfl, rfl⟩
  | cons p t ih =>
    obtain ⟨h, hf, hid, hp⟩ := hh p (List.mem_cons_self _ _)
    have hmem : p.1 ∈ s.grp._waits := hperm.symm.subset (by simp)
    obtain ⟨e1, e2, e3, e4, e5⟩ := step_invoke_plain s p.1 p.2 h hf hid hp hmem
    have hperm1 : (s.step (.invoke p.1 none p.2)).grp._waits.Perm (t.map Prod.fst ++ rest) := by
      rw [e1]
      have := hperm.erase p.1
      simpa using this
    have hh1 : ∀ q ∈ t, ∃ h, (s.step (.invoke p.1 none p.2)).handles.find?
        (fun h => h.id == q.1) = some h ∧ h.id = q.1 ∧ h.plain := by
      intro q hq
      rw [e4]
      exact hh q (List.mem_cons_of_mem _ hq)
    obtain ⟨r1, r2, r3, r4, r5⟩ := ih (s.step (.invoke p.1 none p.2)) (by rw [e2, hcb]) hperm1 hh1
    have hrun : s.run (invokeOps (p :: t)) = (s.step (.invoke p.1 none p.2)).run (invokeOps t) := rfl
    rw [hrun]
    refine ⟨r1, ?_, r3, by rw [r4, e3], by rw [r5, e4]⟩
    rw [r2, e5, hcb]
    simp

theorem run_invokes_attached (l : List (Nat × Bool)) (s : Sys) (cb : Cb)
    (hcb : s.grp.callback = some cb) (herr : s.grp._error.truthy = false) (hne : l ≠ [])
    (hperm : s.grp._waits.Perm (l.map Prod.fst))
    (hh : ∀ p ∈ l, ∃ h, s.handles.find? (fun h => h.id == p.1) = some h ∧ h.id = p.1 ∧ h.plain) :
    (s.run (invokeOps l)).log
      = s.log ++ l.map (fun p => Ev.invoked p.1) ++ [Ev.success cb [] s.grp._error] := by
  induction l generalizing s with
  | nil => exact absurd rfl hne
  | cons p t ih =>
    obtain ⟨h, hf, hid, hp⟩ := hh p (List.mem_cons_self _ _)
    have hmem : p.1 ∈ s.grp._waits := hperm.symm.subset (by simp)
    obtain ⟨e1, e2, e3, e4, e5⟩ := step_invoke_plain s p.1 p.2 h hf hid hp hmem
    have hperm1 : (s.grp._waits.erase p.1).Perm (t.map Prod.fst) := by
      have := hperm.erase p.1
      simpa using this
    have hrun : s.run (invokeOps (p :: t)) = (s.step (.invoke p.1 none p.2)).run (invokeOps t) := rfl
    rw [hrun]
    cases t with
    | nil =>
      have hnil : s.grp._waits.erase p.1 = [] := by simpa using hperm1
      rw [show invokeOps [] = [] from rfl, run_nil, e5, hcb]
      simp [hnil, herr]
    | cons q u =>
      have hlen : (s.grp._waits.erase p.1).length = (q :: u).length := by
        simpa using hperm1.length_eq
      have hh1 : ∀ x ∈ q :: u, ∃ h, (s.step (.invoke p.1 none p.2)).handles.find?
          (fun h => h.id == x.1) = some h ∧ h.id = x.1 ∧ h.plain := by
        intro x hx
        rw [e4]
        exact hh x (List.mem_cons_of_mem _ hx)
      rw [ih (s.step (.invoke p.1 none p.2)) (by rw [e2, hcb]) (by rw [e3, herr])
        (by simp) (by rw [e1]; exact hperm1) hh1, e5, e3, hcb]
      have hz : ((s.grp._waits.erase p.1).length == 0) = false := by
        rw [hlen]; simp
      simp [hz]

theorem successCount_append (a b : List Ev) :
    successCount (a ++ b) = successCount a + successCount b := by
  simp [successCount, List.countP_append]

theorem successCount_invoked (l : List (Nat × Bool)) :
    successCount (l.map (fun p => Ev.invoked p.1)) = 0 := by
  induction l with
  | nil => rfl
  | cons p t ih =>
    have : successCount (Ev.invoked p.1 :: t.map (fun p => Ev.invoked p.1))
        = successCount (t.map (fun p => Ev.invoked p.1)) := by
      simp [successCount, Ev.isSuccess]
    rw [List.map_cons, this, ih]

/-! ## Claims on `ASync` -/

/-- C1: on a fresh group, `N` handles are created with `getHandler` (each with a
function or without one), then every handle is called exactly once, in any order,
the handles of `pre` before `wait`/`success` is given its callback and those of
`post` after it, and no function throws. Then the log of calls is: the `N` handle
calls, followed by one call of the success callback. So the success callback is
called exactly once, and not before the last handle has been called. -/
theorem C1_success_once_after_all_handles (seq0 : Nat) (args : List (Val × Val))
    (hfn : ∀ a ∈ args, a.2.isFunction = true ∨ a.2.truthy = false)
    (wctx wfn : Val) (cb : Cb) (hcb : pickCb wctx wfn = some cb) (r : Bool)
    (pre post : List (Nat × Bool))
    (hperm : ((pre ++ post).map Prod.fst).Perm (List.range' seq0 args.length)) :
    (((Sys.fresh seq0).run (args.map (fun a => Op.getHandler a.1 a.2))).run
        (invokeOps pre ++ [Op.wait wctx wfn r] ++ invokeOps post)).log
      = (pre ++ post).map (fun p => Ev.invoked p.1) ++ [Ev.success cb [] Val.undefined] ∧
    successCount (((Sys.fresh seq0).run (args.map (fun a => Op.getHandler a.1 a.2))).run
        (invokeOps pre ++ [Op.wait wctx wfn r] ++ invokeOps post)).log = 1 := by
  have key : (((Sys.fresh seq0).run (args.map (fun a => Op.getHandler a.1 a.2))).run
        (invokeOps pre ++ [Op.wait wctx wfn r] ++ invokeOps post)).log
      = (pre ++ post).map (fun p => Ev.invoked p.1) ++ [Ev.success cb [] Val.undefined] := by
    rw [run_getHandlers args (Sys.fresh seq0) rfl]
    generalize hs0 : ({ Sys.fresh seq0 with
        seq := (Sys.fresh seq0).seq + args.length,
        grp := { (Sys.fresh seq0).grp with
                 _waits := (Sys.fresh seq0).grp._waits ++ List.range' (Sys.fresh seq0).seq args.length },
        handles := (Sys.fresh seq0).handles ++ mkHandles (Sys.fresh seq0).seq args } : Sys) = s0
    have w0 : s0.grp._waits = List.range' seq0 args.length := by subst hs0; simp [Sys.fresh, ASync.new]
    have c0 : s0.grp.callback = none := by subst hs0; rfl
    have x0 : s0.grp._error = Val.undefined := by subst hs0; rfl
    have l0 : s0.log = [] := by subst hs0; rfl
    have hd0 : s0.handles = mkHandles seq0 args := by subst hs0; simp [Sys.fresh]
    have hall : ∀ p ∈ pre ++ post,
        ∃ h, s0.handles.find? (fun h => h.id == p.1) = some h ∧ h.id = p.1 ∧ h.plain := by
      intro p hp
      have hm : p.1 ∈ List.range' seq0 args.length :=
        hperm.subset (List.mem_map_of_mem Prod.fst hp)
      rw [List.mem_range'_1] at hm
      rw [hd0]
      exact find_mkHandles args seq0 p.1 hm.1 hm.2 hfn
    have hp0 : s0.grp._waits.Perm (pre.map Prod.fst ++ post.map Prod.fst) := by
      rw [w0]; simpa using hperm.symm
    obtain ⟨a1, a2, a3, a4, a5⟩ := run_invokes_unattached pre (post.map Prod.fst) s0 c0 hp0
      (fun p hp => hall p (List.mem_append_left _ hp))
    rw [run_append, run_append]
    generalize hs1 : s0.run (invokeOps pre) = s1 at a1 a2 a3 a4 a5
    have herr1 : s1.grp._error.truthy = false := by rw [a4, x0]; rfl
    -- the call of `wait`
    have hw : (s1.run [Op.wait wctx wfn r]).grp._waits = s1.grp._waits ∧
        (s1.run [Op.wait wctx wfn r]).grp.callback = some cb ∧
        (s1.run [Op.wait wctx wfn r]).grp._error = s1.grp._error ∧
        (s1.run [Op.wait wctx wfn r]).handles = s1.handles ∧
        (s1.run [Op.wait wctx wfn r]).log
          = s1.log ++ (if s1.grp._waits.length == 0 then [Ev.success cb s1.grp._waits s1.grp._error]
                       else []) := by
      by_cases hz : s1.grp._waits.length = 0
      · by_cases hr : cb.ret r = true <;>
          simp [run_cons, run_nil, Sys.step, ASync.wait, hcb, herr1, hz, hr]
      · simp [run_cons, run_nil, Sys.step, ASync.wait, hcb, herr1, hz]
    obtain ⟨b1, b2, b3, b4, b5⟩ := hw
    generalize hs2 : s1.run [Op.wait wctx wfn r] = s2 at b1 b2 b3 b4 b5
    cases hpost : post with
    | nil =>
      subst hpost
      have hnil : s1.grp._waits = [] := by simpa using a1
      rw [show invokeOps [] = [] from rfl, run_nil, b5, a2, l0, hnil, a4, x0]
      simp
    | cons q u =>
      rw [← hpost]
      have hne : post ≠ [] := by rw [hpost]; simp
      have hlen : s1.grp._waits.length = post.length := by simpa using a1.length_eq
      have hpos : ¬ (s1.grp._waits.length = 0) := by
        rw [hlen, hpost]; simp
      rw [run_invokes_attached post s2 cb b2 (by rw [b3]; exact herr1) hne (by rw [b1]; exact a1)
        (fun p hp => by rw [b4, a5]; exact hall p (List.mem_append_right _ hp)),
        b5, b3, a4, x0, a2, l0]
      simp [hpos]
  refine ⟨key, ?_⟩
  rw [key, successCount_append, successCount_invoked]
  rfl

/-- C1, at a concrete group: two handles (identifiers 5 and 6), the second called
before `wait`, the first after it. -/
theorem C1_success_once_witness :
    (((Sys.fresh 5).run [Op.getHandler (.fn 1) .undefined, Op.getHandler .undefined .undefined]).run
        (invokeOps [(6, false)] ++ [Op.wait (.fn 9) .undefined true] ++ invokeOps [(5, true)])).log
      = [Ev.invoked 6, Ev.invoked 5, Ev.success (.direct 9) [] Val.undefined] :=
  (C1_success_once_after_all_handles 5 [(.fn 1, .undefined), (.undefined, .undefined)]
    (by decide) (.fn 9) .undefined (.direct 9) rfl true [(6, false)] [(5, true)] (by decide)).1

theorem successCount_quiet (evs : List Ev) (h : ∀ ev ∈ evs, ev.quiet) : successCount evs = 0 := by
  induction evs with
  | nil => rfl
  | cons e t ih =>
    have he := h e (List.mem_cons_self _ _)
    have ht := ih (fun x hx => h x (List.mem_cons_of_mem _ hx))
    cases e <;> simp [Ev.quiet] at he <;> simpa [successCount, Ev.isSuccess] using ht

theorem tryFn_fields (g : ASync) (h : Handle) (t : Option Val) :
    (g.tryFn h t).1._waits = g._waits ∧ (g.tryFn h t).1.callback = g.callback ∧
    (∀ ev ∈ (g.tryFn h t).2, ev.quiet) := by
  unfold ASync.tryFn ASync.cancel
  split
  · split
    · split
      · refine ⟨rfl, rfl, ?_⟩
        intro ev hev
        split at hev <;> simp at hev
        subst hev; trivial
      · simp
    · refine ⟨rfl, rfl, ?_⟩
      intro ev hev
      split at hev <;> simp at hev
      subst hev; trivial
  · simp

theorem progress_cases (g : ASync) (r : Bool) :
    (g._progress r).2 = [] ∨
    ∃ cb, g.callback = some cb ∧ g._waits = [] ∧ g._error.truthy = false ∧
      (g._progress r).2 = [Ev.success cb [] g._error] := by
  unfold ASync._progress
  split
  · rename_i hc
    simp only [Bool.and_eq_true, Bool.not_eq_true', beq_iff_eq, List.length_eq_zero] at hc
    cases hcb : g.callback with
    | none => left; rfl
    | some cb => right; exact ⟨cb, rfl, hc.2, hc.1, by simp [hc.2]⟩
  · left; rfl

theorem invoke_fields (g : ASync) (h : Handle) (t : Option Val) (r : Bool) :
    (g.invoke h t r).1._waits = splice g._waits (indexOf g._waits h.id) 1 ∧
    (g.invoke h t r).1.callback = g.callback := by
  obtain ⟨a, b, _⟩ := tryFn_fields g h t
  unfold ASync.invoke
  simp only
  obtain ⟨c, d, _, _⟩ := progress_fields
    { (g.tryFn h t).1 with
      _waits := splice (g.tryFn h t).1._waits (indexOf (g.tryFn h t).1._waits h.id) 1 } r
  rw [c, d]
  simp [a, b]

theorem invoke_log (g : ASync) (h : Handle) (t : Option Val) (r : Bool) :
    ∃ evs, (g.invoke h t r).2 = Ev.invoked h.id :: evs ∧
      ((∀ ev ∈ evs, ev.quiet) ∨
       (∃ fs cb e, evs = fs ++ [Ev.success cb [] e] ∧ (∀ ev ∈ fs, ev.quiet) ∧
          e.truthy = false ∧ g.callback = some cb ∧ (g.invoke h t r).1._waits = [])) := by
  obtain ⟨a, b, c⟩ := tryFn_fields g h t
  obtain ⟨w, _⟩ := invoke_fields g h t r
  refine ⟨_, rfl, ?_⟩
  rcases progress_cases { (g.tryFn h t).1 with
      _waits := splice (g.tryFn h t).1._waits (indexOf (g.tryFn h t).1._waits h.id) 1 } r with
    hp | ⟨cb, h1, h2, h3, h4⟩
  · left
    intro ev hev
    rw [hp, List.append_nil] at hev
    exact c ev hev
  · right
    refine ⟨_, cb, _, by rw [h4], c, h3, by rw [← b]; exact h1, ?_⟩
    rw [w, ← a]
    exact h2

theorem wait_cases (g : ASync) (ctx fn : Val) (r : Bool) :
    (g.wait ctx fn r).g._waits = g._waits ∧
    (g.callback.isSome = true → (g.wait ctx fn r).g.callback.isSome = true) ∧
    ((g.wait ctx fn r).log = [] ∨
      ∃ cb e, (g.wait ctx fn r).log = [Ev.success cb [] e] ∧ e.truthy = false ∧
        g._waits = [] ∧ (g.wait ctx fn r).g.callback = some cb ∧ (g.wait ctx fn r).thrown = none) := by
  have key : ∀ g1 : ASync, g1._waits = g._waits →
      (g.callback.isSome = true → g1.callback.isSome = true) →
      ∀ res : Res, res = (if !g1._error.truthy && g1._waits.length == 0 then
          match g1.callback with
          | some cb =>
            { g := if cb.ret r then { g1 with _done := true } else g1,
              log := [Ev.success cb g1._waits g1._error], thrown := none }
          | none => { g := g1, log := [], thrown := some typeError }
        else { g := g1, log := [], thrown := none }) →
      res.g._waits = g._waits ∧
      (g.callback.isSome = true → res.g.callback.isSome = true) ∧
      (res.log = [] ∨
        ∃ cb e, res.log = [Ev.success cb [] e] ∧ e.truthy = false ∧
          g._waits = [] ∧ res.g.callback = some cb ∧ res.thrown = none) := by
    intro g1 hw hc res hres
    by_cases hcond : (!g1._error.truthy && g1._waits.length == 0) = true
    · have hc2 := hcond
      simp only [Bool.and_eq_true, Bool.not_eq_true', beq_iff_eq, List.length_eq_zero] at hc2
      rw [if_pos hcond] at hres
      cases hcb : g1.callback with
      | none =>
        rw [hcb] at hres
        subst hres
        exact ⟨hw, hc, Or.inl rfl⟩
      | some cb =>
        rw [hcb] at hres
        by_cases hr : cb.ret r = true
        · simp only [hr, if_true] at hres
          subst hres
          exact ⟨hw, fun _ => by simp [hcb],
            Or.inr ⟨cb, g1._error, by simp [hc2.2], hc2.1, by rw [← hw]; exact hc2.2, rfl, rfl⟩⟩
        · simp only [hr] at hres
          subst hres
          exact ⟨hw, fun _ => by simp [hcb],
            Or.inr ⟨cb, g1._error, by simp [hc2.2], hc2.1, by rw [← hw]; exact hc2.2, hcb, rfl⟩⟩
    · rw [if_neg hcond] at hres
      subst hres
      exact ⟨hw, hc, Or.inl rfl⟩
  cases hp : pickCb ctx fn with
  | none => exact key g rfl (fun h => h) _ (by simp [ASync.wait, hp])
  | some cb => exact key { g with callback := some cb } rfl (fun _ => rfl) _ (by simp [ASync.wait, hp])

theorem error_cases (g : ASync) (ctx fn : Val) :
    (g.error ctx fn).g._waits = g._waits ∧ (g.error ctx fn).g.callback = g.callback ∧
    (∀ ev ∈ (g.error ctx fn).log, ev.quiet) := by
  unfold ASync.error
  cases hp : pickCb ctx fn with
  | none =>
    simp only
    split
    · split
      · refine ⟨rfl, rfl, ?_⟩
        intro ev hev
        simp at hev; subst hev; trivial
      · simp
    · simp
  | some h =>
    simp only
    split
    · refine ⟨rfl, rfl, ?_⟩
      intro ev hev
      simp at hev; subst hev; trivial
    · simp

theorem quiet_raised (t : Option Val) : ∀ ev ∈ (t.map Ev.raised).toList, ev.quiet := by
  intro ev hev
  cases t with
  | none => simp at hev
  | some e => simp at hev; subst hev; trivial

/-- What one operation does to the log, the outstanding set and the callback. -/
theorem step_summary (s : Sys) (op : Op) :
    ∃ evs, (s.step op).log = s.log ++ evs ∧
      (∀ id, Ev.invoked id ∈ evs → op.invokedId = some id) ∧
      (successCount evs = 0 ∨
        (successCount evs = 1 ∧ (s.step op).grp._waits = [] ∧
          (s.step op).grp.callback.isSome = true)) ∧
      (∀ cb w e, Ev.success cb w e ∈ evs → w = [] ∧ e.truthy = false) ∧
      (s.grp.callback.isSome = true → (s.step op).grp.callback.isSome = true) ∧
      (op.isWait = false → (s.step op).grp.callback = s.grp.callback ∧
        (s.grp.callback = none → successCount evs = 0)) := by
  cases op with
  | getHandler ctx fn =>
    by_cases hc : s.grp.callback.isSome = true
    · refine ⟨[Ev.raised (.err "Syncronization task added while waiting!")], ?_, ?_, ?_, ?_, ?_, ?_⟩
      · simp [Sys.step, ASync.getHandler, hc]
      · simp
      · left; rfl
      · simp
      · intro _; simp [Sys.step, ASync.getHandler, hc]
      · intro _; refine ⟨by simp [Sys.step, ASync.getHandler, hc], fun _ => rfl⟩
    · refine ⟨[], ?_, ?_, ?_, ?_, ?_, ?_⟩
      · simp [Sys.step, ASync.getHandler, hc]
      · simp
      · left; rfl
      · simp
      · intro h; exact absurd h hc
      · intro _; refine ⟨by simp [Sys.step, ASync.getHandler, hc], fun _ => rfl⟩
  | invoke id t r =>
    cases hf : s.handles.find? (fun h => h.id == id) with
    | none =>
      have hst : s.step (.invoke id t r) = s := by simp [Sys.step, hf]
      rw [hst]
      exact ⟨[], by simp, by simp, Or.inl rfl, by simp, fun h => h, fun _ => ⟨rfl, fun _ => rfl⟩⟩
    | some h =>
      have hid : h.id = id := by
        have := List.find?_some hf
        simpa using this
      have hst : s.step (.invoke id t r)
          = { s with grp := (s.grp.invoke h t r).1, log := s.log ++ (s.grp.invoke h t r).2 } := by
        simp [Sys.step, hf]
      obtain ⟨w, c⟩ := invoke_fields s.grp h t r
      obtain ⟨evs, he, hcase⟩ := invoke_log s.grp h t r
      rw [hst]
      refine ⟨Ev.invoked h.id :: evs, by simp [he], ?_, ?_, ?_, ?_, ?_⟩
      · intro i hi
        rcases List.mem_cons.1 hi with h1 | h1
        · injection h1 with h1; subst h1; simp [Op.invokedId, hid]
        · rcases hcase with hq | ⟨fs, cb, e, rfl, hq, _, _, _⟩
          · exact absurd (hq _ h1) (by simp [Ev.quiet])
          · rcases List.mem_append.1 h1 with h2 | h2
            · exact absurd (hq _ h2) (by simp [Ev.quiet])
            · simp at h2
      · rcases hcase with hq | ⟨fs, cb, e, rfl, hq, _, hcb, hw⟩
        · left
          have := successCount_quiet evs hq
          simpa [successCount, Ev.isSuccess] using this
        · right
          refine ⟨?_, hw, by simp [c, hcb]⟩
          have := successCount_quiet fs hq
          simp only [successCount] at this
          simp [successCount, Ev.isSuccess, List.countP_append, this]
      · intro cb0 w0 e0 hm
        rcases List.mem_cons.1 hm with h1 | h1
        · cases h1
        · rcases hcase with hq | ⟨fs, cb, e, rfl, hq, he2, _, _⟩
          · exact absurd (hq _ h1) (by simp [Ev.quiet])
          · rcases List.mem_append.1 h1 with h2 | h2
            · exact absurd (hq _ h2) (by simp [Ev.quiet])
            · simp at h2
              obtain ⟨_, rfl, rfl⟩ := h2
              exact ⟨rfl, he2⟩
      · intro hs; simpa [c] using hs
      · intro _
        refine ⟨c, fun hn => ?_⟩
        rcases hcase with hq | ⟨fs, cb, e, rfl, hq, _, hcb, _⟩
        · have := successCount_quiet evs hq
          simpa [successCount, Ev.isSuccess] using this
        · rw [hn] at hcb; cases hcb
  | error ctx fn =>
    obtain ⟨_, c, q⟩ := error_cases s.grp ctx fn
    have hq : ∀ ev ∈ (s.grp.error ctx fn).log ++ ((s.grp.error ctx fn).thrown.map Ev.raised).toList,
        ev.quiet := by
      intro ev hev
      rcases List.mem_append.1 hev with h1 | h1
      · exact q ev h1
      · exact quiet_raised _ ev h1
    refine ⟨(s.grp.error ctx fn).log ++ ((s.grp.error ctx fn).thrown.map Ev.raised).toList,
      by simp [Sys.step], ?_, Or.inl (successCount_quiet _ hq), ?_, ?_, ?_⟩
    · intro i hi; exact absurd (hq _ hi) (by simp [Ev.quiet])
    · intro cb w e hm; exact absurd (hq _ hm) (by simp [Ev.quiet])
    · intro hs; simpa [Sys.step, c] using hs
    · intro _; exact ⟨by simp [Sys.step, c], fun _ => successCount_quiet _ hq⟩
  | wait ctx fn r =>
    obtain ⟨w, c, hcase⟩ := wait_cases s.grp ctx fn r
    refine ⟨(s.grp.wait ctx fn r).log ++ ((s.grp.wait ctx fn r).thrown.map Ev.raised).toList,
      by simp [Sys.step], ?_, ?_, ?_, ?_, ?_⟩
    · intro i hi
      rcases List.mem_append.1 hi with h1 | h1
      · rcases hcase with h2 | ⟨cb, e, h2, _⟩ <;> rw [h2] at h1 <;> simp at h1
      · exact absurd (quiet_raised _ _ h1) (by simp [Ev.quiet])
    · rcases hcase with h2 | ⟨cb, e, h2, _, hw, hcb, hth⟩
      · left
        rw [h2, List.nil_append]
        exact successCount_quiet _ (quiet_raised _)
      · right
        refine ⟨by rw [h2, hth]; rfl, by simp [Sys.step, w, hw], by simp [Sys.step, hcb]⟩
    · intro cb0 w0 e0 hm
      rcases List.mem_append.1 hm with h1 | h1
      · rcases hcase with h2 | ⟨cb, e, h2, he2, _⟩ <;> rw [h2] at h1 <;> simp at h1
        obtain ⟨_, rfl, rfl⟩ := h1
        exact ⟨rfl, he2⟩
      · exact absurd (quiet_raised _ _ h1) (by simp [Ev.quiet])
    · intro hs; simpa [Sys.step] using c hs
    · intro h; simp [Op.isWait] at h

theorem inv_fresh (seq0 : Nat) : Inv (Sys.fresh seq0) where
  ids_lt := by simp [Sys.fresh]
  waits_lt := by simp [Sys.fresh, ASync.new]
  nodup := by simp [Sys.fresh, ASync.new]
  mem_iff := by simp [Sys.fresh]
  log_lt := by simp [Sys.fresh]

theorem step_shape_other (s : Sys) (op : Op) (h1 : op.invokedId = none)
    (h2 : ∀ ctx fn, op ≠ .getHandler ctx fn) :
    (s.step op).seq = s.seq ∧ (s.step op).handles = s.handles ∧
    (s.step op).grp._waits = s.grp._waits := by
  cases op with
  | getHandler ctx fn => exact absurd rfl (h2 ctx fn)
  | invoke id t r => simp [Op.invokedId] at h1
  | error ctx fn => exact ⟨rfl, rfl, (error_cases s.grp ctx fn).1⟩
  | wait ctx fn r => exact ⟨rfl, rfl, (wait_cases s.grp ctx fn r).1⟩

theorem inv_step (s : Sys) (op : Op) (hI : Inv s)
    (hF : ∀ id, op.invokedId = some id → Ev.invoked id ∉ s.log) : Inv (s.step op) := by
  obtain ⟨evs, hlog, hinv, -⟩ := step_summary s op
  cases op with
  | getHandler ctx fn =>
    have hno : ∀ id, Ev.invoked id ∉ evs := fun id hm => by simpa [Op.invokedId] using hinv id hm
    by_cases hc : s.grp.callback.isSome = true
    · have hst : s.step (.getHandler ctx fn)
          = { s with log := s.log ++ [Ev.raised (.err "Syncronization task added while waiting!")] } := by
        simp [Sys.step, ASync.getHandler, hc]
      rw [hst]
      exact ⟨hI.ids_lt, hI.waits_lt, hI.nodup, by simpa using hI.mem_iff, by simpa using hI.log_lt⟩
    · have hc2 : s.grp.callback = none := by simpa using hc
      have hst := run_getHandlers [(ctx, fn)] s hc2
      simp only [List.map_cons, List.map_nil, run_cons, run_nil, List.length_singleton] at hst
      rw [hst]
      refine ⟨?_, ?_, ?_, ?_, ?_⟩
      · intro h hh
        simp only [mkHandles, List.mem_append, List.mem_singleton] at hh
        rcases hh with hh | hh
        · exact Nat.lt_succ_of_lt (hI.ids_lt h hh)
        · subst hh; exact Nat.lt_succ_self _
      · intro x hx
        simp only [List.range'_one, List.mem_append, List.mem_singleton] at hx
        rcases hx with hx | hx
        · exact Nat.lt_succ_of_lt (hI.waits_lt x hx)
        · subst hx; exact Nat.lt_succ_self _
      · simp only [List.range'_one]
        refine List.Nodup.append hI.nodup (List.nodup_singleton _) ?_
        intro x hx hx2
        simp at hx2
        subst hx2
        exact absurd (hI.waits_lt _ hx) (Nat.lt_irrefl _)
      · intro h hh
        simp only [mkHandles, List.mem_append, List.mem_singleton] at hh
        simp only [List.range'_one, List.mem_append, List.mem_singleton]
        rcases hh with hh | hh
        · have hne : h.id ≠ s.seq := Nat.ne_of_lt (hI.ids_lt h hh)
          simpa [hne] using hI.mem_iff h hh
        · subst hh
          simp only [or_true, true_iff]
          intro hm
          exact absurd (hI.log_lt _ hm) (Nat.lt_irrefl _)
      · intro id hm
        exact Nat.lt_succ_of_lt (hI.log_lt id hm)
  | invoke id t r =>
    cases hf : s.handles.find? (fun h => h.id == id) with
    | none =>
      have hst : s.step (.invoke id t r) = s := by simp [Sys.step, hf]
      rw [hst]; exact hI
    | some h =>
      have hid : h.id = id := by simpa using List.find?_some hf
      have hmemh : h ∈ s.handles := List.mem_of_find?_eq_some hf
      have hnot : Ev.invoked h.id ∉ s.log := by rw [hid]; exact hF id rfl
      have hw : h.id ∈ s.grp._waits := (hI.mem_iff h hmemh).2 hnot
      have hst : s.step (.invoke id t r)
          = { s with grp := (s.grp.invoke h t r).1, log := s.log ++ (s.grp.invoke h t r).2 } := by
        simp [Sys.step, hf]
      obtain ⟨w, -⟩ := invoke_fields s.grp h t r
      rw [splice_indexOf_of_mem _ _ hw] at w
      obtain ⟨evs2, he, hcase⟩ := invoke_log s.grp h t r
      have hno : ∀ i, Ev.invoked i ∉ evs2 := by
        intro i hi
        rcases hcase with hq | ⟨fs, cb, e, rfl, hq, -⟩
        · exact absurd (hq _ hi) (by simp [Ev.quiet])
        · rcases List.mem_append.1 hi with h2 | h2
          · exact absurd (hq _ h2) (by simp [Ev.quiet])
          · simp at h2
      have hlog2 : ∀ i, Ev.invoked i ∈ s.log ++ (s.grp.invoke h t r).2 ↔
          (Ev.invoked i ∈ s.log ∨ i = h.id) := by
        intro i
        rw [he]
        simp only [List.mem_append, List.mem_cons, Ev.invoked.injEq]
        constructor
        · rintro (h1 | h1 | h1)
          · exact Or.inl h1
          · exact Or.inr h1
          · exact absurd h1 (hno i)
        · rintro (h1 | h1)
          · exact Or.inl h1
          · exact Or.inr (Or.inl h1)
      rw [hst]
      refine ⟨hI.ids_lt, ?_, ?_, ?_, ?_⟩
      · intro x hx
        have hx2 : x ∈ s.grp._waits := by
          have : x ∈ s.grp._waits.erase h.id := by simpa [w] using hx
          exact List.mem_of_mem_erase this
        exact hI.waits_lt x hx2
      · show (s.grp.invoke h t r).1._waits.Nodup
        rw [w]; exact hI.nodup.erase _
      · intro h2 hh2
        show h2.id ∈ (s.grp.invoke h t r).1._waits ↔ Ev.invoked h2.id ∉ s.log ++ (s.grp.invoke h t r).2
        rw [w, hlog2, hI.nodup.mem_erase_iff, hI.mem_iff h2 hh2]
        tauto
      · intro i hi
        rcases (hlog2 i).1 hi with h1 | h1
        · exact hI.log_lt i h1
        · rw [h1]; exact hI.ids_lt h hmemh
  | error ctx fn =>
    have hno : ∀ id, Ev.invoked id ∉ evs := fun id hm => by simpa [Op.invokedId] using hinv id hm
    obtain ⟨a, b, c⟩ := step_shape_other s (.error ctx fn) rfl (fun _ _ => by simp)
    refine ⟨by rw [a, b]; exact hI.ids_lt, by rw [a, c]; exact hI.waits_lt, by rw [c]; exact hI.nodup,
      ?_, ?_⟩
    · intro h hh
      rw [b] at hh
      rw [c, hlog, hI.mem_iff h hh]
      simp [hno]
    · intro i hi
      rw [hlog] at hi
      rw [a]
      rcases List.mem_append.1 hi with h1 | h1
      · exact hI.log_lt i h1
      · exact absurd h1 (hno i)
  | wait ctx fn r =>
    have hno : ∀ id, Ev.invoked id ∉ evs := fun id hm => by simpa [Op.invokedId] using hinv id hm
    obtain ⟨a, b, c⟩ := step_shape_other s (.wait ctx fn r) rfl (fun _ _ => by simp)
    refine ⟨by rw [a, b]; exact hI.ids_lt, by rw [a, c]; exact hI.waits_lt, by rw [c]; exact hI.nodup,
      ?_, ?_⟩
    · intro h hh
      rw [b] at hh
      rw [c, hlog, hI.mem_iff h hh]
      simp [hno]
    · intro i hi
      rw [hlog] at hi
      rw [a]
      rcases List.mem_append.1 hi with h1 | h1
      · exact hI.log_lt i h1
      · exact absurd h1 (hno i)

theorem step_finished (s : Sys) (op : Op) (hI : Inv s)
    (hF : ∀ id, op.invokedId = some id → Ev.invoked id ∉ s.log)
    (hw : s.grp._waits = []) (hc : s.grp.callback.isSome = true) (hnw : op.isWait = false) :
    successCount (s.step op).log = successCount s.log ∧ (s.step op).grp._waits = [] := by
  cases op with
  | getHandler ctx fn =>
    have hst : s.step (.getHandler ctx fn)
        = { s with log := s.log ++ [Ev.raised (.err "Syncronization task added while waiting!")] } := by
      simp [Sys.step, ASync.getHandler, hc]
    rw [hst]
    exact ⟨by rw [successCount_append]; rfl, hw⟩
  | invoke id t r =>
    cases hf : s.handles.find? (fun h => h.id == id) with
    | none =>
      have hst : s.step (.invoke id t r) = s := by simp [Sys.step, hf]
      rw [hst]; exact ⟨rfl, hw⟩
    | some h =>
      have hid : h.id = id := by simpa using List.find?_some hf
      have hmemh : h ∈ s.handles := List.mem_of_find?_eq_some hf
      have hnot : Ev.invoked h.id ∉ s.log := by rw [hid]; exact hF id rfl
      have : h.id ∈ s.grp._waits := (hI.mem_iff h hmemh).2 hnot
      rw [hw] at this
      exact absurd this (List.not_mem_nil _)
  | error ctx fn =>
    obtain ⟨_, _, q⟩ := error_cases s.grp ctx fn
    obtain ⟨_, _, c⟩ := step_shape_other s (.error ctx fn) rfl (fun _ _ => by simp)
    refine ⟨?_, by rw [c]; exact hw⟩
    show successCount (s.log ++ (s.grp.error ctx fn).log
      ++ ((s.grp.error ctx fn).thrown.map Ev.raised).toList) = _
    rw [successCount_append, successCount_append, successCount_quiet _ q,
      successCount_quiet _ (quiet_raised _)]
    rfl
  | wait ctx fn r => simp [Op.isWait] at hnw

theorem waitCount_cons (op : Op) (ops : List Op) :
    waitCount (op :: ops) = waitCount ops + (if op.isWait = true then 1 else 0) := by
  simp [waitCount, List.countP_cons]

theorem at_most_once_aux (ops : List Op) : ∀ s : Sys, Inv s →
    (∀ id ∈ invokeIds ops, Ev.invoked id ∉ s.log) → (invokeIds ops).Nodup →
    ((s.grp.callback = none ∧ successCount s.log = 0 ∧ waitCount ops ≤ 1) ∨
     (successCount s.log = 0 ∧ waitCount ops = 0) ∨
     (successCount s.log = 1 ∧ s.grp._waits = [] ∧ s.grp.callback.isSome = true ∧
        waitCount ops = 0)) →
    successCount (s.run ops).log ≤ 1 := by
  induction ops with
  | nil =>
    intro s _ _ _ hph
    rw [run_nil]
    rcases hph with ⟨_, h, _⟩ | ⟨h, _⟩ | ⟨h, _⟩ <;> omega
  | cons op ops ih =>
    intro s hI hF hnd hph
    rw [run_cons]
    have hFop : ∀ id, op.invokedId = some id → Ev.invoked id ∉ s.log := by
      intro id hid
      exact hF id (by simp [invokeIds, List.filterMap_cons, hid])
    obtain ⟨evs, hlog, hinv, hsucc, -, hsome, hother⟩ := step_summary s op
    have hI1 := inv_step s op hI hFop
    have hnd1 : (invokeIds ops).Nodup := by
      cases ho : op.invokedId with
      | none => simpa [invokeIds, List.filterMap_cons, ho] using hnd
      | some i =>
        have : (i :: invokeIds ops).Nodup := by
          simpa [invokeIds, List.filterMap_cons, ho] using hnd
        exact (List.nodup_cons.1 this).2
    have hF1 : ∀ id ∈ invokeIds ops, Ev.invoked id ∉ (s.step op).log := by
      intro id hid hm
      rw [hlog] at hm
      rcases List.mem_append.1 hm with h1 | h1
      · cases ho : op.invokedId with
        | none => exact hF id (by simpa [invokeIds, List.filterMap_cons, ho] using hid) h1
        | some i =>
          have hmem : id ∈ invokeIds (op :: ops) := by
            have : invokeIds (op :: ops) = i :: invokeIds ops := by
              simp [invokeIds, List.filterMap_cons, ho]
            rw [this]
            exact List.mem_cons_of_mem _ hid
          exact hF id hmem h1
      · have ho := hinv id h1
        have : (id :: invokeIds ops).Nodup := by
          simpa [invokeIds, List.filterMap_cons, ho] using hnd
        exact (List.nodup_cons.1 this).1 hid
    have hcount : successCount (s.step op).log = successCount s.log + successCount evs := by
      rw [hlog, successCount_append]
    have hwc := waitCount_cons op ops
    apply ih (s.step op) hI1 hF1 hnd1
    rcases hph with ⟨hcb, h0, hwt⟩ | ⟨h0, hwt⟩ | ⟨h1, hw, hc, hwt⟩
    · by_cases hiw : op.isWait = true
      · have hz : waitCount ops = 0 := by rw [hwc, if_pos hiw] at hwt; omega
        rcases hsucc with h2 | ⟨h2, h3, h4⟩
        · right; left; exact ⟨by omega, hz⟩
        · right; right; exact ⟨by omega, h3, h4, hz⟩
      · have hiw2 : op.isWait = false := by simpa using hiw
        obtain ⟨e1, e2⟩ := hother hiw2
        left
        exact ⟨by rw [e1, hcb], by rw [hcount, e2 hcb, h0], by rw [hwc, if_neg hiw] at hwt; omega⟩
    · have hz : waitCount ops = 0 := by rw [hwc] at hwt; omega
      rcases hsucc with h2 | ⟨h2, h3, h4⟩
      · right; left; exact ⟨by omega, hz⟩
      · right; right; exact ⟨by omega, h3, h4, hz⟩
    · have hz : waitCount ops = 0 := by rw [hwc] at hwt; omega
      have hiw2 : op.isWait = false := by
        by_cases hiw : op.isWait = true
        · rw [hwc, if_pos hiw] at hwt; omega
        · simpa using hiw
      obtain ⟨f1, f2⟩ := step_finished s op hI hFop hw hc hiw2
      right; right
      exact ⟨by rw [f1, h1], f2, hsome hc, hz⟩

theorem success_guarded_aux (ops : List Op) : ∀ s : Sys,
    (∀ cb w e, Ev.success cb w e ∈ s.log → w = [] ∧ e.truthy = false) →
    ∀ cb w e, Ev.success cb w e ∈ (s.run ops).log → w = [] ∧ e.truthy = false := by
  induction ops with
  | nil => intro s h; simpa [run_nil] using h
  | cons op ops ih =>
    intro s h
    rw [run_cons]
    apply ih
    obtain ⟨evs, hlog, -, -, hg, -⟩ := step_summary s op
    intro cb w e hm
    rw [hlog] at hm
    rcases List.mem_append.1 hm with h1 | h1
    · exact h cb w e h1
    · exact hg cb w e h1

/-- C2, the code at the failing input: a handle whose function throws
`new Error("boom")` is called, and the fault handler is attached afterwards with
`error(h)`: the handler is called once, with no argument at all, so it does not
receive the fault. Attached before the call, the same handler receives
`(fn, fault)` from `cancel`. -/
theorem C2_late_fault_handler_gets_no_fault :
    ((Sys.fresh 0).run [Op.getHandler (.fn 1) .undefined,
        Op.invoke 0 (some (.err "boom")) false,
        Op.error (.fn 7) .undefined]).log
      = [Ev.invoked 0, Ev.fault (.direct 7) []] ∧
    ((Sys.fresh 0).run [Op.getHandler (.fn 1) .undefined,
        Op.error (.fn 7) .undefined,
        Op.invoke 0 (some (.err "boom")) false]).log
      = [Ev.invoked 0, Ev.fault (.direct 7) [.fn 1, .err "boom"]] := by
  constructor <;> rfl

/-- A thrown value that is falsy (`throw 0`) is stored in `_error` but does not
stop the success callback: the guards test `!this._error`. -/
theorem falsy_fault_does_not_block_success :
    ((Sys.fresh 0).run [Op.getHandler (.fn 1) .undefined,
        Op.wait (.fn 9) .undefined false,
        Op.invoke 0 (some (.num 0)) false]).log
      = [Ev.invoked 0, Ev.success (.direct 9) [] (.num 0)] := by
  rfl

/-- C10, counterexample: one handle, `wait(cb)`, then the handle is called twice;
the success callback is called twice. -/
theorem C10_success_callback_called_twice :
    successCount ((Sys.fresh 0).run [Op.getHandler .undefined .undefined,
        Op.wait (.fn 9) .undefined false,
        Op.invoke 0 none false,
        Op.invoke 0 none false]).log = 2 ∧
    ¬ successCount ((Sys.fresh 0).run [Op.getHandler .undefined .undefined,
        Op.wait (.fn 9) .undefined false,
        Op.invoke 0 none false,
        Op.invoke 0 none false]).log ≤ 1 := by
  constructor <;> decide

/-- C10, amended: for every sequence of operations on a fresh group, each time the
success callback is called the outstanding set is empty and the stored fault
`_error` is not truthy; and when no handle is called more than once and
`wait`/`success` is called at most once, the success callback is called at most
once. -/
theorem C10_success_guarded_and_once_without_reuse (seq0 : Nat) (ops : List Op) :
    (∀ cb w e, Ev.success cb w e ∈ ((Sys.fresh seq0).run ops).log → w = [] ∧ e.truthy = false) ∧
    ((invokeIds ops).Nodup → waitCount ops ≤ 1 →
      successCount ((Sys.fresh seq0).run ops).log ≤ 1) := by
  refine ⟨success_guarded_aux ops (Sys.fresh seq0) (by simp [Sys.fresh]), ?_⟩
  intro hnd hw
  exact at_most_once_aux ops (Sys.fresh seq0) (inv_fresh seq0) (by simp [Sys.fresh]) hnd
    (Or.inl ⟨rfl, rfl, hw⟩)

/-- C10, amended, at a concrete sequence: two handles, one called before `wait`,
one after it, and a second call of `getHandler` that is refused. -/
theorem C10_success_once_witness :
    successCount ((Sys.fresh 3).run [Op.getHandler .undefined .undefined,
        Op.getHandler (.fn 1) .undefined,
        Op.invoke 4 none false,
        Op.wait (.fn 9) .undefined true,
        Op.getHandler .undefined .undefined,
        Op.invoke 3 none false]).log ≤ 1 :=
  (C10_success_guarded_and_once_without_reuse 3 [Op.getHandler .undefined .undefined,
        Op.getHandler (.fn 1) .undefined,
        Op.invoke 4 none false,
        Op.wait (.fn 9) .undefined true,
        Op.getHandler .undefined .undefined,
        Op.invoke 3 none false]).2 (by decide) (by decide)

/-! ### Lemmas on `Seq` -/

theorem concat_steps (arr : List Step) (s : Seq) :
    (s.concat arr)._steps = s._steps ++ arr ∧ (s.concat arr)._proxies = s._proxies := by
  induction arr generalizing s with
  | nil => simp [Seq.concat]
  | cons a as ih =>
    have h := ih (s.push a)
    simp only [Seq.concat, List.foldl_cons] at h ⊢
    exact ⟨by rw [h.1]; simp [Seq.push], by rw [h.2]; rfl⟩

theorem getLoop_head (steps : List Step) (last : Target) :
    ∀ i, i ≤ steps.length → ∀ ps : List Target,
      ps.head?.getD last = chain (steps.drop i) i last →
      (getLoop steps last i ps).head?.getD last = chain steps 0 last := by
  intro i
  induction i with
  | zero => intro _ ps h; simpa [getLoop] using h
  | succ i ih =>
    intro hi ps h
    have hlt : i < steps.length := hi
    have hget : steps[i]? = some steps[i] := List.getElem?_eq_getElem hlt
    have hdrop : steps.drop i = steps[i] :: steps.drop (i + 1) := List.drop_eq_getElem_cons hlt
    simp only [getLoop, hget]
    apply ih (Nat.le_of_lt hlt)
    rw [hdrop]
    simp [chain, h]

theorem getOf_entry (arr : List Step) (cb handler : Option Nat) :
    (Seq.getOf arr cb handler).2 = chain arr 0 (Target.callback cb) ∧
    (Seq.getOf arr cb handler).1._handler = handler := by
  obtain ⟨h1, h2⟩ := concat_steps arr Seq.new
  have h1 : (Seq.new.concat arr)._steps = arr := by simpa [Seq.new] using h1
  have h2 : (Seq.new.concat arr)._proxies = [] := by simpa [Seq.new] using h2
  unfold Seq.getOf Seq.get
  simp only [h1, h2]
  by_cases hz : arr.length = 0
  · have : arr = [] := List.length_eq_zero.1 hz
    subst this
    simp [chain]
  · rw [if_neg hz]
    refine ⟨?_, rfl⟩
    apply getLoop_head arr (Target.callback cb) arr.length (Nat.le_refl _) []
    simp [chain]

theorem call_proxy (h : Option Nat) (st : Step) (next : Target) (k : Nat) (args : List Val) :
    (Target.proxy st next k).call h args
      = catchRes h k args (tryStep st next (next.call h) args) := rfl

theorem call_callback (h cb : Option Nat) (args : List Val) :
    (Target.callback cb).call h args
      = { log := (match cb with
                  | some c => [SEv.callback c args]
                  | none => []), pending := [], thrown := none } := by
  cases cb <;> rfl

theorem catchRes_ok (h : Option Nat) (k : Nat) (args : List Val) (body : SRes)
    (ht : body.thrown = none) :
    catchRes h k args body
      = { log := SEv.step k args :: body.log, pending := body.pending, thrown := none } := by
  unfold catchRes
  rw [ht]

theorem catchRes_thrown (h : Option Nat) (k : Nat) (args : List Val) (body : SRes) (e : Val)
    (ht : body.thrown = some e) :
    catchRes h k args body
      = { log := SEv.step k args :: (body.log ++ faultEvents h k e), pending := body.pending,
          thrown := thrownTo h e } := by
  unfold catchRes
  rw [ht]
  cases h <;> simp [faultEvents, thrownTo]

/-- A chain in which every step advances, called with `args`: nothing is thrown,
and either the run is complete, or it stops at the first step that hands its
continuation over, the rest of the run being that of the remaining steps. -/
theorem call_chain_advances (cb h : Option Nat) (steps : List Step) :
    ∀ (k : Nat) (args : List Val), advancesAll steps args = true →
      ((chain steps k (Target.callback cb)).call h args).thrown = none ∧
      ((((chain steps k (Target.callback cb)).call h args).pending = [] ∧
          ((chain steps k (Target.callback cb)).call h args).log = expectedTrace cb steps k args) ∨
        (∃ suf k2 a,
          ((chain steps k (Target.callback cb)).call h args).pending
            = [(chain suf k2 (Target.callback cb), a)] ∧
          advancesAll suf a = true ∧ suf.length < steps.length ∧
          ((chain steps k (Target.callback cb)).call h args).log ++ expectedTrace cb suf k2 a
            = expectedTrace cb steps k args)) := by
  induction steps with
  | nil =>
    intro k args _
    cases cb <;> simp [chain, call_callback, expectedTrace]
  | cons st rest ih =>
    intro k args hadv
    simp only [advancesAll, Bool.and_eq_true] at hadv
    obtain ⟨hst, hrest⟩ := hadv
    simp only [chain, call_proxy]
    cases hr : st args with
    | callNext a =>
      rw [hr] at hrest
      obtain ⟨t, hc⟩ := ih (k + 1) a hrest
      have hb : tryStep st (chain rest (k + 1) (Target.callback cb))
          ((chain rest (k + 1) (Target.callback cb)).call h) args
          = (chain rest (k + 1) (Target.callback cb)).call h a := by simp [tryStep, hr]
      rw [catchRes_ok _ _ _ _ (by rw [hb]; exact t), hb]
      refine ⟨rfl, ?_⟩
      rcases hc with ⟨p, l⟩ | ⟨suf, k2, a2, p, adv, len, l⟩
      · left; exact ⟨p, by simp [expectedTrace, hr, StepResult.outArgs, l]⟩
      · right
        exact ⟨suf, k2, a2, p, adv, by simp; omega,
          by simp [expectedTrace, hr, StepResult.outArgs, l]⟩
    | returnNext =>
      rw [hr] at hrest
      obtain ⟨t, hc⟩ := ih (k + 1) [] hrest
      have hb : tryStep st (chain rest (k + 1) (Target.callback cb))
          ((chain rest (k + 1) (Target.callback cb)).call h) args
          = (chain rest (k + 1) (Target.callback cb)).call h [] := by simp [tryStep, hr]
      rw [catchRes_ok _ _ _ _ (by rw [hb]; exact t), hb]
      refine ⟨rfl, ?_⟩
      rcases hc with ⟨p, l⟩ | ⟨suf, k2, a2, p, adv, len, l⟩
      · left; exact ⟨p, by simp [expectedTrace, hr, StepResult.outArgs, l]⟩
      · right
        exact ⟨suf, k2, a2, p, adv, by simp; omega,
          by simp [expectedTrace, hr, StepResult.outArgs, l]⟩
    | deferNext a =>
      rw [hr] at hrest
      have hb : tryStep st (chain rest (k + 1) (Target.callback cb))
          ((chain rest (k + 1) (Target.callback cb)).call h) args
          = { log := [], pending := [(chain rest (k + 1) (Target.callback cb), a)],
              thrown := none } := by simp [tryStep, hr]
      rw [catchRes_ok _ _ _ _ (by rw [hb]), hb]
      refine ⟨rfl, Or.inr ⟨rest, k + 1, a, rfl, hrest, by simp, ?_⟩⟩
      simp [expectedTrace, hr, StepResult.outArgs]
    | throws e => rw [hr] at hst; simp [StepResult.advances] at hst
    | halt => rw [hr] at hst; simp [StepResult.advances] at hst

theorem drain_nil (h : Option Nat) (fuel : Nat) :
    (drain h fuel []).log = [] ∧ (drain h fuel []).uncaught = [] ∧ (drain h fuel []).left = [] := by
  cases fuel <;> simp [drain]

theorem drain_chain_advances (cb h : Option Nat) :
    ∀ (n : Nat) (suf : List Step) (k : Nat) (a : List Val), suf.length ≤ n →
      advancesAll suf a = true → ∀ fuel, n + 1 ≤ fuel →
      (drain h fuel [(chain suf k (Target.callback cb), a)]).log = expectedTrace cb suf k a ∧
      (drain h fuel [(chain suf k (Target.callback cb), a)]).uncaught = [] ∧
      (drain h fuel [(chain suf k (Target.callback cb), a)]).left = [] := by
  intro n
  induction n with
  | zero =>
    intro suf k a hlen hadv fuel hf
    obtain ⟨f, rfl⟩ : ∃ f, fuel = f + 1 := ⟨fuel - 1, by omega⟩
    obtain ⟨t, hc⟩ := call_chain_advances cb h suf k a hadv
    obtain ⟨d1, d2, d3⟩ := drain_nil h f
    rcases hc with ⟨p, l⟩ | ⟨suf2, k2, a2, p, adv, len, l⟩
    · simp [drain, p, l, t, d1, d2, d3]
    · omega
  | succ n ih =>
    intro suf k a hlen hadv fuel hf
    obtain ⟨f, rfl⟩ : ∃ f, fuel = f + 1 := ⟨fuel - 1, by omega⟩
    obtain ⟨t, hc⟩ := call_chain_advances cb h suf k a hadv
    obtain ⟨d1, d2, d3⟩ := drain_nil h f
    rcases hc with ⟨p, l⟩ | ⟨suf2, k2, a2, p, adv, len, l⟩
    · simp [drain, p, l, t, d1, d2, d3]
    · obtain ⟨e1, e2, e3⟩ := ih suf2 k2 a2 (by omega) adv f (by omega)
      simp [drain, p, t, e1, e2, e3, l]

theorem stepNums_expectedTrace (cb : Option Nat) (steps : List Step) :
    ∀ (k : Nat) (args : List Val),
      (expectedTrace cb steps k args).filterMap SEv.stepNum = List.range' k steps.length := by
  induction steps with
  | nil => intro k args; cases cb <;> simp [expectedTrace, SEv.stepNum]
  | cons st rest ih =>
    intro k args
    simp [expectedTrace, SEv.stepNum, ih, List.range'_succ]

/-- A chain in which steps `0 .. k-1` advance and step `k` throws `e`: when the
steps before `k` all advance before they return, the call runs steps `0 .. k`, the
handler (if any) is called with the index and `e`, and without a handler `e` is
thrown to the caller; otherwise the call stops at the first step that hands its
continuation over, and the rest is the run of the remaining steps. -/
theorem call_chain_throws (cb h : Option Nat) (e : Val) (steps : List Step) :
    ∀ (k b : Nat) (args : List Val), throwsAt steps k e args →
      ((syncBefore steps k args = true ∧
          ((chain steps b (Target.callback cb)).call h args).pending = [] ∧
          ((chain steps b (Target.callback cb)).call h args).log
            = traceUpTo steps k b args ++ faultEvents h (b + k) e ∧
          ((chain steps b (Target.callback cb)).call h args).thrown = thrownTo h e) ∨
        (syncBefore steps k args = false ∧
          ((chain steps b (Target.callback cb)).call h args).thrown = none ∧
          ∃ suf k2 b2 a,
            ((chain steps b (Target.callback cb)).call h args).pending
              = [(chain suf b2 (Target.callback cb), a)] ∧
            throwsAt suf k2 e a ∧ suf.length < steps.length ∧ b2 + k2 = b + k ∧
            ((chain steps b (Target.callback cb)).call h args).log ++ traceUpTo suf k2 b2 a
              = traceUpTo steps k b args)) := by
  induction steps with
  | nil => intro k b args ht; simp [throwsAt] at ht
  | cons st rest ih =>
    intro k b args ht
    cases k with
    | zero =>
      simp only [throwsAt] at ht
      have hb : tryStep st (chain rest (b + 1) (Target.callback cb))
          ((chain rest (b + 1) (Target.callback cb)).call h) args
          = { log := [], pending := [], thrown := some e } := by simp [tryStep, ht]
      left
      simp only [chain, call_proxy]
      rw [catchRes_thrown _ _ _ _ e (by rw [hb]), hb]
      exact ⟨rfl, rfl, by simp [traceUpTo], rfl⟩
    | succ k =>
      simp only [throwsAt] at ht
      obtain ⟨hadv, hrest⟩ := ht
      simp only [chain, call_proxy]
      have hsum : b + 1 + k = b + (k + 1) := by omega
      cases hr : st args with
      | callNext a =>
        rw [hr] at hrest
        have hb : tryStep st (chain rest (b + 1) (Target.callback cb))
            ((chain rest (b + 1) (Target.callback cb)).call h) args
            = (chain rest (b + 1) (Target.callback cb)).call h a := by simp [tryStep, hr]
        rcases ih k (b + 1) a hrest with ⟨sy, p, l, t⟩ | ⟨sy, t, suf, k2, b2, a2, p, th, len, hs, l⟩
        · left
          cases h with
          | none =>
            rw [catchRes_thrown _ _ _ _ e (by rw [hb, t]; rfl), hb]
            refine ⟨by simp [syncBefore, hr, StepResult.advancesNow, StepResult.outArgs, sy], p, ?_,
              rfl⟩
            simp [l, traceUpTo, hr, StepResult.outArgs, faultEvents]
          | some hd =>
            rw [catchRes_ok _ _ _ _ (by rw [hb, t]; rfl), hb]
            refine ⟨by simp [syncBefore, hr, StepResult.advancesNow, StepResult.outArgs, sy], p, ?_,
              rfl⟩
            simp [l, traceUpTo, hr, StepResult.outArgs, faultEvents, hsum]
        · right
          rw [catchRes_ok _ _ _ _ (by rw [hb, t]), hb]
          refine ⟨by simp [syncBefore, hr, StepResult.advancesNow, StepResult.outArgs, sy], rfl,
            suf, k2, b2, a2, p, th, by simp; omega, by omega, ?_⟩
          simp [traceUpTo, hr, StepResult.outArgs, l]
      | returnNext =>
        rw [hr] at hrest
        have hb : tryStep st (chain rest (b + 1) (Target.callback cb))
            ((chain rest (b + 1) (Target.callback cb)).call h) args
            = (chain rest (b + 1) (Target.callback cb)).call h [] := by simp [tryStep, hr]
        rcases ih k (b + 1) [] hrest with ⟨sy, p, l, t⟩ | ⟨sy, t, suf, k2, b2, a2, p, th, len, hs, l⟩
        · left
          cases h with
          | none =>
            rw [catchRes_thrown _ _ _ _ e (by rw [hb, t]; rfl), hb]
            refine ⟨by simp [syncBefore, hr, StepResult.advancesNow, StepResult.outArgs, sy], p, ?_,
              rfl⟩
            simp [l, traceUpTo, hr, StepResult.outArgs, faultEvents]
          | some hd =>
            rw [catchRes_ok _ _ _ _ (by rw [hb, t]; rfl), hb]
            refine ⟨by simp [syncBefore, hr, StepResult.advancesNow, StepResult.outArgs, sy], p, ?_,
              rfl⟩
            simp [l, traceUpTo, hr, StepResult.outArgs, faultEvents, hsum]
        · right
          rw [catchRes_ok _ _ _ _ (by rw [hb, t]), hb]
          refine ⟨by simp [syncBefore, hr, StepResult.advancesNow, StepResult.outArgs, sy], rfl,
            suf, k2, b2, a2, p, th, by simp; omega, by omega, ?_⟩
          simp [traceUpTo, hr, StepResult.outArgs, l]
      | deferNext a =>
        rw [hr] at hrest
        have hb : tryStep st (chain rest (b + 1) (Target.callback cb))
            ((chain rest (b + 1) (Target.callback cb)).call h) args
            = { log := [], pending := [(chain rest (b + 1) (Target.callback cb), a)],
                thrown := none } := by simp [tryStep, hr]
        right
        rw [catchRes_ok _ _ _ _ (by rw [hb]), hb]
        refine ⟨by simp [syncBefore, hr, StepResult.advancesNow], rfl,
          rest, k, b + 1, a, rfl, hrest, by simp, by omega, ?_⟩
        simp [traceUpTo, hr, StepResult.outArgs]
      | throws e2 => rw [hr] at hadv; simp [StepResult.advances] at hadv
      | halt => rw [hr] at hadv; simp [StepResult.advances] at hadv

theorem drain_chain_throws (cb h : Option Nat) (e : Val) :
    ∀ (n : Nat) (suf : List Step) (k b : Nat) (a : List Val), suf.length ≤ n →
      throwsAt suf k e a → ∀ fuel, n ≤ fuel →
      (drain h fuel [(chain suf b (Target.callback cb), a)]).log
        = traceUpTo suf k b a ++ faultEvents h (b + k) e ∧
      (drain h fuel [(chain suf b (Target.callback cb), a)]).uncaught = (thrownTo h e).toList ∧
      (drain h fuel [(chain suf b (Target.callback cb), a)]).left = [] := by
  intro n
  induction n with
  | zero =>
    intro suf k b a hlen ht
    have : suf = [] := List.length_eq_zero.1 (Nat.le_zero.1 hlen)
    subst this
    simp [throwsAt] at ht
  | succ n ih =>
    intro suf k b a hlen ht fuel hf
    obtain ⟨f, rfl⟩ : ∃ f, fuel = f + 1 := ⟨fuel - 1, by omega⟩
    obtain ⟨d1, d2, d3⟩ := drain_nil h f
    rcases call_chain_throws cb h e suf k b a ht with
      ⟨_, p, l, t⟩ | ⟨_, t, suf2, k2, b2, a2, p, th, len, hs, l⟩
    · simp [drain, p, l, t, d1, d2, d3]
    · obtain ⟨e1, e2, e3⟩ := ih suf2 k2 b2 a2 (by omega) th f (by omega)
      simp only [drain, p, t, List.nil_append, e1, e2, e3, Option.toList, hs]
      refine ⟨?_, trivial, trivial⟩
      rw [← List.append_assoc, l]

theorem stepNums_traceUpTo (e : Val) (steps : List Step) :
    ∀ (k b : Nat) (args : List Val), throwsAt steps k e args →
      (traceUpTo steps k b args).filterMap SEv.stepNum = List.range' b (k + 1) := by
  induction steps with
  | nil => intro k b args ht; simp [throwsAt] at ht
  | cons st rest ih =>
    intro k b args ht
    cases k with
    | zero => simp [traceUpTo, SEv.stepNum]
    | succ k =>
      simp only [throwsAt] at ht
      simp [traceUpTo, SEv.stepNum, ih k (b + 1) _ ht.2, List.range'_succ]

theorem no_callback_traceUpTo (steps : List Step) :
    ∀ (k b : Nat) (args : List Val) (c : Nat) (a : List Val),
      SEv.callback c a ∉ traceUpTo steps k b args := by
  induction steps with
  | nil => intro k b args c a; simp [traceUpTo]
  | cons st rest ih =>
    intro k b args c a
    cases k with
    | zero => simp [traceUpTo]
    | succ k => simp [traceUpTo, ih]

/-! ## Claims on `Seq` -/

/-- C3: `Seq.run(steps, callback, handler)` with steps that all advance (by calling
the continuation, by returning it, or by handing it over for a later call), the
event loop being given time for at least as many turns as there are steps. The
calls made are exactly those of `expectedTrace`: step `0` with no forwarded
argument, each next step with exactly the arguments the previous step passed to
its continuation (none when it returned the continuation), and last the callback
with the arguments of the last step. Each step starts exactly once, in declared
order; nothing is thrown and nothing is left to run. -/
theorem C3_steps_run_in_order_with_forwarded_args (steps : List Step) (cb h : Option Nat)
    (fuel : Nat) (hadv : advancesAll steps [] = true) (hfuel : steps.length ≤ fuel) :
    (Seq.runToEnd fuel steps cb h).log = expectedTrace cb steps 0 [] ∧
    (Seq.runToEnd fuel steps cb h).log.filterMap SEv.stepNum = List.range steps.length ∧
    (Seq.runToEnd fuel steps cb h).thrown = none ∧
    (Seq.runToEnd fuel steps cb h).uncaught = [] ∧
    (Seq.runToEnd fuel steps cb h).left = [] := by
  obtain ⟨g1, _⟩ := getOf_entry steps cb h
  obtain ⟨t, hc⟩ := call_chain_advances cb h steps 0 [] hadv
  have hrun : Seq.run steps cb h = (chain steps 0 (Target.callback cb)).call h [] := by
    unfold Seq.run
    rw [(getOf_entry steps cb h).1, (getOf_entry steps cb h).2]
  have key : (Seq.runToEnd fuel steps cb h).log = expectedTrace cb steps 0 [] ∧
      (Seq.runToEnd fuel steps cb h).thrown = none ∧
      (Seq.runToEnd fuel steps cb h).uncaught = [] ∧
      (Seq.runToEnd fuel steps cb h).left = [] := by
    unfold Seq.runToEnd
    simp only [hrun]
    rcases hc with ⟨p, l⟩ | ⟨suf, k2, a, p, adv, len, l⟩
    · obtain ⟨d1, d2, d3⟩ := drain_nil h fuel
      rw [p]
      exact ⟨by rw [d1, l]; simp, t, d2, d3⟩
    · obtain ⟨e1, e2, e3⟩ := drain_chain_advances cb h suf.length suf k2 a (Nat.le_refl _) adv
        fuel (by omega)
      rw [p]
      exact ⟨by rw [e1, l], t, e2, e3⟩
  refine ⟨key.1, ?_, key.2.1, key.2.2.1, key.2.2.2⟩
  rw [key.1, stepNums_expectedTrace, List.range_eq_range']

/-- C3, at a concrete sequence: the first step hands its continuation over, the
second returns it, the third calls it with an added argument. -/
theorem C3_steps_run_in_order_witness :
    (Seq.runToEnd 3 [fun _ => .deferNext [.num 1], fun _ => .returnNext,
        fun a => .callNext (.num 2 :: a)] (some 0) none).log
      = [.step 0 [], .step 1 [.num 1], .step 2 [], .callback 0 [.num 2]] :=
  (C3_steps_run_in_order_with_forwarded_args
    [fun _ => .deferNext [.num 1], fun _ => .returnNext, fun a => .callNext (.num 2 :: a)]
    (some 0) none 3 rfl (Nat.le_refl _)).1

/-- C4, counterexample: the first step hands its continuation to a timer, the
second throws, and there is no fault handler. Steps `0 .. k-1` advance and step
`k = 1` throws, yet the entry point returns normally: its caller receives no
exception; the exception leaves the continuation when the timer calls it. -/
theorem C4_fault_after_deferral_misses_entry_caller :
    throwsAt [fun _ => .deferNext [], fun _ => .throws (.err "boom")] 1 (.err "boom") [] ∧
    (Seq.run [fun _ => .deferNext [], fun _ => .throws (.err "boom")] (some 0) none).thrown
      = none ∧
    (Seq.runToEnd 2 [fun _ => .deferNext [], fun _ => .throws (.err "boom")] (some 0) none).thrown
      ≠ some (.err "boom") ∧
    (Seq.runToEnd 2 [fun _ => .deferNext [], fun _ => .throws (.err "boom")] (some 0) none).uncaught
      = [.err "boom"] := by
  refine ⟨⟨rfl, rfl⟩, rfl, ?_, rfl⟩
  intro h
  cases h

/-- C4, amended: steps `0 .. k-1` advance and step `k` throws `e`. Steps `0 .. k`
start once each, in order, no later step runs and the callback is not called.
With a fault handler, the handler is called exactly once, with `(k, e)`, and
nothing is thrown, neither to the caller of the entry point nor to the caller of a
continuation. Without a handler, `e` is thrown once, to the caller of the call in
which step `k` runs: the caller of the entry point when steps `0 .. k-1` all
advance before they return, the caller of the handed-over continuation otherwise. -/
theorem C4_fault_stops_run_and_reaches_handler (steps : List Step) (k : Nat) (e : Val)
    (cb h : Option Nat) (fuel : Nat) (ht : throwsAt steps k e []) (hfuel : steps.length ≤ fuel) :
    (Seq.runToEnd fuel steps cb h).log = traceUpTo steps k 0 [] ++ faultEvents h k e ∧
    (Seq.runToEnd fuel steps cb h).log.filterMap SEv.stepNum = List.range (k + 1) ∧
    (∀ c a, SEv.callback c a ∉ (Seq.runToEnd fuel steps cb h).log) ∧
    (Seq.runToEnd fuel steps cb h).left = [] ∧
    (Seq.runToEnd fuel steps cb h).thrown
      = (if syncBefore steps k [] = true then thrownTo h e else none) ∧
    (Seq.runToEnd fuel steps cb h).uncaught
      = (if syncBefore steps k [] = true then [] else (thrownTo h e).toList) := by
  have hrun : Seq.run steps cb h = (chain steps 0 (Target.callback cb)).call h [] := by
    unfold Seq.run
    rw [(getOf_entry steps cb h).1, (getOf_entry steps cb h).2]
  have key : (Seq.runToEnd fuel steps cb h).log = traceUpTo steps k 0 [] ++ faultEvents h k e ∧
      (Seq.runToEnd fuel steps cb h).left = [] ∧
      (Seq.runToEnd fuel steps cb h).thrown
        = (if syncBefore steps k [] = true then thrownTo h e else none) ∧
      (Seq.runToEnd fuel steps cb h).uncaught
        = (if syncBefore steps k [] = true then [] else (thrownTo h e).toList) := by
    unfold Seq.runToEnd
    simp only [hrun]
    rcases call_chain_throws cb h e steps k 0 [] ht with
      ⟨sy, p, l, t⟩ | ⟨sy, t, suf, k2, b2, a2, p, th, len, hs, l⟩
    · obtain ⟨d1, d2, d3⟩ := drain_nil h fuel
      rw [p, if_pos sy, if_pos sy]
      exact ⟨by rw [d1, l]; simp, d3, t, d2⟩
    · obtain ⟨e1, e2, e3⟩ := drain_chain_throws cb h e suf.length suf k2 b2 a2 (Nat.le_refl _) th
        fuel (by omega)
      have hs2 : b2 + k2 = k := by omega
      rw [p, sy]
      refine ⟨?_, e3, by simpa using t, by simpa using e2⟩
      rw [e1, ← List.append_assoc, l, hs2]
  have hf : (faultEvents h k e).filterMap SEv.stepNum = [] := by
    cases h <;> simp [faultEvents, SEv.stepNum]
  refine ⟨key.1, ?_, ?_, key.2.1, key.2.2.1, key.2.2.2⟩
  · rw [key.1, List.filterMap_append, stepNums_traceUpTo e steps k 0 [] ht, hf,
      List.range_eq_range', List.append_nil]
  · intro c a hm
    rw [key.1] at hm
    rcases List.mem_append.1 hm with h1 | h1
    · exact no_callback_traceUpTo steps k 0 [] c a h1
    · cases h <;> simp [faultEvents] at h1

/-- C4, amended, at a concrete sequence with a fault handler: the second of three
steps throws after the first handed its continuation over. -/
theorem C4_fault_reaches_handler_witness :
    (Seq.runToEnd 3 [fun _ => .deferNext [.num 1], fun _ => .throws (.err "boom"),
        fun _ => .returnNext] (some 0) (some 8)).log
      = [.step 0 [], .step 1 [.num 1], .handler 8 1 (.err "boom")] :=
  (C4_fault_stops_run_and_reaches_handler
    [fun _ => .deferNext [.num 1], fun _ => .throws (.err "boom"), fun _ => .returnNext]
    1 (.err "boom") (some 0) (some 8) 3 ⟨rfl, rfl⟩ (Nat.le_refl _)).1

/-! ### Lemmas on the supervisor -/

theorem isLocked_false (w : World) : isLocked w = false := by
  unfold isLocked Fs.statSync
  generalize (if w.ctl.lockfile ≠ "" then w.ctl.lockfile else w.ctl._lockFile) = path
  by_cases h : w.fs.has path = true
  · simp [h, Val.truthy]
  · simp [h]

theorem writeFileSync_ok (fs : Fs) (path data : String)
    (h : fs.unwritable.contains path = false) :
    fs.writeFileSync path data
      = .ok { fs with files := fs.files.filter (fun f => f.1 != path) ++ [(path, data)] } := by
  unfold Fs.writeFileSync
  rw [h]
  rfl

theorem writeFileSync_error (fs : Fs) (path data : String)
    (h : fs.unwritable.contains path = true) :
    fs.writeFileSync path data = .error (.err "EACCES") := by
  unfold Fs.writeFileSync
  rw [h]
  rfl

theorem setLock_none (w : World) (hl : w.ctl._lockFile = "") : setLock w = (w, .ok true) := by
  unfold setLock
  rw [isLocked_false]
  simp [hl]

theorem setLock_ok (w : World) (hl : w.ctl._lockFile ≠ "")
    (hw : w.fs.unwritable.contains w.ctl._lockFile = false) :
    setLock w
      = ({ w with ctl := { w.ctl with _is_locking := true, lockfile := w.ctl._lockFile },
                  fs := { w.fs with files :=
                    w.fs.files.filter (fun f => f.1 != w.ctl._lockFile)
                      ++ [(w.ctl._lockFile, toString w.pid)] } }, .ok true) := by
  unfold setLock
  rw [isLocked_false, writeFileSync_ok _ _ _ hw]
  simp [hl]

theorem setLock_fail (w : World) (hl : w.ctl._lockFile ≠ "")
    (hw : w.fs.unwritable.contains w.ctl._lockFile = true) :
    setLock w
      = ({ w with ctl := { w.ctl with _is_locking := true, lockfile := w.ctl._lockFile } },
         .error (.err "EACCES")) := by
  unfold setLock
  rw [isLocked_false, writeFileSync_error _ _ _ hw]
  simp [hl]

/-- The three outcomes of `setLock()`: no lock file configured, the marker written,
the write refused. -/
theorem setLock_cases (w : World) :
    (w.ctl._lockFile = "" ∧ setLock w = (w, .ok true)) ∨
    (w.ctl._lockFile ≠ "" ∧ w.fs.unwritable.contains w.ctl._lockFile = false ∧
      setLock w
        = ({ w with ctl := { w.ctl with _is_locking := true, lockfile := w.ctl._lockFile },
                    fs := { w.fs with files :=
                      w.fs.files.filter (fun f => f.1 != w.ctl._lockFile)
                        ++ [(w.ctl._lockFile, toString w.pid)] } }, .ok true)) ∨
    (w.ctl._lockFile ≠ "" ∧ w.fs.unwritable.contains w.ctl._lockFile = true ∧
      setLock w
        = ({ w with ctl := { w.ctl with _is_locking := true, lockfile := w.ctl._lockFile } },
           .error (.err "EACCES"))) := by
  by_cases hl : w.ctl._lockFile = ""
  · exact Or.inl ⟨hl, setLock_none w hl⟩
  · cases hw : w.fs.unwritable.contains w.ctl._lockFile with
    | false => exact Or.inr (Or.inl ⟨hl, rfl, setLock_ok w hl hw⟩)
    | true => exact Or.inr (Or.inr ⟨hl, rfl, setLock_fail w hl hw⟩)

theorem setLock_fields (w : World) :
    (setLock w).1.ctl.initialized = w.ctl.initialized ∧
    (setLock w).1.ctl._exitstatus = w.ctl._exitstatus ∧
    (setLock w).1.exited = w.exited ∧
    (setLock w).1.log = w.log ∧
    (setLock w).1.ctl.interval_selfCheck = w.ctl.interval_selfCheck ∧
    (setLock w).1.ctl.interval_tick = w.ctl.interval_tick := by
  rcases setLock_cases w with ⟨_, h⟩ | ⟨_, _, h⟩ | ⟨_, _, h⟩ <;> rw [h] <;>
    exact ⟨rfl, rfl, rfl, rfl, rfl, rfl⟩

/-- `begin()` when `setLock()` returns: both timers are started and the self-check
runs. -/
theorem begin_ok (w : World) (rss : Nat) (idle : Option Bool) (b : Bool)
    (h : (setLock w).2 = .ok b) :
    begin w rss idle
      = (handleSelfCheck
          { (setLock w).1 with
            ctl := { (setLock w).1.ctl with _exiting := false, interval_selfCheck := true,
                                            interval_tick := true },
            log := (setLock w).1.log ++ [BEv.setInterval .selfCheck (10 * 60 * 1000),
                                         BEv.setInterval .tick (1 * 1000)] } rss idle,
         .ok true) := by
  unfold begin
  rw [isLocked_false, h]
  rfl

/-- `begin()` when the write of `setLock()` throws: the exception leaves `begin()`
before any timer is started. -/
theorem begin_fail (w : World) (rss : Nat) (idle : Option Bool) (e : Val)
    (h : (setLock w).2 = .error e) :
    begin w rss idle = ((setLock w).1, .error e) := by
  unfold begin
  rw [isLocked_false, h]
  rfl

theorem releaseLock_fields (w : World) :
    (releaseLock w).1.ctl._exitstatus = w.ctl._exitstatus ∧
    (releaseLock w).1.ctl._cleanups = w.ctl._cleanups ∧
    (releaseLock w).1.ctl._is_locking = false ∧
    (releaseLock w).1.log = w.log ∧
    (releaseLock w).1.batches = w.batches := by
  unfold releaseLock
  cases h : w.ctl._is_locking with
  | false => simp [h]
  | true =>
    simp only [Bool.not_true, Bool.false_eq_true, if_false]
    cases hu : w.fs.unlinkSync w.ctl.lockfile <;> simp

theorem kill_fields (w : World) :
    (kill w).ctl._exitstatus = w.ctl._exitstatus ∧
    (kill w).ctl._cleanups = w.ctl._cleanups ∧
    (kill w).exited = some 0 ∧
    (kill w).log = w.log ++ [BEv.exit 0] ∧
    cleanupCalls (kill w).log = cleanupCalls w.log := by
  obtain ⟨a, b, _, d, _⟩ := releaseLock_fields w
  refine ⟨a, b, rfl, by simp [kill, d], ?_⟩
  simp [kill, d, cleanupCalls, List.filterMap_append]

theorem cleanupLoop_ctl (cs : List Cleanup) :
    ∀ (w : World) (sync : ASync) (pending : List Handle) (i : Nat),
      (cleanupLoop w sync pending i cs).1.ctl = w.ctl ∧
      (cleanupLoop w sync pending i cs).1.exited = w.exited ∧
      (cleanupLoop w sync pending i cs).1.batches = w.batches ∧
      (cleanupLoop w sync pending i cs).1.fs = w.fs := by
  induction cs with
  | nil => intro w sync pending i; simp [cleanupLoop]
  | cons c cs ih =>
    intro w sync pending i
    unfold cleanupLoop
    cases hg : sync.getHandler w.seq .undefined .undefined with
    | error e => simp
    | ok r =>
      obtain ⟨g, seq1, h⟩ := r
      cases c with
      | callsNow =>
        obtain ⟨a, b, c2, d⟩ := ih { w with seq := seq1, log := w.log ++ [BEv.cleanup i] }
          (g.invoke h none false).1 pending (i + 1)
        exact ⟨a, b, c2, d⟩
      | callsLater =>
        obtain ⟨a, b, c2, d⟩ := ih { w with seq := seq1, log := w.log ++ [BEv.cleanup i] }
          g (pending ++ [h]) (i + 1)
        exact ⟨a, b, c2, d⟩
      | throws e => simp

theorem cleanupLoop_calls (cs : List Cleanup) (hnt : ∀ c ∈ cs, c.returns = true) :
    ∀ (w : World) (sync : ASync) (pending : List Handle) (i : Nat), sync.callback = none →
      (cleanupLoop w sync pending i cs).2.2.2 = none ∧
      cleanupCalls (cleanupLoop w sync pending i cs).1.log
        = cleanupCalls w.log ++ List.range' i cs.length := by
  induction cs with
  | nil => intro w sync pending i _; simp [cleanupLoop]
  | cons c cs ih =>
    intro w sync pending i hcb
    have hnt2 : ∀ c ∈ cs, c.returns = true := fun c hc => hnt c (List.mem_cons_of_mem _ hc)
    have hg : sync.getHandler w.seq .undefined .undefined
        = .ok ({ sync with _waits := sync._waits ++ [w.seq] }, w.seq + 1,
               { id := w.seq, ctx := .undefined, fn := .undefined }) := by
      simp [ASync.getHandler, hcb, Val.isFunction]
    unfold cleanupLoop
    rw [hg]
    have hlog : cleanupCalls (w.log ++ [BEv.cleanup i]) = cleanupCalls w.log ++ [i] := by
      simp [cleanupCalls, List.filterMap_append]
    cases c with
    | callsNow =>
      have hcb2 : (ASync.invoke { sync with _waits := sync._waits ++ [w.seq] }
          { id := w.seq, ctx := .undefined, fn := .undefined } none false).1.callback = none := by
        rw [(invoke_fields _ _ _ _).2]; exact hcb
      obtain ⟨a, b⟩ := ih hnt2 { w with seq := w.seq + 1, log := w.log ++ [BEv.cleanup i] }
        _ pending (i + 1) hcb2
      refine ⟨a, ?_⟩
      rw [b, hlog]
      simp [List.range'_succ]
    | callsLater =>
      obtain ⟨a, b⟩ := ih hnt2 { w with seq := w.seq + 1, log := w.log ++ [BEv.cleanup i] }
        { sync with _waits := sync._waits ++ [w.seq] }
        (pending ++ [{ id := w.seq, ctx := .undefined, fn := .undefined }]) (i + 1) hcb
      refine ⟨a, ?_⟩
      rw [b, hlog]
      simp [List.range'_succ]
    | throws e => exact absurd (hnt _ (List.mem_cons_self _ _)) (by simp [Cleanup.returns])

theorem cleanup_status (w : World) :
    (cleanup w).1.ctl._exitstatus = w.ctl._exitstatus := by
  unfold cleanup
  cases hcs : w.ctl._cleanups with
  | none => exact (kill_fields w).1
  | some cs =>
    simp only
    obtain ⟨a, -⟩ := cleanupLoop_ctl cs w ASync.new [] 0
    rcases hc : cleanupLoop w ASync.new [] 0 cs with ⟨w1, sync, pending, thrown⟩
    rw [hc] at a
    simp only at a
    cases thrown with
    | some e => simp [a]
    | none =>
      simp only
      split
      · rw [(kill_fields w1).1, a]
      · split
        · rw [(kill_fields w1).1, a]
        · simp [a]

theorem cleanup_calls (w : World) (cs : List Cleanup) (hcs : w.ctl._cleanups = some cs)
    (hnt : ∀ c ∈ cs, c.returns = true) :
    cleanupCalls (cleanup w).1.log = cleanupCalls w.log ++ List.range cs.length ∧
    (cleanup w).2 = none := by
  unfold cleanup
  rw [hcs]
  simp only
  obtain ⟨a, b⟩ := cleanupLoop_calls cs hnt w ASync.new [] 0 rfl
  rcases hc : cleanupLoop w ASync.new [] 0 cs with ⟨w1, sync, pending, thrown⟩
  rw [hc] at a b
  simp only at a b
  subst a
  simp only
  rw [List.range_eq_range']
  split
  · exact ⟨by rw [(kill_fields w1).2.2.2.2, b], rfl⟩
  · split
    · exact ⟨by rw [(kill_fields w1).2.2.2.2, b], rfl⟩
    · exact ⟨b, rfl⟩

theorem fire_fields (w : World) (b j : Nat) :
    (fire w b j).ctl._exitstatus = w.ctl._exitstatus ∧
    cleanupCalls (fire w b j).log = cleanupCalls w.log := by
  unfold fire
  split
  · exact ⟨rfl, rfl⟩
  · split
    · exact ⟨rfl, rfl⟩
    · split
      · exact ⟨rfl, rfl⟩
      · simp only
        split
        · exact ⟨(kill_fields _).1, (kill_fields _).2.2.2.2⟩
        · exact ⟨rfl, rfl⟩

theorem fireAll_fields (fires : List (Nat × Nat)) :
    ∀ w : World, (fireAll w fires).ctl._exitstatus = w.ctl._exitstatus ∧
      cleanupCalls (fireAll w fires).log = cleanupCalls w.log := by
  induction fires with
  | nil => intro w; exact ⟨rfl, rfl⟩
  | cons f fs ih =>
    intro w
    obtain ⟨a, b⟩ := ih (fire w f.1 f.2)
    obtain ⟨c, d⟩ := fire_fields w f.1 f.2
    exact ⟨by rw [← c, ← a]; rfl, by rw [← d, ← b]; rfl⟩

/-- A call of `shutdown()` without force when the exit status is already at the
graceful-shutdown level returns at once: the process is unchanged. -/
theorem shutdown_again_noop (w : World) (h : 3 ≤ w.ctl._exitstatus) :
    shutdown w false = (w, none) := by
  unfold shutdown
  split
  · rfl
  · simp [h]

theorem shutdown_status (w : World) (hex : w.exited = none) (hst : w.ctl._exitstatus < 3) :
    (shutdown w false).1.ctl._exitstatus = 3 ∧
    shutdown w false = cleanup { w with ctl := { w.ctl with _exitstatus := 3 } } := by
  have h1 : shutdown w false = cleanup { w with ctl := { w.ctl with _exitstatus := 3 } } := by
    unfold shutdown
    have : ¬ (3 ≤ w.ctl._exitstatus) := by omega
    simp [hex, this]
  exact ⟨by rw [h1, cleanup_status], h1⟩

/-! ## Claims on `BaseController` -/

/-- C5, the code at the failing input. `isLocked()` returns `!fs.statSync(lockfile)`,
which is `false` when the marker exists (a `Stats` object is truthy) and `false`
when it does not (the exception is caught): it is `false` in every state, so
`begin()` never returns `false`: it returns `true`, or the write of the marker
throws. `begin()` called while the marker of another process (pid 999) exists
returns `true`, does not mark the supervisor locked, schedules no retry, starts both
timers and overwrites the marker with its own pid. -/
theorem C5_begin_ignores_existing_marker :
    (∀ w : World, isLocked w = false) ∧
    (∀ (w : World) (rss : Nat) (idle : Option Bool),
      (begin w rss idle).2 = .ok true ∨ ∃ e, (begin w rss idle).2 = .error e) ∧
    (begin (World.start { init := true, failok := false, lockFile := "/tmp/app",
                          maxiumum_memory_usage := 0 }
        { files := [("/tmp/app.lock", "999")], pinned := [] }) 1000 (some false)).2
      = .ok true ∧
    (begin (World.start { init := true, failok := false, lockFile := "/tmp/app",
                          maxiumum_memory_usage := 0 }
        { files := [("/tmp/app.lock", "999")], pinned := [] }) 1000 (some false)).1
      = { World.start { init := true, failok := false, lockFile := "/tmp/app",
                        maxiumum_memory_usage := 0 }
            { files := [("/tmp/app.lock", "4242")], pinned := [] } with
          ctl := { cfg := { init := true, failok := false, lockFile := "/tmp/app",
                            maxiumum_memory_usage := 0 },
                   _exitstatus := 1, lockfile := "/tmp/app.lock", _is_locking := true,
                   locked := false, _exiting := false, interval_selfCheck := true,
                   interval_tick := true, _cleanups := none },
          initial_mem_usage := 805306368,
          log := [BEv.setInterval .selfCheck 600000, BEv.setInterval .tick 1000] } := by
  refine ⟨isLocked_false, ?_, rfl, by decide⟩
  intro w rss idle
  cases h : (setLock w).2 with
  | ok b => left; rw [begin_ok w rss idle b h]
  | error e => right; exact ⟨e, by rw [begin_fail w rss idle e h]⟩

theorem fireAll_no_batches (fires : List (Nat × Nat)) :
    ∀ w : World, w.batches = [] → fireAll w fires = w := by
  induction fires with
  | nil => intro w _; rfl
  | cons f fs ih =>
    intro w hb
    have hf : fire w f.1 f.2 = w := by
      unfold fire
      split
      · rfl
      · simp [hb]
    show fireAll (fire w f.1 f.2) fs = w
    rw [hf]
    exact ih w hb

/-- C6, the code at the failing input: two cleanup callbacks are registered, the
first throws. `shutdown(true)` calls the first one only; the exception leaves
`cleanup` and `shutdown`; `sync.wait(callback)` is never reached, so `kill()` is
not called then and, no batch being in flight, cannot be called later. -/
theorem C6_throwing_cleanup_blocks_kill :
    (shutdown (World.example1 [Cleanup.throws (.err "boom"), Cleanup.callsNow]) true).2
      = some (.err "boom") ∧
    cleanupCalls
      (shutdown (World.example1 [Cleanup.throws (.err "boom"), Cleanup.callsNow]) true).1.log
      = [0] ∧
    ∀ fires : List (Nat × Nat),
      (fireAll
        (shutdown (World.example1 [Cleanup.throws (.err "boom"), Cleanup.callsNow])
          true).1 fires).exited = none ∧
      exitCount (fireAll
        (shutdown (World.example1 [Cleanup.throws (.err "boom"), Cleanup.callsNow])
          true).1 fires).log = 0 := by
  refine ⟨by decide, by decide, ?_⟩
  intro fires
  rw [fireAll_no_batches fires _ (by decide)]
  exact ⟨by decide, by decide⟩

/-- Without a throwing callback the batch completes: one callback calls its handle
at once, the other later; `kill()` is called once, when the later one calls its
handle. -/
theorem shutdown_reaches_kill_example :
    (shutdown (World.example1 [Cleanup.callsNow, Cleanup.callsLater]) true).1.exited = none ∧
    (fireAll (shutdown (World.example1 [Cleanup.callsNow, Cleanup.callsLater]) true).1
      [(0, 0)]).exited = some 0 ∧
    exitCount (fireAll (shutdown (World.example1 [Cleanup.callsNow, Cleanup.callsLater]) true).1
      [(0, 0)]).log = 1 := by
  decide

/-- On an initialized supervisor (exit status below 3, process running) with
registered cleanup callbacks none of which throws, `shutdown()` is called, then any
of the handles handed over are called, then `shutdown()` is called again. The
second call returns the process unchanged, so it starts no cleanup, and over the two
calls each registered cleanup callback has been called exactly once, in order. -/
theorem overlapping_shutdown_runs_cleanups_once (w : World) (cs : List Cleanup)
    (hcs : w.ctl._cleanups = some cs) (hex : w.exited = none) (hst : w.ctl._exitstatus < 3)
    (hnt : ∀ c ∈ cs, c.returns = true) (fires : List (Nat × Nat)) :
    shutdown (fireAll (shutdown w false).1 fires) false
      = (fireAll (shutdown w false).1 fires, none) ∧
    cleanupCalls (shutdown (fireAll (shutdown w false).1 fires) false).1.log
      = cleanupCalls w.log ++ List.range cs.length := by
  obtain ⟨h3, heq⟩ := shutdown_status w hex hst
  have hnoop : shutdown (fireAll (shutdown w false).1 fires) false
      = (fireAll (shutdown w false).1 fires, none) := by
    apply shutdown_again_noop
    rw [(fireAll_fields fires _).1, h3]
  refine ⟨hnoop, ?_⟩
  rw [hnoop]
  simp only
  rw [(fireAll_fields fires _).2, heq]
  exact (cleanup_calls { w with ctl := { w.ctl with _exitstatus := 3 } } cs hcs hnt).1

/-- Three cleanup callbacks none of which throws, two of which hand their handle
over; one of these handles is called between the two `shutdown()` calls. -/
theorem overlapping_shutdown_example :
    cleanupCalls (shutdown (fireAll (shutdown
        (World.example1 [Cleanup.callsLater, Cleanup.callsNow, Cleanup.callsLater]) false).1
        [(0, 1)]) false).1.log = [0, 1, 2] :=
  (overlapping_shutdown_runs_cleanups_once
    (World.example1 [Cleanup.callsLater, Cleanup.callsNow, Cleanup.callsLater])
    [Cleanup.callsLater, Cleanup.callsNow, Cleanup.callsLater] rfl rfl (by decide) (by decide)
    [(0, 1)]).2

/-- The second of two `shutdown()` calls without force changes nothing whatever the
cleanup callbacks do, a throwing one included. -/
theorem second_shutdown_noop (w : World) (hex : w.exited = none) (hst : w.ctl._exitstatus < 3)
    (fires : List (Nat × Nat)) :
    shutdown (fireAll (shutdown w false).1 fires) false
      = (fireAll (shutdown w false).1 fires, none) := by
  apply shutdown_again_noop
  rw [(fireAll_fields fires _).1, (shutdown_status w hex hst).1]

/-- C7 (fails in the code): three cleanup callbacks are registered, the second one
throws. `shutdown()` is called, then any handles are called, then `shutdown()` is
called again. The exception of the second callback leaves the first `shutdown()`;
the second `shutdown()` changes nothing and starts no cleanup; over the two calls the
callbacks called are 0 and 1: the third callback is never called, not once, and the
process never reaches `kill()`. -/
theorem C7_throwing_cleanup_is_not_run_once_each :
    (shutdown (World.example1 [Cleanup.callsNow, Cleanup.throws (.err "boom"), Cleanup.callsNow])
      false).2 = some (.err "boom") ∧
    ∀ fires : List (Nat × Nat),
      shutdown (fireAll (shutdown
          (World.example1 [Cleanup.callsNow, Cleanup.throws (.err "boom"), Cleanup.callsNow])
          false).1 fires) false
        = (fireAll (shutdown
          (World.example1 [Cleanup.callsNow, Cleanup.throws (.err "boom"), Cleanup.callsNow])
          false).1 fires, none) ∧
      cleanupCalls (shutdown (fireAll (shutdown
          (World.example1 [Cleanup.callsNow, Cleanup.throws (.err "boom"), Cleanup.callsNow])
          false).1 fires) false).1.log = [0, 1] ∧
      (shutdown (fireAll (shutdown
          (World.example1 [Cleanup.callsNow, Cleanup.throws (.err "boom"), Cleanup.callsNow])
          false).1 fires) false).1.exited = none := by
  refine ⟨by decide, ?_⟩
  intro fires
  have hnoop := second_shutdown_noop
    (World.example1 [Cleanup.callsNow, Cleanup.throws (.err "boom"), Cleanup.callsNow])
    (by decide) (by decide) fires
  rw [hnoop]
  refine ⟨rfl, ?_, ?_⟩
  · rw [(fireAll_fields fires _).2]
    decide
  · rw [fireAll_no_batches fires _ (by decide)]
    decide

theorem has_filter_ne (fs : Fs) (path p : String) :
    Fs.has { fs with files := fs.files.filter (fun f => f.1 != path) } p
      = (fs.has p && (p != path)) := by
  simp only [Fs.has, List.any_filter]
  rw [Bool.eq_iff_iff]
  simp only [List.any_eq_true, Bool.and_eq_true, bne_iff_ne, beq_iff_eq, ne_eq]
  constructor
  · rintro ⟨a, ha, h1, h2⟩
    exact ⟨⟨a, ha, h2⟩, by rw [← h2]; exact h1⟩
  · rintro ⟨⟨a, ha, h2⟩, h1⟩
    exact ⟨a, ha, by rw [h2]; exact h1, h2⟩

theorem has_written (fs : Fs) (path data : String) :
    Fs.has { fs with files := fs.files.filter (fun f => f.1 != path) ++ [(path, data)] } path
      = true := by
  simp [Fs.has]

/-- What `kill()` does to the file system when `_is_locking` is set. -/
theorem kill_fs_locking (w : World) (h : w.ctl._is_locking = true) :
    (kill w).fs.has w.ctl.lockfile
      = (w.fs.has w.ctl.lockfile && w.fs.pinned.contains w.ctl.lockfile) ∧
    (∀ p, p ≠ w.ctl.lockfile → (kill w).fs.has p = w.fs.has p) := by
  unfold kill releaseLock
  simp only [h, Bool.not_true, Bool.false_eq_true, if_false]
  unfold Fs.unlinkSync
  by_cases hc : (w.fs.has w.ctl.lockfile && !w.fs.pinned.contains w.ctl.lockfile) = true
  · simp only [hc, if_true]
    have hc2 := hc
    simp only [Bool.and_eq_true, Bool.not_eq_true'] at hc2
    constructor
    · show Fs.has { w.fs with files := w.fs.files.filter (fun f => f.1 != w.ctl.lockfile) }
        w.ctl.lockfile = _
      rw [has_filter_ne, hc2.2]
      simp
    · intro p hp
      show Fs.has { w.fs with files := w.fs.files.filter (fun f => f.1 != w.ctl.lockfile) } p = _
      rw [has_filter_ne]
      simp [hp]
  · simp only [hc]
    constructor
    · show w.fs.has w.ctl.lockfile = _
      cases h1 : w.fs.has w.ctl.lockfile <;> cases h2 : w.fs.pinned.contains w.ctl.lockfile
      all_goals (rw [h1, h2] at hc)
      all_goals (first | rfl | exact absurd rfl hc)
    · intro p _; rfl

/-- For every state of the supervisor and of the file system, `kill()` ends with
`process.exit(0)`, whatever `_exitstatus` is and whether or not the removal of the
marker succeeds, and clears `_is_locking`. When `_is_locking` is unset the file
system is untouched; when it is set, the file at `lockfile` is removed (it stays
only when the removal is refused) and no other file is touched. -/
theorem kill_exits_zero_and_unlinks_lockfile (w : World) :
    (kill w).exited = some 0 ∧
    (kill w).log = w.log ++ [BEv.exit 0] ∧
    (kill w).ctl._is_locking = false ∧
    (w.ctl._is_locking = false → (kill w).fs = w.fs) ∧
    (w.ctl._is_locking = true →
      (kill w).fs.has w.ctl.lockfile
        = (w.fs.has w.ctl.lockfile && w.fs.pinned.contains w.ctl.lockfile) ∧
      (∀ p, p ≠ w.ctl.lockfile → (kill w).fs.has p = w.fs.has p)) := by
  obtain ⟨_, _, c, _, _⟩ := releaseLock_fields w
  refine ⟨rfl, (kill_fields w).2.2.2.1, c, ?_, kill_fs_locking w⟩
  intro h
  simp [kill, releaseLock, h]

/-- When the marker can be written, `setLock()` writes it and sets `_is_locking`, and
a `kill()` that follows removes it unless the removal is refused. -/
theorem setLock_then_kill (w : World) (hl : w.ctl._lockFile ≠ "")
    (hw : w.fs.unwritable.contains w.ctl._lockFile = false) :
    (setLock w).2 = .ok true ∧
    (setLock w).1.ctl._is_locking = true ∧
    (setLock w).1.ctl.lockfile = w.ctl._lockFile ∧
    (setLock w).1.fs.has w.ctl._lockFile = true ∧
    (kill (setLock w).1).exited = some 0 ∧
    (kill (setLock w).1).fs.has w.ctl._lockFile = w.fs.pinned.contains w.ctl._lockFile := by
  rw [setLock_ok w hl hw]
  refine ⟨rfl, rfl, rfl, has_written _ _ _, rfl, ?_⟩
  have hk := (kill_fs_locking
    { w with ctl := { w.ctl with _is_locking := true, lockfile := w.ctl._lockFile },
             fs := { w.fs with files :=
               w.fs.files.filter (fun f => f.1 != w.ctl._lockFile)
                 ++ [(w.ctl._lockFile, toString w.pid)] } } rfl).1
  simp only at hk
  rw [hk, has_written]
  simp

/-- C8 (fails in the code). First input: the marker `/tmp/app.lock` of another
process (pid 999) exists and cannot be written. `setLock()` sets `_is_locking` and
`lockfile`, then the write throws: this instance has written no marker, yet
`kill()` removes the marker of the other process before it exits with status 0.
Second input: the instance writes `/tmp/app.lock`, then `init` is called with the
lock file `/tmp/other` and writes `/tmp/other.lock`; `kill()` removes the second
marker only, and the first one, written by this instance and never released, is
left behind. -/
theorem C8_kill_removes_foreign_marker_and_leaves_own :
    (setLock (World.start { init := true, failok := false, lockFile := "/tmp/app",
                            maxiumum_memory_usage := 0 }
        { files := [("/tmp/app.lock", "999")], pinned := [],
          unwritable := ["/tmp/app.lock"] })).2 = .error (.err "EACCES") ∧
    (setLock (World.start { init := true, failok := false, lockFile := "/tmp/app",
                            maxiumum_memory_usage := 0 }
        { files := [("/tmp/app.lock", "999")], pinned := [],
          unwritable := ["/tmp/app.lock"] })).1.ctl._is_locking = true ∧
    (setLock (World.start { init := true, failok := false, lockFile := "/tmp/app",
                            maxiumum_memory_usage := 0 }
        { files := [("/tmp/app.lock", "999")], pinned := [],
          unwritable := ["/tmp/app.lock"] })).1.fs.files = [("/tmp/app.lock", "999")] ∧
    (kill (setLock (World.start { init := true, failok := false, lockFile := "/tmp/app",
                                  maxiumum_memory_usage := 0 }
        { files := [("/tmp/app.lock", "999")], pinned := [],
          unwritable := ["/tmp/app.lock"] })).1).fs.files = [] ∧
    (kill (setLock (World.start { init := true, failok := false, lockFile := "/tmp/app",
                                  maxiumum_memory_usage := 0 }
        { files := [("/tmp/app.lock", "999")], pinned := [],
          unwritable := ["/tmp/app.lock"] })).1).exited = some 0 ∧
    (init (begin World.example2 1000 (some false)).1
        { init := false, failok := false, lockFile := "/tmp/other", maxiumum_memory_usage := 0 }
        defaultPhases InitHooks.quiet 1000 (some false)).1.fs.files
      = [("/tmp/app.lock", "4242"), ("/tmp/other.lock", "4242")] ∧
    (kill (init (begin World.example2 1000 (some false)).1
        { init := false, failok := false, lockFile := "/tmp/other", maxiumum_memory_usage := 0 }
        defaultPhases InitHooks.quiet 1000 (some false)).1).fs.files
      = [("/tmp/app.lock", "4242")] ∧
    (kill (init (begin World.example2 1000 (some false)).1
        { init := false, failok := false, lockFile := "/tmp/other", maxiumum_memory_usage := 0 }
        defaultPhases InitHooks.quiet 1000 (some false)).1).exited = some 0 := by
  refine ⟨rfl, by decide, by decide, by decide, by decide, by decide, by decide, by decide⟩

theorem handleSelfCheck_eq (w : World) (rss : Nat) (idle : Option Bool) :
    handleSelfCheck w rss idle
      = if capturedCeiling w ≤ rss ∨ (capturedCeiling w ≤ 2 * rss ∧ idle = some true) then
          { w with initial_mem_usage := capturedCeiling w,
                   log := w.log ++ [BEv.ipcSend "restart"] }
        else { w with initial_mem_usage := capturedCeiling w } := by
  have hw1 : (if w.initial_mem_usage = 0 then
        { w with initial_mem_usage :=
            if w.ctl.cfg.maxiumum_memory_usage ≠ 0 then w.ctl.cfg.maxiumum_memory_usage
            else 768 * 1024 * 1024 }
      else w) = { w with initial_mem_usage := capturedCeiling w } := by
    unfold capturedCeiling
    by_cases h0 : w.initial_mem_usage = 0
    · simp only [h0, if_true, ne_eq, not_true_eq_false, if_false]
    · simp only [h0, if_false, ne_eq, not_false_eq_true, if_true]
  unfold handleSelfCheck
  simp only []
  rw [hw1]
  generalize capturedCeiling w = c
  unfold restart
  by_cases h1 : c ≤ rss
  · simp [h1]
  · by_cases h2 : c ≤ 2 * rss
    · cases idle with
      | none => simp [h1, h2]
      | some b => cases b <;> simp [h1, h2]
    · simp [h1, h2]

/-- C9: for every resident-memory value `rss` and captured ceiling `c`, the ceiling
used and kept is `c`; `handleSelfCheck()` sends exactly one `restart` when
`rss >= c`; sends nothing when `2 * rss < c`, whatever the idle predicate returns;
when `2 * rss >= c` and `rss < c` it sends one `restart` exactly when the idle
predicate returns true; with the default predicate (which returns false) it sends
nothing whenever `rss < c`. -/
theorem C9_self_check_restart_thresholds (w : World) (rss : Nat) (idle : Option Bool) :
    (handleSelfCheck w rss idle).initial_mem_usage = capturedCeiling w ∧
    (capturedCeiling w ≤ rss →
      (handleSelfCheck w rss idle).log = w.log ++ [BEv.ipcSend "restart"]) ∧
    (2 * rss < capturedCeiling w → (handleSelfCheck w rss idle).log = w.log) ∧
    (capturedCeiling w ≤ 2 * rss → rss < capturedCeiling w →
      (handleSelfCheck w rss idle).log
        = w.log ++ (if idle = some true then [BEv.ipcSend "restart"] else [])) ∧
    (rss < capturedCeiling w → (handleSelfCheck w rss (some false)).log = w.log) := by
  refine ⟨?_, ?_, ?_, ?_, ?_⟩
  · rw [handleSelfCheck_eq]; split <;> rfl
  · intro h
    rw [handleSelfCheck_eq, if_pos (Or.inl h)]
  · intro h
    rw [handleSelfCheck_eq, if_neg (by omega)]
  · intro h1 h2
    rw [handleSelfCheck_eq]
    by_cases hi : idle = some true
    · rw [if_pos (Or.inr ⟨h1, hi⟩), if_pos hi]
    · rw [if_neg (by rintro (h | ⟨_, h⟩); omega; exact hi h), if_neg hi]
      simp
  · intro h
    rw [handleSelfCheck_eq, if_neg (by rintro (h1 | ⟨_, h1⟩); omega; cases h1)]

/-- C9, at concrete values with the default ceiling `768 * 1024 * 1024`: at the
ceiling one `restart` is sent; at half the ceiling with an idle predicate that
returns true one `restart` is sent. -/
theorem C9_self_check_witness :
    (handleSelfCheck World.example2 805306368 (some false)).log = [BEv.ipcSend "restart"] ∧
    (handleSelfCheck World.example2 402653184 (some true)).log = [BEv.ipcSend "restart"] ∧
    (handleSelfCheck World.example2 402653183 (some true)).log = [] :=
  ⟨(C9_self_check_restart_thresholds World.example2 805306368 (some false)).2.1 (by decide),
   (C9_self_check_restart_thresholds World.example2 402653184 (some true)).2.2.2.1
     (by decide) (by decide),
   (C9_self_check_restart_thresholds World.example2 402653183 (some true)).2.2.1 (by decide)⟩

/-! ## Claims on `ASync`, continued -/

theorem wait_sets_callback (g : ASync) (ctx fn : Val) (r : Bool) (cb : Cb)
    (h : pickCb ctx fn = some cb) : (g.wait ctx fn r).g.callback = some cb := by
  unfold ASync.wait
  rw [h]
  simp only
  split
  · split <;> rfl
  · rfl

theorem run_callback_isSome (ops : List Op) :
    ∀ s : Sys, s.grp.callback.isSome = true → (s.run ops).grp.callback.isSome = true := by
  induction ops with
  | nil => intro s h; exact h
  | cons op ops ih =>
    intro s h
    rw [run_cons]
    obtain ⟨_, _, _, _, _, hsome, _⟩ := step_summary s op
    exact ih _ (hsome h)

theorem step_getHandler_refused (s : Sys) (ctx fn : Val) (h : s.grp.callback.isSome = true) :
    s.grp.getHandler s.seq ctx fn = .error (.err "Syncronization task added while waiting!") ∧
    s.step (.getHandler ctx fn)
      = { s with log := s.log ++ [Ev.raised (.err "Syncronization task added while waiting!")] } := by
  constructor
  · simp [ASync.getHandler, h]
  · simp [Sys.step, ASync.getHandler, h]

/-- C11: on any group, once `wait`/`success` has been called with a callback
function, and whatever operations follow, a call of `getHandler` throws
(`Syncronization task added while waiting!`) and registers nothing: the group, its
outstanding set included, the module counter and the handles returned so far are
the same after the failed call as before it. -/
theorem C11_getHandler_after_wait_throws (s : Sys) (wctx wfn : Val) (cb : Cb)
    (hcb : pickCb wctx wfn = some cb) (r : Bool) (ops : List Op) (ctx fn : Val) :
    ((s.step (.wait wctx wfn r)).run ops).grp.getHandler
        ((s.step (.wait wctx wfn r)).run ops).seq ctx fn
      = .error (.err "Syncronization task added while waiting!") ∧
    (((s.step (.wait wctx wfn r)).run ops).step (.getHandler ctx fn)).grp
      = ((s.step (.wait wctx wfn r)).run ops).grp ∧
    (((s.step (.wait wctx wfn r)).run ops).step (.getHandler ctx fn)).grp._waits
      = ((s.step (.wait wctx wfn r)).run ops).grp._waits ∧
    (((s.step (.wait wctx wfn r)).run ops).step (.getHandler ctx fn)).seq
      = ((s.step (.wait wctx wfn r)).run ops).seq ∧
    (((s.step (.wait wctx wfn r)).run ops).step (.getHandler ctx fn)).handles
      = ((s.step (.wait wctx wfn r)).run ops).handles ∧
    (((s.step (.wait wctx wfn r)).run ops).step (.getHandler ctx fn)).log
      = ((s.step (.wait wctx wfn r)).run ops).log
          ++ [Ev.raised (.err "Syncronization task added while waiting!")] := by
  have h1 : (s.step (.wait wctx wfn r)).grp.callback.isSome = true := by
    show (s.grp.wait wctx wfn r).g.callback.isSome = true
    rw [wait_sets_callback s.grp wctx wfn r cb hcb]
    rfl
  have h2 := run_callback_isSome ops _ h1
  obtain ⟨e1, e2⟩ := step_getHandler_refused _ ctx fn h2
  rw [e2]
  exact ⟨e1, rfl, rfl, rfl, rfl, rfl⟩

/-- C11, at a concrete group: one handle, `wait(cb)`, the handle is called (the
success callback fires), then `getHandler` is called again. -/
theorem C11_getHandler_after_wait_witness :
    ((((Sys.fresh 0).step (.getHandler .undefined .undefined)).step
        (.wait (.fn 9) .undefined false)).run [Op.invoke 0 none false]).grp.getHandler
      ((((Sys.fresh 0).step (.getHandler .undefined .undefined)).step
        (.wait (.fn 9) .undefined false)).run [Op.invoke 0 none false]).seq (.fn 1) .undefined
      = .error (.err "Syncronization task added while waiting!") :=
  (C11_getHandler_after_wait_throws ((Sys.fresh 0).step (.getHandler .undefined .undefined))
    (.fn 9) .undefined (.direct 9) rfl false [Op.invoke 0 none false] (.fn 1) .undefined).1

/-! ## Claims on `Seq`, continued -/

/-- C12: `Seq.run([], callback, handler)` calls `callback` once, with no argument,
before it returns, and does nothing else: no step, no handler call, nothing handed
over, nothing thrown. Without a callback it does nothing and throws nothing. -/
theorem C12_empty_sequence_calls_callback_once (cb : Nat) (h : Option Nat) (fuel : Nat) :
    (Seq.run [] (some cb) h).log = [SEv.callback cb []] ∧
    (Seq.run [] (some cb) h).pending = [] ∧
    (Seq.run [] (some cb) h).thrown = none ∧
    (Seq.runToEnd fuel [] (some cb) h).log = [SEv.callback cb []] ∧
    (Seq.runToEnd fuel [] (some cb) h).uncaught = [] ∧
    (Seq.run [] none h).log = [] ∧
    (Seq.run [] none h).pending = [] ∧
    (Seq.run [] none h).thrown = none ∧
    (Seq.runToEnd fuel [] none h).log = [] ∧
    (Seq.runToEnd fuel [] none h).uncaught = [] := by
  obtain ⟨d1, d2, _⟩ := drain_nil h fuel
  refine ⟨rfl, rfl, rfl, ?_, ?_, rfl, rfl, rfl, ?_, ?_⟩
  · show [SEv.callback cb []] ++ (drain h fuel []).log = _
    rw [d1]; rfl
  · exact d2
  · show [] ++ (drain h fuel []).log = _
    rw [d1]; rfl
  · exact d2

/-- The first `get` on an object whose `_proxies` is still empty returns the chain
of its steps ending in the callback of that call. -/
theorem get_first_entry (s : Seq) (cb h : Option Nat) (hp : s._proxies = []) :
    (s.get cb h).2 = chain s._steps 0 (Target.callback cb) ∧ (s.get cb h).1._handler = h := by
  unfold Seq.get
  simp only [hp]
  by_cases hz : s._steps.length = 0
  · have : s._steps = [] := List.length_eq_zero.1 hz
    simp [this, chain]
  · rw [if_neg hz]
    refine ⟨?_, rfl⟩
    apply getLoop_head s._steps (Target.callback cb) s._steps.length (Nat.le_refl _) []
    simp [chain]

/-- C13, the code at the failing input: an object with one step (which returns its
continuation), `get(cb1)` and then `get(cb2)` on the same object. `get` leaves the
closures of the first call in `_proxies`, and the loop of the second call takes
`_proxies[0]`, not `callback`, as the continuation of the last step. The entry
point of the second call runs the step twice and then calls `cb1`; `cb2` is never
called. The entry point of the first call is as the claim says. -/
theorem C13_second_get_continues_into_first_chain :
    (((Seq.new.push (fun _ => .returnNext)).get (some 1) none).2.call none []).log
      = [.step 0 [], .callback 1 []] ∧
    (((((Seq.new.push (fun _ => .returnNext)).get (some 1) none).1.get (some 2) none).2).call
        none []).log
      = [.step 0 [], .step 0 [], .callback 1 []] := by
  constructor <;> rfl

/-! ## Claims on `IPC` -/

theorem filter_beq_append_self (l : List Nat) (x : Nat) (h : x ∉ l) :
    (l ++ [x]).filter (fun y => y == x) = [x] := by
  have h0 : l.filter (fun y => y == x) = [] := by
    rw [List.filter_eq_nil_iff]
    intro a ha hax
    have : a = x := by simpa using hax
    exact h (this ▸ ha)
  simp [List.filter_append, h0]

/-- C18, counterexample: a channel bound to link `1` with `setProcess`; when the link
reports that it has closed the channel emits the event `close`, and no event named
`closed`. -/
theorem C18_close_event_is_not_named_closed :
    ((IPC.new none).setProcess 1).onClose 1 = [IEv.emit (.str "close") []] ∧
    IEv.emit (.str "closed") [] ∉ ((IPC.new none).setProcess 1).onClose 1 := by
  constructor <;> decide

/-- C18, amended: for every channel and every link it was not bound to before, once
the channel is bound to the link with `setProcess` and the link reports that it has
closed, the channel emits a local event named `close`, with no argument, exactly
once. -/
theorem C18_link_close_emits_close_once (c : IPC) (link : Nat) (h : link ∉ c.bound) :
    (c.setProcess link).onClose link = [IEv.emit (.str "close") []] := by
  unfold IPC.onClose IPC.setProcess
  simp only
  rw [filter_beq_append_self c.bound link h]
  rfl

/-- C18, amended, at a concrete channel: made unbound, then bound to link `3`. -/
theorem C18_link_close_witness :
    ((IPC.new none).setProcess 3).onClose 3 = [IEv.emit (.str "close") []] :=
  C18_link_close_emits_close_once (IPC.new none) 3 (by decide)

/-- C19: `send(name, ...payload)` on a channel bound to a link transmits exactly one
message over that link, the array `[name, ...payload]`; that message, delivered by a
link to a channel bound to it (once), is emitted locally once, as the event `name`
with exactly `payload` as arguments; on a channel that was never bound, `send`
transmits nothing and throws nothing. -/
theorem C19_send_marshals_and_receive_emits (c d : IPC) (link peer : Nat) (name : Val)
    (payload : List Val) (linkThrows : Option Val) (hd : peer ∉ d.bound) :
    ((c.setProcess link).send (name :: payload) linkThrows).1
      = [IEv.transmit link (name :: payload)] ∧
    (d.setProcess peer).onMessage peer (name :: payload) = [IEv.emit name payload] ∧
    (IPC.new none).send (name :: payload) linkThrows = ([], none) := by
  refine ⟨rfl, ?_, rfl⟩
  unfold IPC.onMessage IPC.setProcess
  simp only
  rw [filter_beq_append_self d.bound peer hd]
  rfl

/-- C19, at concrete channels: `send('init', 7)` on one side, delivery on the other. -/
theorem C19_send_receive_witness :
    ((IPC.new none).setProcess 2).onMessage 2 [.str "init", .num 7]
      = [IEv.emit (.str "init") [.num 7]] :=
  (C19_send_marshals_and_receive_emits (IPC.new none) (IPC.new none) 1 2 (.str "init") [.num 7]
    none (by decide)).2.1

/-! ## Claims on `StreamBuffer` -/

theorem writeAll_fields (chunks : List (List Nat)) :
    ∀ s : StreamBuffer, (s.writeAll chunks)._buffers = s._buffers ++ chunks ∧
      (s.writeAll chunks)._size = s._size + (chunks.map List.length).sum := by
  induction chunks with
  | nil => intro s; simp [StreamBuffer.writeAll]
  | cons c cs ih =>
    intro s
    obtain ⟨a, b⟩ := ih (s.write c).1
    have hw : s.writeAll (c :: cs) = (s.write c).1.writeAll cs := rfl
    rw [hw, a, b]
    simp [StreamBuffer.write, Nat.add_assoc]

theorem bufCopy_fits (src target : List Nat) (start : Nat)
    (h : start + src.length ≤ target.length) :
    bufCopy src target start = target.take start ++ src ++ target.drop (start + src.length) ∧
    (bufCopy src target start).length = target.length := by
  have h1 : src.length ≤ target.length - start := by omega
  have h2 : min src.length (target.length - start) = src.length := Nat.min_eq_left h1
  have h3 : src.take (target.length - start) = src := List.take_of_length_le h1
  have he : bufCopy src target start
      = target.take start ++ src ++ target.drop (start + src.length) := by
    unfold bufCopy
    rw [h2, h3]
  refine ⟨he, ?_⟩
  rw [he]
  simp only [List.length_append, List.length_take, List.length_drop]
  omega

theorem copyLoop_fits (bufs : List (List Nat)) :
    ∀ (buffer : List Nat) (start : Nat), start + bufs.flatten.length ≤ buffer.length →
      copyLoop bufs buffer start
        = (buffer.take start ++ bufs.flatten ++ buffer.drop (start + bufs.flatten.length),
           start + bufs.flatten.length) := by
  induction bufs with
  | nil => intro buffer start _; simp [copyLoop]
  | cons b bs ih =>
    intro buffer start h
    simp only [List.flatten_cons, List.length_append] at h
    obtain ⟨he, hl⟩ := bufCopy_fits b buffer start (by omega)
    unfold copyLoop
    rw [ih (bufCopy b buffer start) (start + b.length) (by rw [hl]; omega), he]
    have t1 : (buffer.take start ++ b ++ buffer.drop (start + b.length)).take (start + b.length)
        = buffer.take start ++ b := by
      have hlen : (buffer.take start ++ b).length = start + b.length := by
        simp only [List.length_append, List.length_take]; omega
      rw [List.take_append_of_le_length (by rw [hlen])]
      rw [List.take_of_length_le (by rw [hlen])]
    have t2 : (buffer.take start ++ b ++ buffer.drop (start + b.length)).drop
        (start + b.length + bs.flatten.length)
        = buffer.drop (start + b.length + bs.flatten.length) := by
      have hlen : (buffer.take start ++ b).length = start + b.length := by
        simp only [List.length_append, List.length_take]; omega
      rw [List.drop_append_eq_append_drop, List.drop_of_length_le (by omega), hlen]
      simp [List.drop_drop, Nat.add_comm]
    rw [t1, t2]
    simp [List.flatten_cons, Nat.add_assoc]

/-- C20, counterexample: nothing was written, the target has 3 bytes and `start` is
`3`. `start + getSize()` is `3` and does not exceed `buffer.length`, yet
`copyToBuffer` throws (`start position is out of bounds`) instead of returning `3`. -/
theorem C20_copyToBuffer_throws_at_end_of_buffer :
    (StreamBuffer.new.writeAll []).getSize = 0 ∧
    ¬ (3 + (StreamBuffer.new.writeAll []).getSize > [7, 7, 7].length) ∧
    (StreamBuffer.new.writeAll []).copyToBuffer [7, 7, 7] (some 3)
      = .error (.err "start position is out of bounds") := by
  refine ⟨rfl, by decide, rfl⟩

/-- C20, amended: after the chunks have been written with `write()`, `getSize()` is
the sum of the chunk lengths; `getBuffer()` returns a buffer of exactly that length
whose bytes are the chunks concatenated in write order (of length zero when nothing
was written); `copyToBuffer(buffer, start)` writes the same bytes at offset `start`,
leaves the other bytes of `buffer` as they were and returns `start + getSize()` when
`start < buffer.length` and `start + getSize() <= buffer.length`; it throws without
writing when `start >= buffer.length` or `start + getSize()` exceeds
`buffer.length`. -/
theorem C20_streambuffer_accumulates_chunks (chunks : List (List Nat)) (junk : Nat → Nat)
    (buffer : List Nat) (start : Option Nat) :
    (StreamBuffer.new.writeAll chunks).getSize = (chunks.map List.length).sum ∧
    chunks.flatten.length = (chunks.map List.length).sum ∧
    (StreamBuffer.new.writeAll chunks).getBuffer junk = .ok chunks.flatten ∧
    (start.getD 0 < buffer.length →
      start.getD 0 + (StreamBuffer.new.writeAll chunks).getSize ≤ buffer.length →
      (StreamBuffer.new.writeAll chunks).copyToBuffer buffer start
        = .ok (buffer.take (start.getD 0) ++ chunks.flatten
                ++ buffer.drop (start.getD 0 + (StreamBuffer.new.writeAll chunks).getSize),
               start.getD 0 + (StreamBuffer.new.writeAll chunks).getSize)) ∧
    (buffer.length ≤ start.getD 0 →
      (StreamBuffer.new.writeAll chunks).copyToBuffer buffer start
        = .error (.err "start position is out of bounds")) ∧
    (start.getD 0 < buffer.length →
      buffer.length < start.getD 0 + (StreamBuffer.new.writeAll chunks).getSize →
      (StreamBuffer.new.writeAll chunks).copyToBuffer buffer start
        = .error (.err "insufficient buffer size")) := by
  obtain ⟨hb, hs⟩ := writeAll_fields chunks StreamBuffer.new
  have hb2 : (StreamBuffer.new.writeAll chunks)._buffers = chunks := by
    rw [hb]; simp [StreamBuffer.new]
  have hs2 : (StreamBuffer.new.writeAll chunks)._size = (chunks.map List.length).sum := by
    rw [hs]; simp [StreamBuffer.new]
  have hlen : chunks.flatten.length = (chunks.map List.length).sum := List.length_flatten chunks
  have hcopy : ∀ (buf : List Nat) (st : Option Nat), st.getD 0 < buf.length →
      st.getD 0 + (chunks.map List.length).sum ≤ buf.length →
      (StreamBuffer.new.writeAll chunks).copyToBuffer buf st
        = .ok (buf.take (st.getD 0) ++ chunks.flatten
                ++ buf.drop (st.getD 0 + (chunks.map List.length).sum),
               st.getD 0 + (chunks.map List.length).sum) := by
    intro buf st h1 h2
    unfold StreamBuffer.copyToBuffer
    rw [if_neg (by omega), hs2, if_neg (by omega), hb2,
      copyLoop_fits chunks buf (st.getD 0) (by rw [hlen]; exact h2), hlen]
  refine ⟨hs2, hlen, ?_, ?_, ?_, ?_⟩
  · unfold StreamBuffer.getBuffer
    by_cases hz : (StreamBuffer.new.writeAll chunks)._size = 0
    · rw [if_pos hz]
      have : chunks.flatten = [] := by
        apply List.length_eq_zero.1
        rw [hlen, ← hs2, hz]
      rw [this]
    · rw [if_neg hz]
      have hpos : 0 < (chunks.map List.length).sum := by
        rw [← hs2]; exact Nat.pos_of_ne_zero hz
      rw [hs2, hcopy ((List.range (chunks.map List.length).sum).map junk) none
        (by simpa using hpos) (by simp)]
      simp only [Option.getD_none, List.take_zero, List.nil_append, Nat.zero_add]
      rw [List.drop_of_length_le (by simp)]
      simp
  · intro h1 h2
    have hg : (StreamBuffer.new.writeAll chunks).getSize = (chunks.map List.length).sum := hs2
    rw [hg] at h2 ⊢
    exact hcopy buffer start h1 h2
  · intro h
    unfold StreamBuffer.copyToBuffer
    rw [if_pos h]
  · intro h1 h2
    have hg : (StreamBuffer.new.writeAll chunks).getSize
        = (StreamBuffer.new.writeAll chunks)._size := rfl
    rw [hg] at h2
    unfold StreamBuffer.copyToBuffer
    rw [if_neg (by omega), if_pos h2]

/-- C20, amended, at concrete chunks: `[1, 2]` and `[3]` copied at offset `1` of a
buffer of five bytes. -/
theorem C20_streambuffer_witness :
    (StreamBuffer.new.writeAll [[1, 2], [3]]).copyToBuffer [9, 9, 9, 9, 9] (some 1)
      = .ok ([9, 9, 9, 9, 9].take ((some 1).getD 0) ++ [[1, 2], [3]].flatten
              ++ [9, 9, 9, 9, 9].drop
                  ((some 1).getD 0 + (StreamBuffer.new.writeAll [[1, 2], [3]]).getSize),
             (some 1).getD 0 + (StreamBuffer.new.writeAll [[1, 2], [3]]).getSize) :=
  (C20_streambuffer_accumulates_chunks [[1, 2], [3]] (fun _ => 0) [9, 9, 9, 9, 9]
    (some 1)).2.2.2.1 (by decide) (by decide)

/-! ## Claims on `init` and on the tick loop -/

theorem initSent_append (a b : List BEv) : initSent (a ++ b) = initSent a + initSent b := by
  simp [initSent, List.countP_append]

theorem handleSelfCheck_fields (w : World) (rss : Nat) (idle : Option Bool) :
    (handleSelfCheck w rss idle).ctl = w.ctl ∧
    (handleSelfCheck w rss idle).fs = w.fs ∧
    (handleSelfCheck w rss idle).exited = w.exited ∧
    (handleSelfCheck w rss idle).batches = w.batches ∧
    initSent (handleSelfCheck w rss idle).log = initSent w.log := by
  have h2 : initSent [BEv.ipcSend "restart"] = 0 := by decide
  rw [handleSelfCheck_eq]
  by_cases hc : capturedCeiling w ≤ rss ∨ (capturedCeiling w ≤ 2 * rss ∧ idle = some true)
  · rw [if_pos hc]
    exact ⟨rfl, rfl, rfl, rfl, by simp only [initSent_append, h2, Nat.add_zero]⟩
  · rw [if_neg hc]
    exact ⟨rfl, rfl, rfl, rfl, rfl⟩

/-- What `begin()` does when `setLock()` returns. -/
theorem begin_started (w : World) (rss : Nat) (idle : Option Bool) (b : Bool)
    (h : (setLock w).2 = .ok b) :
    (begin w rss idle).2 = .ok true ∧
    (begin w rss idle).1.ctl.interval_selfCheck = true ∧
    (begin w rss idle).1.ctl.interval_tick = true ∧
    (begin w rss idle).1.fs = (setLock w).1.fs ∧
    (begin w rss idle).1.ctl.initialized = w.ctl.initialized ∧
    (begin w rss idle).1.ctl._exitstatus = w.ctl._exitstatus ∧
    (begin w rss idle).1.exited = w.exited ∧
    initSent (begin w rss idle).1.log = initSent w.log := by
  have h1 : initSent [BEv.setInterval TimerFn.selfCheck (10 * 60 * 1000),
      BEv.setInterval TimerFn.tick (1 * 1000)] = 0 := by decide
  obtain ⟨s1, s2, s3, s4, _, _⟩ := setLock_fields w
  rw [begin_ok w rss idle b h]
  obtain ⟨c1, c2, c3, _, c5⟩ := handleSelfCheck_fields
    { (setLock w).1 with
      ctl := { (setLock w).1.ctl with _exiting := false, interval_selfCheck := true,
                                      interval_tick := true },
      log := (setLock w).1.log ++ [BEv.setInterval .selfCheck (10 * 60 * 1000),
                                   BEv.setInterval .tick (1 * 1000)] } rss idle
  simp only
  rw [c1, c2, c3, c5]
  refine ⟨trivial, rfl, rfl, rfl, s1, s2, s3, ?_⟩
  simp only [initSent_append, h1, Nat.add_zero, s4]

theorem begin_fields (w : World) (rss : Nat) (idle : Option Bool) :
    (begin w rss idle).1.ctl.initialized = w.ctl.initialized ∧
    (begin w rss idle).1.ctl._exitstatus = w.ctl._exitstatus ∧
    (begin w rss idle).1.exited = w.exited ∧
    initSent (begin w rss idle).1.log = initSent w.log := by
  cases h : (setLock w).2 with
  | ok b =>
    obtain ⟨_, _, _, _, a, b2, c, d⟩ := begin_started w rss idle b h
    exact ⟨a, b2, c, d⟩
  | error e =>
    obtain ⟨s1, s2, s3, s4, _, _⟩ := setLock_fields w
    rw [begin_fail w rss idle e h]
    exact ⟨s1, s2, s3, by simp only; rw [s4]⟩

theorem initBegin_eq (w : World) (p : List (Target × List Val)) (rss : Nat) (idle : Option Bool)
    (hex : w.exited = none) :
    (initBegin w p rss idle).1 = (begin w rss idle).1 ∧
    (initBegin w p rss idle).2.1 = p ∧
    (initBegin w p rss idle).2.2
      = (match (begin w rss idle).2 with
         | .error e => some e
         | .ok _ => none) := by
  unfold initBegin
  rw [hex]
  cases h : (begin w rss idle).2 <;> exact ⟨rfl, rfl, rfl⟩

theorem initCall_proxy (hooks : InitHooks) (failok : Bool) (st : Step) (next : Target) (k : Nat)
    (w : World) (args : List Val) :
    initCall hooks failok (Target.proxy st next k) w args
      = initCatch failok k args (initTry st next (initCall hooks failok next) w args) := rfl

theorem initCall_callback (hooks : InitHooks) (failok : Bool) (c : Nat) (w : World)
    (args : List Val) :
    initCall hooks failok (Target.callback (some c)) w args
      = { w := (initDone hooks w).1, log := [InitEv.done], pending := [],
          thrown := (initDone hooks w).2 } := rfl

theorem initCatch_ok (failok : Bool) (k : Nat) (args : List Val) (body : InitRes)
    (ht : body.thrown = none) :
    initCatch failok k args body
      = { w := body.w, log := InitEv.step k args :: body.log, pending := body.pending,
          thrown := none } := by
  unfold initCatch
  rw [ht]

theorem initCatch_thrown (failok : Bool) (k : Nat) (args : List Val) (body : InitRes) (e : Val)
    (ht : body.thrown = some e) :
    initCatch failok k args body
      = { w := (initFault failok body.w).1,
          log := InitEv.step k args ::
            (body.log ++ InitEv.fault k e :: (initFault failok body.w).2.1),
          pending := body.pending,
          thrown := (initFault failok body.w).2.2 } := by
  unfold initCatch
  rw [ht]

/-- The first step of the pipeline hands its continuation to `process.nextTick`:
the call of the entry point runs that step only. -/
theorem init_pipeline_start (hooks : InitHooks) (failok : Bool) (phases : List Step)
    (cb : Target) (w : World) :
    initCall hooks failok (chain (initPipeline phases) 0 cb) w []
      = { w := w, log := [InitEv.step 0 []], pending := [(chain phases 1 cb, [])],
          thrown := none } := by
  simp only [initPipeline, chain, initCall_proxy]
  rw [initCatch_ok _ _ _ _ (by rfl)]
  rfl

theorem init_enabled_eq (w : World) (cfg : Cfg) (phases : List Step) (hooks : InitHooks)
    (rss : Nat) (idle : Option Bool) (hinit : cfg.init = true)
    (hni : w.ctl.initialized = false) :
    init w cfg phases hooks rss idle
      = initBegin (initLog { w with ctl := { w.ctl with cfg := cfg, _exitstatus := 1 } })
          [(chain phases 1 (Target.callback (some initDoneFn)), [])] rss idle := by
  unfold init
  have h0 : (initLog { w with ctl := { w.ctl with cfg := cfg, _exitstatus := 1 } }).ctl.initialized
      = false := hni
  simp only [h0, hinit, Bool.not_false, if_true]
  rw [(getOf_entry (initPipeline phases) (some initDoneFn) (some initFaultFn)).1,
    init_pipeline_start]

theorem lockFile_ne (s : String) : s ++ ".lock" ≠ "" := by
  intro h
  have h2 : (s ++ ".lock").length = s.length + 5 := by
    rw [String.length_append]; rfl
  have h3 : ("" : String).length = 0 := rfl
  rw [h, h3] at h2
  omega

/-- C14, counterexample: `init` with initialization enabled, a lock file configured
and ten phases that advance at once. When `init` returns, the pipeline has only run
its first step (`process.nextTick(next)`): one continuation is waiting, the
supervisor is not marked initialized; yet `begin()` has run: the lock marker is
written and both timers are started. -/
theorem C14_begin_runs_while_pipeline_is_pending :
    World.example2.ctl.cfg.init = true ∧
    (init World.example2 World.example2.ctl.cfg defaultPhases InitHooks.quiet 1000
      (some false)).2.1.length = 1 ∧
    (init World.example2 World.example2.ctl.cfg defaultPhases InitHooks.quiet 1000
      (some false)).1.ctl.initialized = false ∧
    (init World.example2 World.example2.ctl.cfg defaultPhases InitHooks.quiet 1000
      (some false)).1.fs.has "/tmp/app.lock" = true ∧
    (init World.example2 World.example2.ctl.cfg defaultPhases InitHooks.quiet 1000
      (some false)).1.ctl.interval_selfCheck = true ∧
    (init World.example2 World.example2.ctl.cfg defaultPhases InitHooks.quiet 1000
      (some false)).1.ctl.interval_tick = true := by
  decide

/-- C14, amended: for every configuration with initialization enabled given to
`init()` on a running supervisor not yet initialized, `init()` calls `begin()` before
it returns, as soon as the pipeline has been started: the first step of the pipeline
hands its continuation to `process.nextTick`, so that when `begin()` runs no later
phase has run, the continuation is still waiting and the supervisor is not marked
initialized. When no lock file is configured or the marker can be written, `begin()`
starts both timers and writes the marker (if a lock file is configured). When the
marker cannot be written, the exception of the write leaves `begin()` and `init()`:
no timer is started, no marker is written, and `_is_locking` is left set. -/
theorem C14_begin_runs_as_soon_as_pipeline_started (w : World) (cfg : Cfg) (phases : List Step)
    (hooks : InitHooks) (rss : Nat) (idle : Option Bool) (hinit : cfg.init = true)
    (hni : w.ctl.initialized = false) (hex : w.exited = none) :
    (init w cfg phases hooks rss idle).2.1
      = [(chain phases 1 (Target.callback (some initDoneFn)), [])] ∧
    (init w cfg phases hooks rss idle).1
      = (begin (initLog { w with ctl := { w.ctl with cfg := cfg, _exitstatus := 1 } }) rss idle).1 ∧
    (init w cfg phases hooks rss idle).1.ctl.initialized = false ∧
    ((cfg.lockFile = "" ∨ w.fs.unwritable.contains (cfg.lockFile ++ ".lock") = false) →
      (init w cfg phases hooks rss idle).2.2 = none ∧
      (init w cfg phases hooks rss idle).1.ctl.interval_selfCheck = true ∧
      (init w cfg phases hooks rss idle).1.ctl.interval_tick = true ∧
      (cfg.lockFile ≠ "" →
        (init w cfg phases hooks rss idle).1.fs.has (cfg.lockFile ++ ".lock") = true)) ∧
    (cfg.lockFile ≠ "" → w.fs.unwritable.contains (cfg.lockFile ++ ".lock") = true →
      (init w cfg phases hooks rss idle).2.2 = some (.err "EACCES") ∧
      (init w cfg phases hooks rss idle).1.ctl.interval_selfCheck = w.ctl.interval_selfCheck ∧
      (init w cfg phases hooks rss idle).1.ctl.interval_tick = w.ctl.interval_tick ∧
      (init w cfg phases hooks rss idle).1.ctl._is_locking = true ∧
      (init w cfg phases hooks rss idle).1.fs = w.fs) := by
  rw [init_enabled_eq w cfg phases hooks rss idle hinit hni]
  obtain ⟨e1, e2, e3⟩ := initBegin_eq
    (initLog { w with ctl := { w.ctl with cfg := cfg, _exitstatus := 1 } })
    [(chain phases 1 (Target.callback (some initDoneFn)), [])] rss idle hex
  obtain ⟨b1, _, _, _⟩ :=
    begin_fields (initLog { w with ctl := { w.ctl with cfg := cfg, _exitstatus := 1 } }) rss idle
  rw [e1, e2, e3]
  have hlf : cfg.lockFile ≠ "" →
      (initLog { w with ctl := { w.ctl with cfg := cfg, _exitstatus := 1 } }).ctl._lockFile
        = cfg.lockFile ++ ".lock" := by
    intro hl
    simp [initLog, BaseController._lockFile, hl]
  have hlf0 : cfg.lockFile = "" →
      (initLog { w with ctl := { w.ctl with cfg := cfg, _exitstatus := 1 } }).ctl._lockFile
        = "" := by
    intro hl
    simp [initLog, BaseController._lockFile, hl]
  refine ⟨rfl, rfl, by rw [b1]; exact hni, ?_, ?_⟩
  · intro hw
    have hok : (setLock (initLog { w with ctl := { w.ctl with cfg := cfg, _exitstatus := 1 } })).2
        = .ok true ∧
        (cfg.lockFile ≠ "" →
          (setLock (initLog { w with ctl := { w.ctl with cfg := cfg, _exitstatus := 1 } })).1.fs.has
            (cfg.lockFile ++ ".lock") = true) := by
      by_cases hl : cfg.lockFile = ""
      · rw [setLock_none _ (hlf0 hl)]
        exact ⟨rfl, fun h => absurd hl h⟩
      · have hw2 : w.fs.unwritable.contains (cfg.lockFile ++ ".lock") = false := by
          rcases hw with h | h
          · exact absurd h hl
          · exact h
        have hne : (initLog { w with ctl := { w.ctl with cfg := cfg, _exitstatus := 1 } }).ctl._lockFile
            ≠ "" := by rw [hlf hl]; exact lockFile_ne _
        rw [setLock_ok _ hne (by rw [hlf hl]; exact hw2)]
        refine ⟨rfl, fun _ => ?_⟩
        simp only
        rw [hlf hl]
        exact has_written _ _ _
    obtain ⟨c1, c2, c3, c4, _⟩ := begin_started
      (initLog { w with ctl := { w.ctl with cfg := cfg, _exitstatus := 1 } }) rss idle true hok.1
    rw [c1]
    refine ⟨rfl, c2, c3, ?_⟩
    intro hl
    rw [c4]
    exact hok.2 hl
  · intro hl hw
    have hne : (initLog { w with ctl := { w.ctl with cfg := cfg, _exitstatus := 1 } }).ctl._lockFile
        ≠ "" := by rw [hlf hl]; exact lockFile_ne _
    have hs := setLock_fail (initLog { w with ctl := { w.ctl with cfg := cfg, _exitstatus := 1 } })
      hne (by rw [hlf hl]; exact hw)
    have hb := begin_fail (initLog { w with ctl := { w.ctl with cfg := cfg, _exitstatus := 1 } })
      rss idle (.err "EACCES") (by rw [hs])
    rw [hb, hs]
    exact ⟨rfl, rfl, rfl, rfl, rfl⟩

/-- C14, amended, at a concrete supervisor with a lock file configured and writable:
the tick timer is started by `init()` itself. -/
theorem C14_begin_runs_witness :
    (init World.example2 World.example2.ctl.cfg defaultPhases InitHooks.quiet 1000
      (some false)).1.ctl.interval_tick = true :=
  ((C14_begin_runs_as_soon_as_pipeline_started World.example2 World.example2.ctl.cfg defaultPhases
    InitHooks.quiet 1000 (some false) rfl rfl rfl).2.2.2.1 (Or.inr (by decide))).2.2.1

theorem releaseLock_more (w : World) :
    (releaseLock w).1.ctl.initialized = w.ctl.initialized ∧
    (releaseLock w).1.ctl._runTimeout = w.ctl._runTimeout := by
  unfold releaseLock
  cases h : w.ctl._is_locking with
  | false => simp [h]
  | true =>
    simp only [Bool.not_true, Bool.false_eq_true, if_false]
    cases hu : w.fs.unlinkSync w.ctl.lockfile <;> simp

theorem kill_more (w : World) :
    (kill w).ctl.initialized = w.ctl.initialized ∧ initSent (kill w).log = initSent w.log := by
  refine ⟨(releaseLock_more w).1, ?_⟩
  rw [(kill_fields w).2.2.2.1, initSent_append]
  rfl

theorem cleanupLoop_initSent (cs : List Cleanup) :
    ∀ (w : World) (sync : ASync) (pending : List Handle) (i : Nat),
      initSent (cleanupLoop w sync pending i cs).1.log = initSent w.log := by
  induction cs with
  | nil => intro w sync pending i; simp [cleanupLoop]
  | cons c cs ih =>
    intro w sync pending i
    have hlog : initSent (w.log ++ [BEv.cleanup i]) = initSent w.log := by
      rw [initSent_append]; rfl
    unfold cleanupLoop
    cases hg : sync.getHandler w.seq .undefined .undefined with
    | error e => simp
    | ok r =>
      obtain ⟨g, seq1, h⟩ := r
      cases c with
      | callsNow =>
        have := ih { w with seq := seq1, log := w.log ++ [BEv.cleanup i] }
          (g.invoke h none false).1 pending (i + 1)
        simp only at this ⊢
        rw [this, hlog]
      | callsLater =>
        have := ih { w with seq := seq1, log := w.log ++ [BEv.cleanup i] }
          g (pending ++ [h]) (i + 1)
        simp only at this ⊢
        rw [this, hlog]
      | throws e => simpa using hlog

theorem cleanup_more (w : World) :
    (cleanup w).1.ctl.initialized = w.ctl.initialized ∧
    initSent (cleanup w).1.log = initSent w.log := by
  unfold cleanup
  cases hcs : w.ctl._cleanups with
  | none => exact kill_more w
  | some cs =>
    simp only
    obtain ⟨a, -⟩ := cleanupLoop_ctl cs w ASync.new [] 0
    have b := cleanupLoop_initSent cs w ASync.new [] 0
    rcases hc : cleanupLoop w ASync.new [] 0 cs with ⟨w1, sync, pending, thrown⟩
    rw [hc] at a b
    simp only at a b
    have a2 : w1.ctl.initialized = w.ctl.initialized := by rw [a]
    cases thrown with
    | some e => exact ⟨a2, b⟩
    | none =>
      simp only
      split
      · exact ⟨by rw [(kill_more w1).1, a2], by rw [(kill_more w1).2, b]⟩
      · split
        · exact ⟨by rw [(kill_more w1).1, a2], by rw [(kill_more w1).2, b]⟩
        · exact ⟨a2, b⟩

theorem shutdown_more (w : World) (force : Bool) :
    (shutdown w force).1.ctl.initialized = w.ctl.initialized ∧
    initSent (shutdown w force).1.log = initSent w.log := by
  unfold shutdown
  split
  · exact ⟨rfl, rfl⟩
  · split
    · exact ⟨rfl, rfl⟩
    · exact cleanup_more _

theorem initFault_facts (failok : Bool) (w : World) :
    (initFault failok w).1 = faultWorld failok w ∧
    (∀ ev ∈ (initFault failok w).2.1, ev.isFault = true) ∧
    (InitEv.shutdown ∈ (initFault failok w).2.1 ↔ failok = false) := by
  cases failok <;> simp [initFault, faultWorld, InitEv.isFault]

/-- Once the fault handler has run on a running supervisor below the shutdown
level, a further call of the handler changes nothing and throws nothing: with
`cfg.failok` it does nothing, and otherwise `shutdown()` returns at once. -/
theorem initFault_again (failok : Bool) (w : World) (hex : w.exited = none)
    (hst : w.ctl._exitstatus < 3) :
    (initFault failok (faultWorld failok w)).1 = faultWorld failok w ∧
    (initFault failok (faultWorld failok w)).2.2 = none := by
  cases failok with
  | true => exact ⟨rfl, rfl⟩
  | false =>
    have h3 : (shutdown w false).1.ctl._exitstatus = 3 := (shutdown_status w hex hst).1
    have hn := shutdown_again_noop (shutdown w false).1 (by omega)
    simp only [initFault, faultWorld, Bool.false_eq_true, if_false, hn]
    exact ⟨trivial, trivial⟩

theorem initCatch_after_fault (failok : Bool) (k : Nat) (args : List Val) (body : InitRes)
    (w : World) (hex : w.exited = none) (hst : w.ctl._exitstatus < 3)
    (hw : body.w = faultWorld failok w) :
    (initCatch failok k args body).w = faultWorld failok w ∧
    (initCatch failok k args body).pending = body.pending ∧
    (initCatch failok k args body).thrown = none ∧
    ∃ extra, (initCatch failok k args body).log = InitEv.step k args :: (body.log ++ extra) ∧
      (∀ ev ∈ extra, ev.isFault = true) ∧ (InitEv.shutdown ∈ extra → failok = false) := by
  cases ht : body.thrown with
  | none =>
    rw [initCatch_ok _ _ _ _ ht]
    exact ⟨hw, rfl, rfl, [], by simp, by simp, by simp⟩
  | some e2 =>
    rw [initCatch_thrown _ _ _ _ e2 ht, hw]
    obtain ⟨a1, a2⟩ := initFault_again failok w hex hst
    obtain ⟨_, f2, f3⟩ := initFault_facts failok (faultWorld failok w)
    refine ⟨a1, rfl, a2, InitEv.fault k e2 :: (initFault failok (faultWorld failok w)).2.1, rfl,
      ?_, ?_⟩
    · intro ev hev
      rcases List.mem_cons.1 hev with h | h
      · rw [h]; rfl
      · exact f2 ev h
    · intro hm
      rcases List.mem_cons.1 hm with h | h
      · cases h
      · exact f3.1 h

theorem initTry_now (st : Step) (next : Target) (f : World → List Val → InitRes) (w : World)
    (args : List Val) (h : (st args).advancesNow = true) :
    initTry st next f w args = f w (st args).outArgs := by
  unfold initTry
  cases hr : st args with
  | callNext a => rfl
  | returnNext => rfl
  | deferNext a => rw [hr] at h; simp [StepResult.advancesNow] at h
  | throws e => rw [hr] at h; simp [StepResult.advancesNow] at h
  | halt => rw [hr] at h; simp [StepResult.advancesNow] at h

theorem advances_cases (r : StepResult) (h : r.advances = true) :
    r.advancesNow = true ∨ ∃ a, r = .deferNext a := by
  cases r with
  | callNext a => exact Or.inl rfl
  | returnNext => exact Or.inl rfl
  | deferNext a => exact Or.inr ⟨a, rfl⟩
  | throws e => simp [StepResult.advances] at h
  | halt => simp [StepResult.advances] at h

/-- A chain of the init pipeline in which steps `0 .. k-1` advance and step `k`
throws `e`, called on a running supervisor below the shutdown level: when the steps
before `k` all advance before they return, the call runs steps `0 .. k`, the fault
handler is called with the index and `e`, and whatever the handler throws only
reaches enclosing closures, whose calls of the handler change nothing; otherwise the
call stops at the first step that hands its continuation over, the process
unchanged, and the rest is the run of the remaining steps. -/
theorem initCall_chain_throws (hooks : InitHooks) (failok : Bool) (cb : Target) (e : Val)
    (steps : List Step) :
    ∀ (k b : Nat) (args : List Val) (w : World), throwsAt steps k e args →
      w.exited = none → w.ctl._exitstatus < 3 →
      ((initCall hooks failok (chain steps b cb) w args).pending = [] ∧
        (initCall hooks failok (chain steps b cb) w args).w = faultWorld failok w ∧
        ∃ tail, (initCall hooks failok (chain steps b cb) w args).log
            = stepEventsUpTo steps k b args ++ InitEv.fault (b + k) e :: tail ∧
          (∀ ev ∈ tail, ev.isFault = true) ∧ (InitEv.shutdown ∈ tail ↔ failok = false)) ∨
      ((initCall hooks failok (chain steps b cb) w args).thrown = none ∧
        (initCall hooks failok (chain steps b cb) w args).w = w ∧
        ∃ suf k2 b2 a,
          (initCall hooks failok (chain steps b cb) w args).pending = [(chain suf b2 cb, a)] ∧
          throwsAt suf k2 e a ∧ suf.length < steps.length ∧ b2 + k2 = b + k ∧
          (initCall hooks failok (chain steps b cb) w args).log ++ stepEventsUpTo suf k2 b2 a
            = stepEventsUpTo steps k b args) := by
  induction steps with
  | nil => intro k b args w ht; simp [throwsAt] at ht
  | cons st rest ih =>
    intro k b args w ht hex hst
    cases k with
    | zero =>
      simp only [throwsAt] at ht
      have hb : initTry st (chain rest (b + 1) cb) (initCall hooks failok (chain rest (b + 1) cb))
          w args = { w := w, log := [], pending := [], thrown := some e } := by
        simp [initTry, ht]
      left
      simp only [chain, initCall_proxy]
      rw [initCatch_thrown _ _ _ _ e (by rw [hb]), hb]
      obtain ⟨f1, f2, f3⟩ := initFault_facts failok w
      exact ⟨rfl, f1, (initFault failok w).2.1, by simp [stepEventsUpTo], f2, f3⟩
    | succ k =>
      simp only [throwsAt] at ht
      obtain ⟨hadv, hrest⟩ := ht
      simp only [chain, initCall_proxy]
      have hsum : b + 1 + k = b + (k + 1) := by omega
      rcases advances_cases _ hadv with hnow | ⟨a, hd⟩
      · rw [initTry_now _ _ _ _ _ hnow]
        rcases ih k (b + 1) (st args).outArgs w hrest hex hst with
          ⟨p, hw, tail, l, t1, t2⟩ | ⟨t, hw, suf, k2, b2, a2, p, th, len, hs, l⟩
        · left
          obtain ⟨c1, c2, _, extra, c4, c5, c6⟩ := initCatch_after_fault failok b args
            (initCall hooks failok (chain rest (b + 1) cb) w (st args).outArgs) w hex hst hw
          refine ⟨by rw [c2, p], c1, tail ++ extra, ?_, ?_, ?_⟩
          · rw [c4, l, hsum]
            simp [stepEventsUpTo]
          · intro ev hev
            rcases List.mem_append.1 hev with h | h
            · exact t1 ev h
            · exact c5 ev h
          · constructor
            · intro hm
              rcases List.mem_append.1 hm with h | h
              · exact t2.1 h
              · exact c6 h
            · intro hf
              exact List.mem_append_left _ (t2.2 hf)
        · right
          rw [initCatch_ok _ _ _ _ t]
          refine ⟨rfl, hw, suf, k2, b2, a2, p, th, by simp; omega, by omega, ?_⟩
          simp [stepEventsUpTo, l]
      · have hb : initTry st (chain rest (b + 1) cb)
            (initCall hooks failok (chain rest (b + 1) cb)) w args
            = { w := w, log := [], pending := [(chain rest (b + 1) cb, a)], thrown := none } := by
          simp [initTry, hd]
        right
        rw [initCatch_ok _ _ _ _ (by rw [hb]), hb]
        rw [hd] at hrest
        refine ⟨rfl, rfl, rest, k, b + 1, a, rfl, hrest, by simp, by omega, ?_⟩
        simp [stepEventsUpTo, hd, StepResult.outArgs]

theorem initResume_nil (hooks : InitHooks) (failok : Bool) (fuel : Nat) (w : World) :
    (initResume hooks failok fuel w []).w = w ∧
    (initResume hooks failok fuel w []).log = [] ∧
    (initResume hooks failok fuel w []).uncaught = [] ∧
    (initResume hooks failok fuel w []).left = [] := by
  cases fuel <;> exact ⟨rfl, rfl, rfl, rfl⟩

theorem initResume_turn (hooks : InitHooks) (failok : Bool) (fuel : Nat) (w : World)
    (t : Target) (a : List Val) (hex : w.exited = none) :
    (initResume hooks failok (fuel + 1) w [(t, a)]).w
      = (initResume hooks failok fuel (initCall hooks failok t w a).w
          (initCall hooks failok t w a).pending).w ∧
    (initResume hooks failok (fuel + 1) w [(t, a)]).log
      = (initCall hooks failok t w a).log ++
        (initResume hooks failok fuel (initCall hooks failok t w a).w
          (initCall hooks failok t w a).pending).log ∧
    (initResume hooks failok (fuel + 1) w [(t, a)]).uncaught
      = (initCall hooks failok t w a).thrown.toList ++
        (initResume hooks failok fuel (initCall hooks failok t w a).w
          (initCall hooks failok t w a).pending).uncaught ∧
    (initResume hooks failok (fuel + 1) w [(t, a)]).left
      = (initResume hooks failok fuel (initCall hooks failok t w a).w
          (initCall hooks failok t w a).pending).left := by
  simp [initResume, hex]

theorem initResume_chain_throws (hooks : InitHooks) (failok : Bool) (cb : Target) (e : Val) :
    ∀ (n : Nat) (suf : List Step) (k b : Nat) (a : List Val) (w : World), suf.length ≤ n →
      throwsAt suf k e a → w.exited = none → w.ctl._exitstatus < 3 → ∀ fuel, n ≤ fuel →
      (initResume hooks failok fuel w [(chain suf b cb, a)]).left = [] ∧
      (initResume hooks failok fuel w [(chain suf b cb, a)]).w = faultWorld failok w ∧
      ∃ tail, (initResume hooks failok fuel w [(chain suf b cb, a)]).log
          = stepEventsUpTo suf k b a ++ InitEv.fault (b + k) e :: tail ∧
        (∀ ev ∈ tail, ev.isFault = true) ∧ (InitEv.shutdown ∈ tail ↔ failok = false) := by
  intro n
  induction n with
  | zero =>
    intro suf k b a w hlen ht
    have : suf = [] := List.length_eq_zero.1 (Nat.le_zero.1 hlen)
    subst this
    simp [throwsAt] at ht
  | succ n ih =>
    intro suf k b a w hlen ht hex hst fuel hf
    obtain ⟨f, rfl⟩ : ∃ f, fuel = f + 1 := ⟨fuel - 1, by omega⟩
    obtain ⟨r1, r2, _, r4⟩ := initResume_turn hooks failok f w (chain suf b cb) a hex
    rw [r1, r2, r4]
    rcases initCall_chain_throws hooks failok cb e suf k b a w ht hex hst with
      ⟨p, hw, tail, l, t1, t2⟩ | ⟨t, hw, suf2, k2, b2, a2, p, th, len, hs, l⟩
    · obtain ⟨d1, d2, _, d4⟩ := initResume_nil hooks failok f
        (initCall hooks failok (chain suf b cb) w a).w
      rw [p, d1, d2, d4, hw]
      exact ⟨rfl, rfl, tail, by rw [List.append_nil, l], t1, t2⟩
    · obtain ⟨e1, e2, tail, e3, t1, t2⟩ := ih suf2 k2 b2 a2 w (by omega) th hex hst f (by omega)
      rw [p, hw]
      refine ⟨e1, e2, tail, ?_, t1, t2⟩
      rw [e3, ← List.append_assoc, l, hs]

theorem stepNum_of_isFault (tail : List InitEv) (h : ∀ ev ∈ tail, ev.isFault = true) :
    tail.filterMap InitEv.stepNum = [] := by
  induction tail with
  | nil => rfl
  | cons ev rest ih =>
    have h1 := h ev (List.mem_cons_self _ _)
    have h2 := ih (fun x hx => h x (List.mem_cons_of_mem _ hx))
    cases ev <;> simp_all [InitEv.isFault, InitEv.stepNum]

theorem stepNums_stepEventsUpTo (e : Val) (steps : List Step) :
    ∀ (k b : Nat) (args : List Val), throwsAt steps k e args →
      (stepEventsUpTo steps k b args).filterMap InitEv.stepNum = List.range' b (k + 1) := by
  induction steps with
  | nil => intro k b args ht; simp [throwsAt] at ht
  | cons st rest ih =>
    intro k b args ht
    cases k with
    | zero => simp [stepEventsUpTo, InitEv.stepNum]
    | succ k =>
      simp only [throwsAt] at ht
      simp [stepEventsUpTo, InitEv.stepNum, ih k (b + 1) _ ht.2, List.range'_succ]

theorem no_shutdown_stepEventsUpTo (steps : List Step) :
    ∀ (k b : Nat) (args : List Val), InitEv.shutdown ∉ stepEventsUpTo steps k b args := by
  induction steps with
  | nil => intro k b args; simp [stepEventsUpTo]
  | cons st rest ih =>
    intro k b args
    cases k with
    | zero => simp [stepEventsUpTo]
    | succ k => simp [stepEventsUpTo, ih]

theorem no_done_stepEventsUpTo (steps : List Step) :
    ∀ (k b : Nat) (args : List Val), InitEv.done ∉ stepEventsUpTo steps k b args := by
  induction steps with
  | nil => intro k b args; simp [stepEventsUpTo]
  | cons st rest ih =>
    intro k b args
    cases k with
    | zero => simp [stepEventsUpTo]
    | succ k => simp [stepEventsUpTo, ih]

/-- A chain of the init pipeline in which every step advances, the listeners of
`init` and the link not throwing: nothing is thrown, and either the run is complete
and the success callback has run, or it stops at the first step that hands its
continuation over, the process unchanged. -/
theorem initCall_chain_advances (hooks : InitHooks) (failok : Bool) (c : Nat)
    (he : hooks.emitThrows = none) (hs : hooks.sendThrows = none) (steps : List Step) :
    ∀ (k : Nat) (args : List Val) (w : World), advancesAll steps args = true →
      (initCall hooks failok (chain steps k (Target.callback (some c))) w args).thrown = none ∧
      (((initCall hooks failok (chain steps k (Target.callback (some c))) w args).pending = [] ∧
          (initCall hooks failok (chain steps k (Target.callback (some c))) w args).w
            = { w with ctl := { w.ctl with initialized := true },
                       log := w.log ++ [BEv.ipcSend "init"] } ∧
          (initCall hooks failok (chain steps k (Target.callback (some c))) w args).log
            = stepEvents steps k args ++ [InitEv.done]) ∨
        (∃ suf k2 a,
          (initCall hooks failok (chain steps k (Target.callback (some c))) w args).pending
            = [(chain suf k2 (Target.callback (some c)), a)] ∧
          (initCall hooks failok (chain steps k (Target.callback (some c))) w args).w = w ∧
          advancesAll suf a = true ∧ suf.length < steps.length ∧
          (initCall hooks failok (chain steps k (Target.callback (some c))) w args).log
              ++ stepEvents suf k2 a
            = stepEvents steps k args)) := by
  induction steps with
  | nil =>
    intro k args w _
    have hc : chain ([] : List Step) k (Target.callback (some c)) = Target.callback (some c) :=
      rfl
    have hd : initDone hooks w
        = ({ w with ctl := { w.ctl with initialized := true },
                    log := w.log ++ [BEv.ipcSend "init"] }, none) := by
      simp [initDone, he, hs]
    rw [hc, initCall_callback, hd]
    exact ⟨rfl, Or.inl ⟨rfl, rfl, rfl⟩⟩
  | cons st rest ih =>
    intro k args w hadv
    simp only [advancesAll, Bool.and_eq_true] at hadv
    obtain ⟨hst, hrest⟩ := hadv
    simp only [chain, initCall_proxy]
    rcases advances_cases _ hst with hnow | ⟨a, hd⟩
    · rw [initTry_now _ _ _ _ _ hnow]
      obtain ⟨t, hc⟩ := ih (k + 1) (st args).outArgs w hrest
      rw [initCatch_ok _ _ _ _ t]
      refine ⟨rfl, ?_⟩
      rcases hc with ⟨p, hw, l⟩ | ⟨suf, k2, a2, p, hw, adv, len, l⟩
      · left; exact ⟨p, hw, by simp [stepEvents, l]⟩
      · right
        exact ⟨suf, k2, a2, p, hw, adv, by simp; omega, by simp [stepEvents, l]⟩
    · have hb : initTry st (chain rest (k + 1) (Target.callback (some c)))
          (initCall hooks failok (chain rest (k + 1) (Target.callback (some c)))) w args
          = { w := w, log := [],
              pending := [(chain rest (k + 1) (Target.callback (some c)), a)],
              thrown := none } := by
        simp [initTry, hd]
      rw [initCatch_ok _ _ _ _ (by rw [hb]), hb]
      rw [hd] at hrest
      refine ⟨rfl, Or.inr ⟨rest, k + 1, a, rfl, rfl, hrest, by simp, ?_⟩⟩
      simp [stepEvents, hd, StepResult.outArgs]

theorem initResume_chain_advances (hooks : InitHooks) (failok : Bool) (c : Nat)
    (he : hooks.emitThrows = none) (hs : hooks.sendThrows = none) :
    ∀ (n : Nat) (suf : List Step) (k : Nat) (a : List Val) (w : World), suf.length ≤ n →
      advancesAll suf a = true → w.exited = none → ∀ fuel, n + 1 ≤ fuel →
      (initResume hooks failok fuel w [(chain suf k (Target.callback (some c)), a)]).left = [] ∧
      (initResume hooks failok fuel w [(chain suf k (Target.callback (some c)), a)]).uncaught
        = [] ∧
      (initResume hooks failok fuel w [(chain suf k (Target.callback (some c)), a)]).w
        = { w with ctl := { w.ctl with initialized := true },
                   log := w.log ++ [BEv.ipcSend "init"] } ∧
      (initResume hooks failok fuel w [(chain suf k (Target.callback (some c)), a)]).log
        = stepEvents suf k a ++ [InitEv.done] := by
  intro n
  induction n with
  | zero =>
    intro suf k a w hlen hadv hex fuel hf
    obtain ⟨f, rfl⟩ : ∃ f, fuel = f + 1 := ⟨fuel - 1, by omega⟩
    obtain ⟨r1, r2, r3, r4⟩ := initResume_turn hooks failok f w
      (chain suf k (Target.callback (some c))) a hex
    obtain ⟨t, hc⟩ := initCall_chain_advances hooks failok c he hs suf k a w hadv
    rw [r1, r2, r3, r4]
    rcases hc with ⟨p, hw, l⟩ | ⟨suf2, k2, a2, p, hw, adv, len, l⟩
    · obtain ⟨d1, d2, d3, d4⟩ := initResume_nil hooks failok f
        (initCall hooks failok (chain suf k (Target.callback (some c))) w a).w
      rw [p, d1, d2, d3, d4, t, hw, l]
      exact ⟨rfl, rfl, rfl, by simp⟩
    · omega
  | succ n ih =>
    intro suf k a w hlen hadv hex fuel hf
    obtain ⟨f, rfl⟩ : ∃ f, fuel = f + 1 := ⟨fuel - 1, by omega⟩
    obtain ⟨r1, r2, r3, r4⟩ := initResume_turn hooks failok f w
      (chain suf k (Target.callback (some c))) a hex
    obtain ⟨t, hc⟩ := initCall_chain_advances hooks failok c he hs suf k a w hadv
    rw [r1, r2, r3, r4]
    rcases hc with ⟨p, hw, l⟩ | ⟨suf2, k2, a2, p, hw, adv, len, l⟩
    · obtain ⟨d1, d2, d3, d4⟩ := initResume_nil hooks failok f
        (initCall hooks failok (chain suf k (Target.callback (some c))) w a).w
      rw [p, d1, d2, d3, d4, t, hw, l]
      exact ⟨rfl, rfl, rfl, by simp⟩
    · obtain ⟨e1, e2, e3, e4⟩ := ih suf2 k2 a2 w (by omega) adv hex f (by omega)
      rw [p, hw, t, e1, e2, e3, e4]
      refine ⟨rfl, rfl, rfl, ?_⟩
      rw [← List.append_assoc, l]

theorem init_enabled_facts (w : World) (cfg : Cfg) (phases : List Step) (hooks : InitHooks)
    (rss : Nat) (idle : Option Bool) (hinit : cfg.init = true)
    (hni : w.ctl.initialized = false) (hex : w.exited = none) :
    (init w cfg phases hooks rss idle).2.1
      = [(chain phases 1 (Target.callback (some initDoneFn)), [])] ∧
    (init w cfg phases hooks rss idle).1.ctl.initialized = false ∧
    (init w cfg phases hooks rss idle).1.ctl._exitstatus = 1 ∧
    (init w cfg phases hooks rss idle).1.exited = none ∧
    initSent (init w cfg phases hooks rss idle).1.log = initSent w.log := by
  rw [init_enabled_eq w cfg phases hooks rss idle hinit hni]
  obtain ⟨e1, e2, _⟩ := initBegin_eq
    (initLog { w with ctl := { w.ctl with cfg := cfg, _exitstatus := 1 } })
    [(chain phases 1 (Target.callback (some initDoneFn)), [])] rss idle hex
  obtain ⟨b1, b2, b3, b4⟩ :=
    begin_fields (initLog { w with ctl := { w.ctl with cfg := cfg, _exitstatus := 1 } }) rss idle
  rw [e1, e2]
  exact ⟨rfl, by rw [b1]; exact hni, by rw [b2]; rfl, by rw [b3]; exact hex, by rw [b4]; rfl⟩

/-- C15, counterexample: initialization is enabled and the second phase after the
deferral returns without advancing (a service that never signals, a hook that never
calls its continuation). No phase throws, so no phase faults, and the fault handler
is never called; yet however long the event loop runs, the supervisor is never
marked initialized and no `init` message is sent, and after the first turn nothing
is left to run. -/
theorem C15_halting_phase_never_initializes :
    (∀ k e, ¬ throwsAt
      (initPipeline [fun _ => .returnNext, fun _ => .halt, fun _ => .returnNext]) k e []) ∧
    (∀ fuel,
      (initResume InitHooks.quiet World.example2.ctl.cfg.failok fuel
        (init World.example2 World.example2.ctl.cfg
          [fun _ => .returnNext, fun _ => .halt, fun _ => .returnNext]
          InitHooks.quiet 1000 (some false)).1
        (init World.example2 World.example2.ctl.cfg
          [fun _ => .returnNext, fun _ => .halt, fun _ => .returnNext]
          InitHooks.quiet 1000 (some false)).2.1).w.ctl.initialized = false ∧
      initSent (initResume InitHooks.quiet World.example2.ctl.cfg.failok fuel
        (init World.example2 World.example2.ctl.cfg
          [fun _ => .returnNext, fun _ => .halt, fun _ => .returnNext]
          InitHooks.quiet 1000 (some false)).1
        (init World.example2 World.example2.ctl.cfg
          [fun _ => .returnNext, fun _ => .halt, fun _ => .returnNext]
          InitHooks.quiet 1000 (some false)).2.1).w.log = 0) ∧
    (initResume InitHooks.quiet World.example2.ctl.cfg.failok 1
      (init World.example2 World.example2.ctl.cfg
        [fun _ => .returnNext, fun _ => .halt, fun _ => .returnNext]
        InitHooks.quiet 1000 (some false)).1
      (init World.example2 World.example2.ctl.cfg
        [fun _ => .returnNext, fun _ => .halt, fun _ => .returnNext]
        InitHooks.quiet 1000 (some false)).2.1).log
      = [InitEv.step 1 [], InitEv.step 2 []] ∧
    (initResume InitHooks.quiet World.example2.ctl.cfg.failok 1
      (init World.example2 World.example2.ctl.cfg
        [fun _ => .returnNext, fun _ => .halt, fun _ => .returnNext]
        InitHooks.quiet 1000 (some false)).1
      (init World.example2 World.example2.ctl.cfg
        [fun _ => .returnNext, fun _ => .halt, fun _ => .returnNext]
        InitHooks.quiet 1000 (some false)).2.1).left.length = 0 := by
  refine ⟨?_, ?_, by decide, by decide⟩
  · intro k e h
    rcases k with _ | _ | _ | _ | k <;>
      simp [initPipeline, throwsAt, StepResult.advances] at h
  · intro fuel
    have hP : (init World.example2 World.example2.ctl.cfg
        [fun _ => .returnNext, fun _ => .halt, fun _ => .returnNext]
        InitHooks.quiet 1000 (some false)).2.1
        = [(chain [fun _ => .returnNext, fun _ => .halt, fun _ => .returnNext] 1
            (Target.callback (some initDoneFn)), [])] := rfl
    rw [hP]
    cases fuel with
    | zero => exact ⟨by decide, by decide⟩
    | succ n =>
      obtain ⟨r1, _, _, _⟩ := initResume_turn InitHooks.quiet World.example2.ctl.cfg.failok n
        (init World.example2 World.example2.ctl.cfg
          [fun _ => .returnNext, fun _ => .halt, fun _ => .returnNext]
          InitHooks.quiet 1000 (some false)).1
        (chain [fun _ => .returnNext, fun _ => .halt, fun _ => .returnNext] 1
            (Target.callback (some initDoneFn))) [] (by decide)
      have hp : (initCall InitHooks.quiet World.example2.ctl.cfg.failok
          (chain [fun _ => .returnNext, fun _ => .halt, fun _ => .returnNext] 1
            (Target.callback (some initDoneFn)))
          (init World.example2 World.example2.ctl.cfg
            [fun _ => .returnNext, fun _ => .halt, fun _ => .returnNext]
            InitHooks.quiet 1000 (some false)).1 []).pending = [] := rfl
      rw [r1, hp, (initResume_nil _ _ _ _).1]
      exact ⟨by decide, by decide⟩

/-- C15, amended: `init()` with initialization enabled on a running supervisor not yet
initialized, followed by the event loop running the pipeline (at least as many
turns as there are steps), whatever the listeners of `init` and the link do. If
phase `k` throws while the phases before it advance: the phases up to `k` start once
each and no later phase runs, the first call of the fault handler is with `(k, e)`
and nothing but calls of the handler and of `shutdown()` follows, the success
callback is not called, `shutdown()` is called exactly when `cfg.failok` is not set,
the process is the one left by that `shutdown()` (exit status 3, and 1 with
`cfg.failok`), the supervisor is not marked initialized and no `init` message is
sent. If every phase advances and neither a listener of `init` nor the link throws:
each phase starts once, in order, then the success callback runs, the supervisor is
marked initialized and exactly one `init` message is sent. -/
theorem C15_init_pipeline_outcomes (w : World) (cfg : Cfg) (phases : List Step)
    (hooks : InitHooks) (rss : Nat) (idle : Option Bool) (fuel : Nat) (hinit : cfg.init = true)
    (hni : w.ctl.initialized = false) (hex : w.exited = none)
    (hfuel : (initPipeline phases).length ≤ fuel) :
    (∀ k e, throwsAt (initPipeline phases) k e [] →
      (initResume hooks cfg.failok fuel (init w cfg phases hooks rss idle).1
        (init w cfg phases hooks rss idle).2.1).left = [] ∧
      (∃ tail, InitEv.step 0 [] :: (initResume hooks cfg.failok fuel
            (init w cfg phases hooks rss idle).1 (init w cfg phases hooks rss idle).2.1).log
          = stepEventsUpTo (initPipeline phases) k 0 [] ++ InitEv.fault k e :: tail ∧
        ∀ ev ∈ tail, ev.isFault = true) ∧
      (InitEv.step 0 [] :: (initResume hooks cfg.failok fuel
            (init w cfg phases hooks rss idle).1
            (init w cfg phases hooks rss idle).2.1).log).filterMap InitEv.stepNum
        = List.range (k + 1) ∧
      InitEv.done ∉ (initResume hooks cfg.failok fuel (init w cfg phases hooks rss idle).1
        (init w cfg phases hooks rss idle).2.1).log ∧
      (InitEv.shutdown ∈ (initResume hooks cfg.failok fuel (init w cfg phases hooks rss idle).1
        (init w cfg phases hooks rss idle).2.1).log ↔ cfg.failok = false) ∧
      (initResume hooks cfg.failok fuel (init w cfg phases hooks rss idle).1
          (init w cfg phases hooks rss idle).2.1).w
        = faultWorld cfg.failok (init w cfg phases hooks rss idle).1 ∧
      (initResume hooks cfg.failok fuel (init w cfg phases hooks rss idle).1
          (init w cfg phases hooks rss idle).2.1).w.ctl._exitstatus
        = (if cfg.failok = true then 1 else 3) ∧
      (initResume hooks cfg.failok fuel (init w cfg phases hooks rss idle).1
          (init w cfg phases hooks rss idle).2.1).w.ctl.initialized = false ∧
      initSent (initResume hooks cfg.failok fuel (init w cfg phases hooks rss idle).1
          (init w cfg phases hooks rss idle).2.1).w.log = initSent w.log) ∧
    (advancesAll (initPipeline phases) [] = true → hooks.emitThrows = none →
      hooks.sendThrows = none →
      (initResume hooks cfg.failok fuel (init w cfg phases hooks rss idle).1
        (init w cfg phases hooks rss idle).2.1).left = [] ∧
      (initResume hooks cfg.failok fuel (init w cfg phases hooks rss idle).1
        (init w cfg phases hooks rss idle).2.1).uncaught = [] ∧
      (initResume hooks cfg.failok fuel (init w cfg phases hooks rss idle).1
          (init w cfg phases hooks rss idle).2.1).log
        = stepEvents phases 1 [] ++ [InitEv.done] ∧
      (initResume hooks cfg.failok fuel (init w cfg phases hooks rss idle).1
          (init w cfg phases hooks rss idle).2.1).w
        = { (init w cfg phases hooks rss idle).1 with
            ctl := { (init w cfg phases hooks rss idle).1.ctl with initialized := true },
            log := (init w cfg phases hooks rss idle).1.log ++ [BEv.ipcSend "init"] } ∧
      (initResume hooks cfg.failok fuel (init w cfg phases hooks rss idle).1
          (init w cfg phases hooks rss idle).2.1).w.ctl.initialized = true ∧
      initSent (initResume hooks cfg.failok fuel (init w cfg phases hooks rss idle).1
          (init w cfg phases hooks rss idle).2.1).w.log = initSent w.log + 1) := by
  obtain ⟨p, hi, hs, hx, hn⟩ := init_enabled_facts w cfg phases hooks rss idle hinit hni hex
  generalize (init w cfg phases hooks rss idle).1 = w1 at hi hs hx hn ⊢
  rw [p]
  have hlen : phases.length + 1 ≤ fuel := by simpa [initPipeline] using hfuel
  constructor
  · intro k e ht
    cases k with
    | zero => simp [initPipeline, throwsAt] at ht
    | succ k =>
      have ht2 : throwsAt phases k e [] := by
        simpa [initPipeline, throwsAt, StepResult.advances, StepResult.outArgs] using ht
      obtain ⟨d1, d2, tail, d3, t1, t2⟩ := initResume_chain_throws hooks cfg.failok
        (Target.callback (some initDoneFn)) e phases.length phases k 1 [] w1 (Nat.le_refl _) ht2
        hx (by omega) fuel (by omega)
      have hk : 1 + k = k + 1 := Nat.add_comm 1 k
      have htr : stepEventsUpTo (initPipeline phases) (k + 1) 0 []
          = InitEv.step 0 [] :: stepEventsUpTo phases k 1 [] := rfl
      rw [d1, d2, d3, htr, hk]
      have hnums : (InitEv.step 0 [] :: (stepEventsUpTo phases k 1 []
          ++ InitEv.fault (k + 1) e :: tail)).filterMap InitEv.stepNum
          = List.range (k + 1 + 1) := by
        have h1 := stepNums_stepEventsUpTo e phases k 1 [] ht2
        have h2 := stepNum_of_isFault tail t1
        rw [List.range_eq_range', List.range'_succ]
        simp [InitEv.stepNum, List.filterMap_append, h1, h2]
      have hdone : InitEv.done ∉ stepEventsUpTo phases k 1 [] ++ InitEv.fault (k + 1) e :: tail := by
        intro hm
        rcases List.mem_append.1 hm with h | h
        · exact no_done_stepEventsUpTo phases k 1 [] h
        · rcases List.mem_cons.1 h with h | h
          · cases h
          · have := t1 _ h
            simp [InitEv.isFault] at this
      have hshut : InitEv.shutdown ∈ stepEventsUpTo phases k 1 [] ++ InitEv.fault (k + 1) e :: tail
          ↔ cfg.failok = false := by
        constructor
        · intro hm
          rcases List.mem_append.1 hm with h | h
          · exact absurd h (no_shutdown_stepEventsUpTo phases k 1 [])
          · rcases List.mem_cons.1 h with h | h
            · cases h
            · exact t2.1 h
        · intro hf
          exact List.mem_append_right _ (List.mem_cons_of_mem _ (t2.2 hf))
      refine ⟨rfl, ⟨tail, rfl, t1⟩, hnums, hdone, hshut, rfl, ?_, ?_, ?_⟩
      · unfold faultWorld
        by_cases hf : cfg.failok = true
        · rw [if_pos hf, if_pos hf, hs]
        · rw [if_neg hf, if_neg hf]
          exact (shutdown_status w1 hx (by omega)).1
      · unfold faultWorld
        by_cases hf : cfg.failok = true
        · rw [if_pos hf, hi]
        · rw [if_neg hf, (shutdown_more w1 false).1, hi]
      · unfold faultWorld
        by_cases hf : cfg.failok = true
        · rw [if_pos hf, hn]
        · rw [if_neg hf, (shutdown_more w1 false).2, hn]
  · intro hadv he hse
    have hadv2 : advancesAll phases [] = true := by
      simpa [initPipeline, advancesAll, StepResult.advances, StepResult.outArgs] using hadv
    obtain ⟨d1, d2, d3, d4⟩ := initResume_chain_advances hooks cfg.failok initDoneFn he hse
      phases.length phases 1 [] w1 (Nat.le_refl _) hadv2 hx fuel hlen
    rw [d1, d2, d3, d4]
    refine ⟨rfl, rfl, rfl, rfl, rfl, ?_⟩
    simp only
    rw [initSent_append, hn]
    rfl

/-- C15, amended, at a concrete supervisor: the third phase after the deferral throws
and `cfg.failok` is not set; the process ends up with exit status 3. -/
theorem C15_init_pipeline_witness :
    (initResume InitHooks.quiet World.example2.ctl.cfg.failok 11
      (init World.example2 World.example2.ctl.cfg
        [fun _ => .returnNext, fun _ => .returnNext, fun _ => .throws (.err "boom")]
        InitHooks.quiet 1000 (some false)).1
      (init World.example2 World.example2.ctl.cfg
        [fun _ => .returnNext, fun _ => .returnNext, fun _ => .throws (.err "boom")]
        InitHooks.quiet 1000 (some false)).2.1).w.ctl._exitstatus
      = (if World.example2.ctl.cfg.failok = true then 1 else 3) :=
  ((C15_init_pipeline_outcomes World.example2 World.example2.ctl.cfg
    [fun _ => .returnNext, fun _ => .returnNext, fun _ => .throws (.err "boom")]
    InitHooks.quiet 1000 (some false) 11 rfl rfl rfl (by decide)).1 3 (.err "boom")
    ⟨rfl, rfl, rfl, rfl⟩).2.2.2.2.2.2.1

/-- A listener of `init` that throws: every phase advances, the success callback
runs inside the `try` block of the last closure, so the exception goes to the fault
handler, which calls `shutdown()`; the supervisor is not marked initialized and no
`init` message is sent. -/
theorem init_listener_throws_example :
    (initResume { emitThrows := some (.err "boom"), sendThrows := none }
      World.example2.ctl.cfg.failok 20
      (init World.example2 World.example2.ctl.cfg defaultPhases
        { emitThrows := some (.err "boom"), sendThrows := none } 1000 (some false)).1
      (init World.example2 World.example2.ctl.cfg defaultPhases
        { emitThrows := some (.err "boom"), sendThrows := none } 1000 (some false)).2.1).log.drop 10
      = [InitEv.done, InitEv.fault 10 (.err "boom"), InitEv.shutdown] ∧
    (initResume { emitThrows := some (.err "boom"), sendThrows := none }
      World.example2.ctl.cfg.failok 20
      (init World.example2 World.example2.ctl.cfg defaultPhases
        { emitThrows := some (.err "boom"), sendThrows := none } 1000 (some false)).1
      (init World.example2 World.example2.ctl.cfg defaultPhases
        { emitThrows := some (.err "boom"), sendThrows := none } 1000
        (some false)).2.1).w.ctl.initialized = false ∧
    (initResume { emitThrows := some (.err "boom"), sendThrows := none }
      World.example2.ctl.cfg.failok 20
      (init World.example2 World.example2.ctl.cfg defaultPhases
        { emitThrows := some (.err "boom"), sendThrows := none } 1000 (some false)).1
      (init World.example2 World.example2.ctl.cfg defaultPhases
        { emitThrows := some (.err "boom"), sendThrows := none } 1000
        (some false)).2.1).w.ctl._exitstatus = 3 := by
  refine ⟨by decide, by decide, by decide⟩

/-- A phase throws and a registered cleanup callback throws too: the exception of
`shutdown()` leaves the fault handler and the closure, reaches the closure of the
phase before (which had called its continuation), and the fault handler is called a
second time, where `shutdown()` returns at once. -/
theorem init_fault_handler_called_again_example :
    (initResume InitHooks.quiet false 20
      (init (World.example1 [Cleanup.throws (.err "late")])
        { init := true, failok := false, lockFile := "", maxiumum_memory_usage := 0 }
        [fun _ => .returnNext, fun _ => .throws (.err "boom")]
        InitHooks.quiet 1000 (some false)).1
      (init (World.example1 [Cleanup.throws (.err "late")])
        { init := true, failok := false, lockFile := "", maxiumum_memory_usage := 0 }
        [fun _ => .returnNext, fun _ => .throws (.err "boom")]
        InitHooks.quiet 1000 (some false)).2.1).log
      = [InitEv.step 1 [], InitEv.step 2 [], InitEv.fault 2 (.err "boom"), InitEv.shutdown,
         InitEv.fault 1 (.err "late"), InitEv.shutdown] := by
  decide

/-! ### Lemmas on the tick loop -/

theorem clearsGuard_invoked (i : Nat) (l : List Ev) :
    clearsGuard (Ev.invoked i :: l) = clearsGuard l := by
  simp [clearsGuard]

theorem invoke_bare (g : ASync) (h : Handle) (r : Bool) (hfn : h.fn = Val.undefined) :
    g.invoke h none r
      = ((({ g with _waits := splice g._waits (indexOf g._waits h.id) 1 } : ASync)._progress r).1,
         Ev.invoked h.id ::
           (({ g with _waits := splice g._waits (indexOf g._waits h.id) 1 } : ASync)._progress r).2) := by
  simp [ASync.invoke, ASync.tryFn, hfn, Val.truthy]

theorem invoke_bare_facts (g : ASync) (h : Handle) (r : Bool) (hfn : h.fn = Val.undefined) :
    (g.invoke h none r).1.callback = g.callback ∧
    (g.invoke h none r).1._error = g._error ∧
    (g.invoke h none r).1._waits = splice g._waits (indexOf g._waits h.id) 1 ∧
    (clearsGuard (g.invoke h none r).2 = true →
      g.callback.isSome = true ∧ (g.invoke h none r).1._waits = []) := by
  rw [invoke_bare g h r hfn]
  obtain ⟨a, b, c, _⟩ := progress_fields
    ({ g with _waits := splice g._waits (indexOf g._waits h.id) 1 } : ASync) r
  refine ⟨b, c, a, ?_⟩
  intro hc
  rw [clearsGuard_invoked] at hc
  rcases progress_cases ({ g with _waits := splice g._waits (indexOf g._waits h.id) 1 } : ASync) r
    with hp | ⟨cb, h1, h2, _, _⟩
  · rw [hp] at hc; simp [clearsGuard] at hc
  · exact ⟨by simpa using congrArg Option.isSome h1, by rw [a]; exact h2⟩

theorem map_eraseIdx (f : Handle → Nat) (l : List Handle) :
    ∀ j, (l.eraseIdx j).map f = (l.map f).eraseIdx j := by
  induction l with
  | nil => intro j; rfl
  | cons a t ih =>
    intro j
    cases j with
    | zero => rfl
    | succ j => simp [List.eraseIdx, ih j]

theorem perm_after_call (waits : List Nat) (pending : List Handle) (j : Nat) (h : Handle)
    (hj : pending[j]? = some h) (hp : waits.Perm (pending.map Handle.id)) :
    h.id ∈ waits ∧ (waits.erase h.id).Perm ((pending.eraseIdx j).map Handle.id) := by
  have hlt : j < pending.length := by
    rcases Nat.lt_or_ge j pending.length with hl | hl
    · exact hl
    · rw [List.getElem?_eq_none hl] at hj; cases hj
  have hget : pending[j] = h := by
    rw [List.getElem?_eq_getElem hlt] at hj
    exact Option.some.inj hj
  have hlt2 : j < (pending.map Handle.id).length := by simpa using hlt
  have hid : (pending.map Handle.id)[j] = h.id := by simp [hget]
  have hmem : h.id ∈ pending.map Handle.id := by
    rw [← hid]; exact List.getElem_mem hlt2
  refine ⟨hp.symm.subset hmem, ?_⟩
  rw [map_eraseIdx]
  have h1 := hp.erase h.id
  have h2 := List.erase_getElem hlt2
  rw [hid] at h2
  exact h1.trans h2

theorem wait_error_field (g : ASync) (ctx fn : Val) (r : Bool) :
    (g.wait ctx fn r).g._error = g._error := by
  unfold ASync.wait
  cases hp : pickCb ctx fn with
  | none =>
    simp only
    split
    · cases hc : g.callback with
      | none => rfl
      | some cb => simp only; split <;> rfl
    · rfl
  | some cb =>
    simp only
    split
    · split <;> rfl
    · rfl

theorem error_quiet_when_no_fault (g : ASync) (ctx fn : Val) (h : g._error.truthy = false) :
    (g.error ctx fn).log = [] := by
  unfold ASync.error
  cases hp : pickCb ctx fn with
  | none => simp [h]
  | some hd => simp [h]

theorem wait_clears_only_when_empty (g : ASync) (ctx fn : Val) (r : Bool) :
    clearsGuard (g.wait ctx fn r).log = true → g._waits = [] := by
  intro hc
  obtain ⟨_, _, hcase⟩ := wait_cases g ctx fn r
  rcases hcase with h | ⟨cb, e, _, _, hw, _, _⟩
  · rw [h] at hc; simp [clearsGuard] at hc
  · exact hw

theorem execLoop_facts (cs : List Tick) :
    ∀ (w : World) (b : TickBatch) (i : Nat),
      b.sync.callback = none → b.sync._error = Val.undefined →
      b.sync._waits.Perm (b.pending.map Handle.id) →
      (∀ h ∈ b.pending, h.fn = Val.undefined) → (∀ h ∈ b.called, h.fn = Val.undefined) →
      (execLoop w b i cs).1.ctl = w.ctl ∧
      (execLoop w b i cs).1.exited = w.exited ∧
      (execLoop w b i cs).1.tickBatches = w.tickBatches ∧
      (execLoop w b i cs).1.scheduledExec = w.scheduledExec ∧
      (execLoop w b i cs).2.1.sync.callback = none ∧
      (execLoop w b i cs).2.1.sync._error = Val.undefined ∧
      (∀ h ∈ (execLoop w b i cs).2.1.pending, h.fn = Val.undefined) ∧
      (∀ h ∈ (execLoop w b i cs).2.1.called, h.fn = Val.undefined) ∧
      ((execLoop w b i cs).2.2 = none →
        (execLoop w b i cs).2.1.sync._waits.Perm
          ((execLoop w b i cs).2.1.pending.map Handle.id)) := by
  induction cs with
  | nil =>
    intro w b i hcb herr hperm hfn hcl
    exact ⟨rfl, rfl, rfl, rfl, hcb, herr, hfn, hcl, fun _ => hperm⟩
  | cons c cs ih =>
    intro w b i hcb herr hperm hfn hcl
    have hg : b.sync.getHandler w.seq .undefined .undefined
        = .ok ({ b.sync with _waits := b.sync._waits ++ [w.seq] }, w.seq + 1,
               { id := w.seq, ctx := .undefined, fn := .undefined }) := by
      simp [ASync.getHandler, hcb, Val.isFunction]
    unfold execLoop
    rw [hg]
    cases c with
    | callsNow =>
      obtain ⟨a, b2, c2, _⟩ := invoke_bare_facts
        ({ b.sync with _waits := b.sync._waits ++ [w.seq] } : ASync)
        ({ id := w.seq, ctx := .undefined, fn := .undefined } : Handle) false rfl
      have hmem : w.seq ∈ b.sync._waits ++ [w.seq] := by simp
      have hsp := splice_indexOf_of_mem (b.sync._waits ++ [w.seq]) w.seq hmem
      have hperm2 : (ASync.invoke ({ b.sync with _waits := b.sync._waits ++ [w.seq] } : ASync)
          ({ id := w.seq, ctx := .undefined, fn := .undefined } : Handle) none false).1._waits.Perm
          (b.pending.map Handle.id) := by
        rw [c2]
        show (splice (b.sync._waits ++ [w.seq]) (indexOf (b.sync._waits ++ [w.seq]) w.seq) 1).Perm _
        rw [hsp]
        have h1 : (b.sync._waits ++ [w.seq]).Perm (w.seq :: b.sync._waits) :=
          List.perm_append_singleton _ _
        have h2 := h1.erase w.seq
        rw [List.erase_cons_head] at h2
        exact h2.trans hperm
      have hcl2 : ∀ h ∈ b.called ++ [({ id := w.seq, ctx := .undefined, fn := .undefined } : Handle)],
          h.fn = Val.undefined := by
        intro h hh
        rcases List.mem_append.1 hh with h1 | h1
        · exact hcl h h1
        · simp at h1; subst h1; rfl
      exact ih { w with seq := w.seq + 1, log := w.log ++ [BEv.tick i] } _ (i + 1)
        (by show (ASync.invoke _ _ none false).1.callback = none; rw [a]; exact hcb)
        (by show (ASync.invoke _ _ none false).1._error = Val.undefined; rw [b2]; exact herr)
        hperm2 hfn hcl2
    | callsLater =>
      have hperm2 : (b.sync._waits ++ [w.seq]).Perm
          ((b.pending ++ [({ id := w.seq, ctx := .undefined, fn := .undefined } : Handle)]).map
            Handle.id) := by
        rw [List.map_append]
        exact hperm.append_right _
      have hfn2 : ∀ h ∈ b.pending ++
          [({ id := w.seq, ctx := .undefined, fn := .undefined } : Handle)],
          h.fn = Val.undefined := by
        intro h hh
        rcases List.mem_append.1 hh with h1 | h1
        · exact hfn h h1
        · simp at h1; subst h1; rfl
      exact ih { w with seq := w.seq + 1, log := w.log ++ [BEv.tick i] } _ (i + 1)
        hcb herr hperm2 hfn2 hcl
    | throws e =>
      exact ⟨rfl, rfl, rfl, rfl, hcb, herr, hfn, hcl, fun h => by cases h⟩

theorem clearGuardIf_fields (w : World) (c : Bool) :
    (w.clearGuardIf c).scheduledExec = w.scheduledExec ∧
    (w.clearGuardIf c).exited = w.exited ∧
    (w.clearGuardIf c).tickBatches = w.tickBatches ∧
    (w.clearGuardIf c).ctl._runTimeout = (if c = true then false else w.ctl._runTimeout) := by
  unfold World.clearGuardIf
  cases c <;> simp

theorem exec_facts (w : World) :
    (exec w).1.scheduledExec = w.scheduledExec ∧
    (exec w).1.exited = w.exited ∧
    ∃ nb, (exec w).1.tickBatches = w.tickBatches ++ [nb] ∧ nb.good ∧
      ((exec w).1.ctl._runTimeout = w.ctl._runTimeout ∨
        ((exec w).1.ctl._runTimeout = false ∧ nb.pending = [])) := by
  obtain ⟨l1, l2, l3, l4, l5, l6, l7, l8, l9⟩ := execLoop_facts w.ctl._ticks w
    { sync := ASync.new, pending := [] } 0 rfl rfl (by simp [ASync.new]) (by simp) (by simp)
  unfold exec
  rcases hc : execLoop w { sync := ASync.new, pending := [] } 0 w.ctl._ticks with
    ⟨w1, b, thrown⟩
  rw [hc] at l1 l2 l3 l4 l5 l6 l7 l8 l9
  simp only at l1 l2 l3 l4 l5 l6 l7 l8 l9
  cases thrown with
  | some e =>
    simp only
    refine ⟨l4, l2, b, by rw [l3], ⟨l7, l8, Or.inl l5⟩, Or.inl ?_⟩
    rw [l1]
  | none =>
    simp only
    have hperm := l9 rfl
    have hw := (wait_cases b.sync (.fn tickDoneFn) .undefined false).1
    have he : (b.sync.wait (.fn tickDoneFn) .undefined false).g._error.truthy = false := by
      rw [wait_error_field, l6]; rfl
    have hq := error_quiet_when_no_fault (b.sync.wait (.fn tickDoneFn) .undefined false).g
      (.fn tickFaultFn) .undefined he
    have hw2 := (error_cases (b.sync.wait (.fn tickDoneFn) .undefined false).g
      (.fn tickFaultFn) .undefined).1
    rw [hq]
    have hcg : clearsGuard [] = false := rfl
    rw [hcg]
    obtain ⟨f1, f2, f3, f4⟩ := clearGuardIf_fields w1
      (clearsGuard (b.sync.wait (.fn tickDoneFn) .undefined false).log)
    obtain ⟨g1, g2, g3, g4⟩ := clearGuardIf_fields (w1.clearGuardIf
      (clearsGuard (b.sync.wait (.fn tickDoneFn) .undefined false).log)) false
    have hguard : ((w1.clearGuardIf
          (clearsGuard (b.sync.wait (.fn tickDoneFn) .undefined false).log)).clearGuardIf
          false).ctl._runTimeout = w.ctl._runTimeout ∨
        (((w1.clearGuardIf
          (clearsGuard (b.sync.wait (.fn tickDoneFn) .undefined false).log)).clearGuardIf
          false).ctl._runTimeout = false ∧ b.pending = []) := by
      rw [g4, f4]
      by_cases hcl : clearsGuard (b.sync.wait (.fn tickDoneFn) .undefined false).log = true
      · right
        have hnil := wait_clears_only_when_empty b.sync _ _ _ hcl
        rw [hnil] at hperm
        have : b.pending.map Handle.id = [] := List.Perm.nil_eq hperm |>.symm
        exact ⟨by simp [hcl], List.map_eq_nil_iff.1 this⟩
      · left
        simp [hcl, l1]
    have hnb : ∃ nb : TickBatch, nb =
        { b with sync := ((b.sync.wait (.fn tickDoneFn) .undefined false).g.error
            (.fn tickFaultFn) .undefined).g } := ⟨_, rfl⟩
    obtain ⟨nb, hnb⟩ := hnb
    have hnb1 : nb.pending = b.pending := by rw [hnb]
    have hgood : TickBatch.good nb := by
      rw [hnb]
      refine ⟨l7, l8, Or.inr ?_⟩
      show (((b.sync.wait (.fn tickDoneFn) .undefined false).g.error (.fn tickFaultFn)
        .undefined).g)._waits.Perm _
      rw [hw2, hw]
      exact hperm
    rw [← hnb]
    rw [← hnb1] at hguard
    split
    · exact ⟨by simp only; rw [g1, f1, l4], by simp only; rw [g2, f2, l2],
        nb, by simp only; rw [g3, f3, l3], hgood, hguard⟩
    · exact ⟨by simp only; rw [g1, f1, l4], by simp only; rw [g2, f2, l2],
        nb, by simp only; rw [g3, f3, l3], hgood, hguard⟩

theorem getElem?_some_facts {α : Type} (l : List α) (i : Nat) (a : α) (h : l[i]? = some a) :
    ∃ hlt : i < l.length, l[i] = a := by
  rcases Nat.lt_or_ge i l.length with hl | hl
  · refine ⟨hl, ?_⟩
    rw [List.getElem?_eq_getElem hl] at h
    exact Option.some.inj h
  · rw [List.getElem?_eq_none hl] at h; cases h

theorem fireTick_inv (w : World) (b j : Nat) (hinv : TickInv w) : TickInv (fireTick w b j) := by
  unfold fireTick
  cases hb : w.tickBatches[b]? with
  | none => exact hinv
  | some batch =>
    simp only
    cases hj : batch.pending[j]? with
    | none => exact hinv
    | some h =>
      simp only
      obtain ⟨hblt, hbget⟩ := getElem?_some_facts _ _ _ hb
      obtain ⟨hjlt, hjget⟩ := getElem?_some_facts _ _ _ hj
      have hbmem : batch ∈ w.tickBatches := by rw [← hbget]; exact List.getElem_mem hblt
      have hhmem : h ∈ batch.pending := by rw [← hjget]; exact List.getElem_mem hjlt
      obtain ⟨gfn, gcl, gperm⟩ := hinv.good batch hbmem
      have hfn := gfn h hhmem
      have hbusy : (!batch.pending.isEmpty) = true := by
        cases hp : batch.pending with
        | nil => rw [hp] at hhmem; cases hhmem
        | cons _ _ => rfl
      have hpos : 0 < w.tickBatches.countP (fun b => !b.pending.isEmpty) :=
        List.countP_pos_iff.2 ⟨batch, hbmem, hbusy⟩
      have hone := hinv.one
      unfold inFlight at hone
      have hguard : w.ctl._runTimeout = true := by
        cases hg : w.ctl._runTimeout with
        | true => rfl
        | false =>
          have := hinv.idle hg
          unfold inFlight at this
          omega
      obtain ⟨i1, i2, i3, i4⟩ := invoke_bare_facts batch.sync h false hfn
      have hnb : ∃ nb : TickBatch, nb =
          ({ sync := (batch.sync.invoke h none false).1,
             pending := batch.pending.eraseIdx j,
             called := batch.called ++ [h] } : TickBatch) := ⟨_, rfl⟩
      obtain ⟨nb, hnb⟩ := hnb
      rw [← hnb]
      obtain ⟨f1, f2, f3, f4⟩ := clearGuardIf_fields
        ({ w with tickBatches := w.tickBatches.set b nb } : World)
        (clearsGuard (batch.sync.invoke h none false).2)
      have hcs := List.countP_set (fun b : TickBatch => !b.pending.isEmpty) w.tickBatches b nb hblt
      rw [hbget] at hcs
      simp only [hbusy, if_true] at hcs
      have hnbp : nb.pending = batch.pending.eraseIdx j := by rw [hnb]
      have hnbgood : TickBatch.good nb := by
        rw [hnb]
        refine ⟨fun x hx => gfn x (List.mem_of_mem_eraseIdx hx), ?_, ?_⟩
        · intro x hx
          rcases List.mem_append.1 hx with h1 | h1
          · exact gcl x h1
          · rw [List.mem_singleton.1 h1]; exact hfn
        · rcases gperm with hnone | hperm
          · exact Or.inl (i1.trans hnone)
          · right
            obtain ⟨hmem, hperm2⟩ := perm_after_call _ _ j h hj hperm
            show (batch.sync.invoke h none false).1._waits.Perm _
            rw [i3, splice_indexOf_of_mem _ _ hmem]
            exact hperm2
      refine ⟨?_, ?_, ?_⟩
      · intro hg
        unfold inFlight
        rw [f1, f3]
        simp only
        rw [f4] at hg
        by_cases hc : clearsGuard (batch.sync.invoke h none false).2 = true
        · obtain ⟨hsome, hnil⟩ := i4 hc
          rcases gperm with hnone | hperm
          · rw [hnone] at hsome; cases hsome
          · obtain ⟨hmem, hperm2⟩ := perm_after_call _ _ j h hj hperm
            rw [i3, splice_indexOf_of_mem _ _ hmem] at hnil
            rw [hnil] at hperm2
            have hm : (batch.pending.eraseIdx j).map Handle.id = [] :=
              (List.Perm.nil_eq hperm2).symm
            have he : batch.pending.eraseIdx j = [] := List.map_eq_nil_iff.1 hm
            rw [hnbp, he] at hcs
            simp only [List.isEmpty_nil, Bool.not_true, Bool.false_eq_true, if_false] at hcs
            rw [hcs]
            omega
        · rw [if_neg hc] at hg
          simp only at hg
          rw [hguard] at hg
          cases hg
      · unfold inFlight
        rw [f1, f3]
        simp only
        rw [hcs]
        split <;> omega
      · intro x hx
        rw [f3] at hx
        simp only at hx
        rcases List.mem_or_eq_of_mem_set hx with h1 | h1
        · exact hinv.good x h1
        · rw [h1]; exact hnbgood

theorem handleTick_eq (w : World) :
    handleTick w = if w.ctl._runTimeout = true then w
      else { w with ctl := { w.ctl with _runTimeout := true },
                    scheduledExec := w.scheduledExec + 1 } := by
  unfold handleTick run
  cases w.ctl._runTimeout <;> rfl

theorem tickStep_inv (w : World) (op : TickOp) (hno : op.isRefire = false) (hinv : TickInv w) :
    TickInv (tickStep w op) := by
  unfold tickStep
  by_cases hex : w.exited.isSome = true
  · rw [if_pos hex]; exact hinv
  · rw [if_neg hex]
    cases op with
    | handleTick =>
      simp only
      rw [handleTick_eq]
      by_cases hg : w.ctl._runTimeout = true
      · rw [if_pos hg]; exact hinv
      · rw [if_neg hg]
        have hg2 : w.ctl._runTimeout = false := by
          cases h : w.ctl._runTimeout with
          | true => exact absurd h hg
          | false => rfl
        have h0 := hinv.idle hg2
        unfold inFlight at h0
        refine ⟨?_, ?_, ?_⟩
        · intro h; cases h
        · unfold inFlight; simp only; omega
        · exact hinv.good
    | runQueued =>
      simp only
      by_cases hs : w.scheduledExec = 0
      · rw [if_pos hs]; exact hinv
      · rw [if_neg hs]
        have hone := hinv.one
        unfold inFlight at hone
        have hg : w.ctl._runTimeout = true := by
          cases h : w.ctl._runTimeout with
          | true => rfl
          | false =>
            have := hinv.idle h
            unfold inFlight at this
            omega
        obtain ⟨e1, e2, nb, e3, e4, e5⟩ :=
          exec_facts ({ w with scheduledExec := w.scheduledExec - 1 } : World)
        simp only at e1 e3 e5
        have hc1 : List.countP (fun b : TickBatch => !b.pending.isEmpty) [nb] ≤ 1 := by
          have := List.countP_le_length (fun b : TickBatch => !b.pending.isEmpty) (l := [nb])
          simpa using this
        refine ⟨?_, ?_, ?_⟩
        · intro hcl
          rcases e5 with h5 | ⟨_, h5⟩
          · rw [h5, hg] at hcl; cases hcl
          · unfold inFlight
            rw [e1, e3, List.countP_append]
            have : List.countP (fun b : TickBatch => !b.pending.isEmpty) [nb] = 0 := by
              simp [List.countP_cons, h5]
            omega
        · unfold inFlight
          rw [e1, e3, List.countP_append]
          omega
        · intro x hx
          rw [e3] at hx
          rcases List.mem_append.1 hx with h1 | h1
          · exact hinv.good x h1
          · rw [List.mem_singleton.1 h1]; exact e4
    | fire b j =>
      simp only
      exact fireTick_inv w b j hinv
    | refire b j => cases hno

theorem tickRun_inv (ops : List TickOp) :
    ∀ w : World, (∀ op ∈ ops, op.isRefire = false) → TickInv w → TickInv (tickRun w ops) := by
  induction ops with
  | nil => intro w _ h; exact h
  | cons op rest ih =>
    intro w hno h
    exact ih (tickStep w op) (fun o ho => hno o (List.mem_cons_of_mem _ ho))
      (tickStep_inv w op (hno op (List.mem_cons_self _ _)) h)

theorem TickInv_start (w : World) (h1 : w.scheduledExec = 0) (h2 : w.tickBatches = []) :
    TickInv w := by
  refine ⟨?_, ?_, ?_⟩
  · intro _; unfold inFlight; rw [h1, h2]; rfl
  · unfold inFlight; rw [h1, h2]; simp
  · intro b hb; rw [h2] at hb; cases hb

/-- C16, counterexample: one tick callback, which keeps its handle. A tick starts a
batch and the handle is called: the batch is complete and the guard is clear. The
next tick starts a second batch, whose handle is outstanding. The handle of the first
batch is then called again: its set is empty, so the success callback of the first
batch runs again and clears the guard while the second batch is in flight; the next
`handleTick()` schedules a third `exec()`: two batches are scheduled or running. -/
theorem C16_second_call_of_handle_clears_guard_early :
    inFlight (tickRun (World.example3 [Tick.callsLater])
      [.handleTick, .runQueued, .fire 0 0, .handleTick, .runQueued]) = 1 ∧
    (tickRun (World.example3 [Tick.callsLater])
      [.handleTick, .runQueued, .fire 0 0, .handleTick, .runQueued]).ctl._runTimeout = true ∧
    inFlight (tickRun (World.example3 [Tick.callsLater])
      [.handleTick, .runQueued, .fire 0 0, .handleTick, .runQueued, .refire 0 0]) = 1 ∧
    (tickRun (World.example3 [Tick.callsLater])
      [.handleTick, .runQueued, .fire 0 0, .handleTick, .runQueued,
       .refire 0 0]).ctl._runTimeout = false ∧
    (tickRun (World.example3 [Tick.callsLater])
      [.handleTick, .runQueued, .fire 0 0, .handleTick, .runQueued, .refire 0 0,
       .handleTick]).scheduledExec = 1 ∧
    inFlight (tickRun (World.example3 [Tick.callsLater])
      [.handleTick, .runQueued, .fire 0 0, .handleTick, .runQueued, .refire 0 0,
       .handleTick]) = 2 ∧
    ¬ inFlight (tickRun (World.example3 [Tick.callsLater])
      [.handleTick, .runQueued, .fire 0 0, .handleTick, .runQueued, .refire 0 0,
       .handleTick]) ≤ 1 := by
  refine ⟨by decide, by decide, by decide, by decide, by decide, by decide, by decide⟩

/-- C16, amended: start from a supervisor that has no tick batch scheduled or running
(as the constructor leaves it), and let any sequence of tick-loop events happen in
which no handle is called a second time: calls of `handleTick()`, queued calls of
`exec()` running, handles handed to tick callbacks being called for the first time.
In the state reached, at most one tick batch is scheduled or running; whenever one
is, the guard is set; a `handleTick()` made while the guard is set changes nothing,
so it schedules nothing; and a `handleTick()` made while the guard is clear finds no
batch in flight, sets the guard and queues exactly one call of `exec()`. -/
theorem C16_at_most_one_tick_batch_in_flight (w : World) (ops : List TickOp)
    (h1 : w.scheduledExec = 0) (h2 : w.tickBatches = [])
    (hno : ∀ op ∈ ops, op.isRefire = false) :
    inFlight (tickRun w ops) ≤ 1 ∧
    (0 < inFlight (tickRun w ops) → (tickRun w ops).ctl._runTimeout = true) ∧
    ((tickRun w ops).ctl._runTimeout = true → handleTick (tickRun w ops) = tickRun w ops) ∧
    ((tickRun w ops).ctl._runTimeout = false →
      inFlight (tickRun w ops) = 0 ∧
      (handleTick (tickRun w ops)).scheduledExec = 1 ∧
      (handleTick (tickRun w ops)).tickBatches = (tickRun w ops).tickBatches ∧
      inFlight (handleTick (tickRun w ops)) = 1 ∧
      (handleTick (tickRun w ops)).ctl._runTimeout = true) := by
  have hinv := tickRun_inv ops w hno (TickInv_start w h1 h2)
  refine ⟨hinv.one, ?_, ?_, ?_⟩
  · intro hpos
    cases hg : (tickRun w ops).ctl._runTimeout with
    | true => rfl
    | false =>
      have := hinv.idle hg
      omega
  · intro hg
    rw [handleTick_eq, if_pos hg]
  · intro hg
    have hidle := hinv.idle hg
    have hi := hidle
    unfold inFlight at hi
    rw [handleTick_eq, if_neg (by rw [hg]; decide)]
    refine ⟨hidle, ?_, rfl, ?_, rfl⟩
    · simp only; omega
    · unfold inFlight; simp only; omega

/-- C16, amended, at a concrete supervisor with one tick callback that keeps its
handle for later: two ticks, the queued `exec()`, a third tick, the handle, a fourth
tick. -/
theorem C16_tick_guard_witness :
    inFlight (tickRun (World.example3 [Tick.callsLater])
      [.handleTick, .handleTick, .runQueued, .handleTick, .fire 0 0, .handleTick]) ≤ 1 :=
  (C16_at_most_one_tick_batch_in_flight (World.example3 [Tick.callsLater])
    [.handleTick, .handleTick, .runQueued, .handleTick, .fire 0 0, .handleTick]
    (by decide) (by decide) (by decide)).1

/-- Two tick callbacks keep their handles and the first handle is called twice: the
second call finds its identifier gone, `splice(-1, 1)` removes the identifier of the
other handle, and the guard is cleared while that handle is outstanding; the next
`handleTick()` schedules a second batch. -/
theorem second_call_splices_other_tick_handle_example :
    (tickRun (World.example3 [Tick.callsLater, Tick.callsLater])
      [.handleTick, .runQueued, .fire 0 0, .refire 0 0]).ctl._runTimeout = false ∧
    inFlight (tickRun (World.example3 [Tick.callsLater, Tick.callsLater])
      [.handleTick, .runQueued, .fire 0 0, .refire 0 0]) = 1 ∧
    inFlight (tickRun (World.example3 [Tick.callsLater, Tick.callsLater])
      [.handleTick, .runQueued, .fire 0 0, .refire 0 0, .handleTick]) = 2 := by
  refine ⟨by decide, by decide, by decide⟩

theorem tickStep_stuck (w : World) (op : TickOp) (hg : w.ctl._runTimeout = true)
    (hs : w.scheduledExec = 0)
    (hb : ∀ b ∈ w.tickBatches, b.sync.callback = none ∧
      (∀ h ∈ b.pending, h.fn = Val.undefined) ∧ (∀ h ∈ b.called, h.fn = Val.undefined)) :
    (tickStep w op).ctl._runTimeout = true ∧ (tickStep w op).scheduledExec = 0 ∧
    ∀ b ∈ (tickStep w op).tickBatches, b.sync.callback = none ∧
      (∀ h ∈ b.pending, h.fn = Val.undefined) ∧ (∀ h ∈ b.called, h.fn = Val.undefined) := by
  unfold tickStep
  by_cases hex : w.exited.isSome = true
  · rw [if_pos hex]; exact ⟨hg, hs, hb⟩
  · rw [if_neg hex]
    cases op with
    | handleTick =>
      simp only
      rw [handleTick_eq, if_pos hg]
      exact ⟨hg, hs, hb⟩
    | runQueued =>
      simp only
      rw [if_pos hs]
      exact ⟨hg, hs, hb⟩
    | fire b j =>
      simp only
      unfold fireTick
      cases hbb : w.tickBatches[b]? with
      | none => exact ⟨hg, hs, hb⟩
      | some batch =>
        simp only
        cases hj : batch.pending[j]? with
        | none => exact ⟨hg, hs, hb⟩
        | some h =>
          simp only
          obtain ⟨hblt, hbget⟩ := getElem?_some_facts _ _ _ hbb
          obtain ⟨hjlt, hjget⟩ := getElem?_some_facts _ _ _ hj
          have hbmem : batch ∈ w.tickBatches := by rw [← hbget]; exact List.getElem_mem hblt
          have hhmem : h ∈ batch.pending := by rw [← hjget]; exact List.getElem_mem hjlt
          obtain ⟨gcb, gfn, gcl⟩ := hb batch hbmem
          obtain ⟨i1, _, _, i4⟩ := invoke_bare_facts batch.sync h false (gfn h hhmem)
          have hc : clearsGuard (batch.sync.invoke h none false).2 = false := by
            cases hcl : clearsGuard (batch.sync.invoke h none false).2 with
            | false => rfl
            | true =>
              have := (i4 hcl).1
              rw [gcb] at this
              cases this
          rw [hc]
          refine ⟨hg, hs, ?_⟩
          intro x hx
          rcases List.mem_or_eq_of_mem_set hx with h1 | h1
          · exact hb x h1
          · rw [h1]
            refine ⟨i1.trans gcb, fun y hy => gfn y (List.mem_of_mem_eraseIdx hy), ?_⟩
            intro y hy
            rcases List.mem_append.1 hy with h2 | h2
            · exact gcl y h2
            · rw [List.mem_singleton.1 h2]; exact gfn h hhmem
    | refire b j =>
      simp only
      unfold refireTick
      cases hbb : w.tickBatches[b]? with
      | none => exact ⟨hg, hs, hb⟩
      | some batch =>
        simp only
        cases hj : batch.called[j]? with
        | none => exact ⟨hg, hs, hb⟩
        | some h =>
          simp only
          obtain ⟨hblt, hbget⟩ := getElem?_some_facts _ _ _ hbb
          obtain ⟨hjlt, hjget⟩ := getElem?_some_facts _ _ _ hj
          have hbmem : batch ∈ w.tickBatches := by rw [← hbget]; exact List.getElem_mem hblt
          have hhmem : h ∈ batch.called := by rw [← hjget]; exact List.getElem_mem hjlt
          obtain ⟨gcb, gfn, gcl⟩ := hb batch hbmem
          obtain ⟨i1, _, _, i4⟩ := invoke_bare_facts batch.sync h false (gcl h hhmem)
          have hc : clearsGuard (batch.sync.invoke h none false).2 = false := by
            cases hcl : clearsGuard (batch.sync.invoke h none false).2 with
            | false => rfl
            | true =>
              have := (i4 hcl).1
              rw [gcb] at this
              cases this
          rw [hc]
          refine ⟨hg, hs, ?_⟩
          intro x hx
          rcases List.mem_or_eq_of_mem_set hx with h1 | h1
          · exact hb x h1
          · rw [h1]
            exact ⟨i1.trans gcb, gfn, gcl⟩

theorem tickRun_stuck (ops : List TickOp) :
    ∀ w : World, w.ctl._runTimeout = true → w.scheduledExec = 0 →
      (∀ b ∈ w.tickBatches, b.sync.callback = none ∧
        (∀ h ∈ b.pending, h.fn = Val.undefined) ∧ (∀ h ∈ b.called, h.fn = Val.undefined)) →
      (tickRun w ops).ctl._runTimeout = true ∧ (tickRun w ops).scheduledExec = 0 := by
  induction ops with
  | nil => intro w hg hs _; exact ⟨hg, hs⟩
  | cons op rest ih =>
    intro w hg hs hb
    obtain ⟨a, b, c⟩ := tickStep_stuck w op hg hs hb
    exact ih (tickStep w op) a b c

/-- C17 (fails in the code): three tick callbacks are registered, the first keeps its
handle for later, the second throws, the third would call its handle at once. After
`handleTick()` and the queued `exec()`, the exception has left `exec()`, the third
callback has not been called, and the guard `_runTimeout` is still set; whatever
happens afterwards (calls of `handleTick()`, the handle of the first callback being
called), the guard stays set and no call of `exec()` is queued again. With the
throwing callback taken out, the same run clears the guard once the handle has been
called, and the next `handleTick()` queues a call of `exec()`. -/
theorem C17_throwing_tick_leaves_guard_set :
    (exec (tickRun (World.example3 [Tick.callsLater, Tick.throws (.err "boom"), Tick.callsNow])
      [.handleTick])).2 = some (.err "boom") ∧
    (tickRun (World.example3 [Tick.callsLater, Tick.throws (.err "boom"), Tick.callsNow])
      [.handleTick, .runQueued]).log.filter (fun ev => ev == BEv.tick 2) = [] ∧
    (∀ ops : List TickOp,
      (tickRun (World.example3 [Tick.callsLater, Tick.throws (.err "boom"), Tick.callsNow])
        ([.handleTick, .runQueued] ++ ops)).ctl._runTimeout = true ∧
      (tickRun (World.example3 [Tick.callsLater, Tick.throws (.err "boom"), Tick.callsNow])
        ([.handleTick, .runQueued] ++ ops)).scheduledExec = 0) ∧
    (tickRun (World.example3 [Tick.callsLater, Tick.callsNow])
      [.handleTick, .runQueued, .fire 0 0]).ctl._runTimeout = false ∧
    (tickRun (World.example3 [Tick.callsLater, Tick.callsNow])
      [.handleTick, .runQueued, .fire 0 0, .handleTick]).scheduledExec = 1 := by
  refine ⟨by decide, by decide, ?_, by decide, by decide⟩
  intro ops
  have happ : tickRun (World.example3 [Tick.callsLater, Tick.throws (.err "boom"), Tick.callsNow])
      ([.handleTick, .runQueued] ++ ops)
      = tickRun (tickRun (World.example3
          [Tick.callsLater, Tick.throws (.err "boom"), Tick.callsNow])
          [.handleTick, .runQueued]) ops := by
    simp [tickRun, List.foldl_append]
  rw [happ]
  exact tickRun_stuck ops _ (by decide) (by decide) (by decide)

/-! ### A handle called again (C21) -/

theorem indexOfAux_of_not_mem (l : List Nat) (x : Nat) (h : x ∉ l) : indexOfAux l x = none := by
  induction l with
  | nil => rfl
  | cons y ys ih =>
    have hy : y ≠ x := fun e => h (by rw [e]; exact List.mem_cons_self _ _)
    have hx : x ∉ ys := fun m => h (List.mem_cons_of_mem _ m)
    simp [indexOfAux, hy, ih hx]

theorem indexOf_of_not_mem (l : List Nat) (x : Nat) (h : x ∉ l) : indexOf l x = -1 := by
  simp [indexOf, indexOfAux_of_not_mem l x h]

theorem splice_last (l : List Nat) : splice l (-1) 1 = l.dropLast := by
  cases hl : l.length with
  | zero =>
    have : l = [] := List.length_eq_zero.1 hl
    rw [this]; rfl
  | succ n =>
    have h1 : (if (-1 : Int) < 0 then max (((n + 1 : Nat) : Int) + -1) 0
        else min (-1) ((n + 1 : Nat) : Int)).toNat = n := by
      rw [if_pos (by decide)]
      have : ((n + 1 : Nat) : Int) + -1 = (n : Int) := by push_cast; omega
      rw [this]
      simp
    unfold splice
    simp only [hl, h1]
    have h2 : min 1 (n + 1 - n) = 1 := by omega
    rw [h2, List.drop_of_length_le (by omega), List.append_nil, List.dropLast_eq_take, hl]
    rfl

/-- A handle whose identifier is not in the outstanding set (it was called before):
the call removes the last identifier of the set, which belongs to another handle. -/
theorem invoke_absent_drops_last (g : ASync) (h : Handle) (t : Option Val) (r : Bool)
    (habs : h.id ∉ g._waits) : (g.invoke h t r).1._waits = g._waits.dropLast := by
  rw [(invoke_fields g h t r).1, indexOf_of_not_mem _ _ habs, splice_last]

/-- C21 (fails in the code): two handles are taken from a fresh group, `wait(cb)` is
called, and the first handle is called twice. The first call removes its own
identifier 0 and leaves 1 outstanding; the second call finds no 0
(`indexOf` gives -1, and `splice(-1, 1)` removes the last element), removes the
identifier 1 of the other handle, and the success callback is called although the
second handle has never been called. -/
theorem C21_second_call_removes_another_handles_id :
    ((Sys.fresh 0).run [Op.getHandler .undefined .undefined, Op.getHandler .undefined .undefined,
        Op.wait (.fn 9) .undefined false,
        Op.invoke 0 none false]).grp._waits = [1] ∧
    ((Sys.fresh 0).run [Op.getHandler .undefined .undefined, Op.getHandler .undefined .undefined,
        Op.wait (.fn 9) .undefined false,
        Op.invoke 0 none false]).log = [Ev.invoked 0] ∧
    ((Sys.fresh 0).run [Op.getHandler .undefined .undefined, Op.getHandler .undefined .undefined,
        Op.wait (.fn 9) .undefined false,
        Op.invoke 0 none false, Op.invoke 0 none false]).grp._waits = [] ∧
    ((Sys.fresh 0).run [Op.getHandler .undefined .undefined, Op.getHandler .undefined .undefined,
        Op.wait (.fn 9) .undefined false,
        Op.invoke 0 none false, Op.invoke 0 none false]).log
      = [Ev.invoked 0, Ev.invoked 0, Ev.success (.direct 9) [] .undefined] ∧
    ((Sys.fresh 0).run [Op.getHandler .undefined .undefined, Op.getHandler .undefined .undefined,
        Op.wait (.fn 9) .undefined false,
        Op.invoke 0 none false, Op.invoke 0 none false]).handles.map Handle.id = [0, 1] ∧
    Ev.invoked 1 ∉ ((Sys.fresh 0).run [Op.getHandler .undefined .undefined,
        Op.getHandler .undefined .undefined, Op.wait (.fn 9) .undefined false,
        Op.invoke 0 none false, Op.invoke 0 none false]).log := by
  refine ⟨by decide, by decide, by decide, by decide, by decide, by decide⟩

/-! ### The exit-status level under control operations (C22) -/

theorem shutdown_status_cases (w : World) (force : Bool) :
    (shutdown w force).1.ctl._exitstatus = w.ctl._exitstatus ∨
    (shutdown w force).1.ctl._exitstatus = 3 := by
  unfold shutdown
  by_cases hex : w.exited.isSome = true
  · rw [if_pos hex]; exact Or.inl rfl
  · rw [if_neg hex]
    by_cases hst : (decide (w.ctl._exitstatus ≥ 3) && !force) = true
    · rw [if_pos hst]; exact Or.inl rfl
    · rw [if_neg hst]
      right
      rw [cleanup_status]

theorem clearGuardIf_status (w : World) (c : Bool) :
    (w.clearGuardIf c).ctl._exitstatus = w.ctl._exitstatus := by
  unfold World.clearGuardIf
  cases c <;> rfl

theorem exec_status (w : World) : (exec w).1.ctl._exitstatus = w.ctl._exitstatus := by
  obtain ⟨l1, _⟩ := execLoop_facts w.ctl._ticks w { sync := ASync.new, pending := [] } 0
    rfl rfl (by simp [ASync.new]) (by simp) (by simp)
  unfold exec
  rcases hc : execLoop w { sync := ASync.new, pending := [] } 0 w.ctl._ticks with
    ⟨w1, b, thrown⟩
  rw [hc] at l1
  simp only at l1
  cases thrown with
  | some e =>
    simp only
    rw [l1]
  | none =>
    simp only
    split
    · simp only
      rw [clearGuardIf_status, clearGuardIf_status, l1]
    · simp only
      rw [clearGuardIf_status, clearGuardIf_status, l1]

theorem fireTick_status (w : World) (b j : Nat) :
    (fireTick w b j).ctl._exitstatus = w.ctl._exitstatus := by
  unfold fireTick
  cases w.tickBatches[b]? with
  | none => rfl
  | some batch =>
    simp only
    cases batch.pending[j]? with
    | none => rfl
    | some h =>
      simp only
      rw [clearGuardIf_status]

theorem refireTick_status (w : World) (b j : Nat) :
    (refireTick w b j).ctl._exitstatus = w.ctl._exitstatus := by
  unfold refireTick
  cases w.tickBatches[b]? with
  | none => rfl
  | some batch =>
    simp only
    cases batch.called[j]? with
    | none => rfl
    | some h =>
      simp only
      rw [clearGuardIf_status]

theorem initDone_status (hooks : InitHooks) (w : World) :
    (initDone hooks w).1.ctl._exitstatus = w.ctl._exitstatus := by
  unfold initDone
  cases hooks.emitThrows with
  | some e => rfl
  | none => cases hooks.sendThrows <;> rfl

theorem initFault_status (failok : Bool) (w : World) :
    (initFault failok w).1.ctl._exitstatus = w.ctl._exitstatus ∨
    (initFault failok w).1.ctl._exitstatus = 3 := by
  cases failok with
  | true => exact Or.inl rfl
  | false => exact shutdown_status_cases w false

theorem initCall_status (hooks : InitHooks) (failok : Bool) (t : Target) :
    ∀ (w : World) (args : List Val),
      (initCall hooks failok t w args).w.ctl._exitstatus = w.ctl._exitstatus ∨
      (initCall hooks failok t w args).w.ctl._exitstatus = 3 := by
  induction t with
  | callback cb =>
    intro w args
    cases cb with
    | none => exact Or.inl rfl
    | some c => exact Or.inl (initDone_status hooks w)
  | proxy st next k ih =>
    intro w args
    rw [initCall_proxy]
    have hbody : (initTry st next (initCall hooks failok next) w args).w.ctl._exitstatus
          = w.ctl._exitstatus ∨
        (initTry st next (initCall hooks failok next) w args).w.ctl._exitstatus = 3 := by
      unfold initTry
      cases st args with
      | callNext a => exact ih w a
      | returnNext => exact ih w []
      | deferNext a => exact Or.inl rfl
      | throws e => exact Or.inl rfl
      | halt => exact Or.inl rfl
    cases ht : (initTry st next (initCall hooks failok next) w args).thrown with
    | none =>
      rw [initCatch_ok _ _ _ _ ht]
      exact hbody
    | some e =>
      rw [initCatch_thrown _ _ _ _ e ht]
      rcases initFault_status failok (initTry st next (initCall hooks failok next) w args).w with
        h | h
      · rcases hbody with h2 | h2
        · exact Or.inl (h.trans h2)
        · exact Or.inr (h.trans h2)
      · exact Or.inr h

theorem ctlStep_status (w : World) (op : CtlOp) (hno : op.isInit = false) :
    (ctlStep w op).ctl._exitstatus = w.ctl._exitstatus ∨
    (ctlStep w op).ctl._exitstatus = 3 := by
  unfold ctlStep
  by_cases hex : w.exited.isSome = true
  · rw [if_pos hex]; exact Or.inl rfl
  · rw [if_neg hex]
    cases op with
    | init cfg phases hooks rss idle => cases hno
    | initTurn hooks failok t args => exact initCall_status hooks failok t w args
    | begin rss idle => exact Or.inl (begin_fields w rss idle).2.1
    | shutdown force => exact shutdown_status_cases w force
    | reopen => exact Or.inl rfl
    | handleTick =>
      simp only
      rw [handleTick_eq]
      split <;> exact Or.inl rfl
    | runQueued =>
      simp only
      split
      · exact Or.inl rfl
      · exact Or.inl (exec_status _)
    | fireTick b j => exact Or.inl (fireTick_status w b j)
    | refireTick b j => exact Or.inl (refireTick_status w b j)
    | handleSelfCheck rss idle =>
      simp only
      rw [(handleSelfCheck_fields w rss idle).1]
      exact Or.inl rfl
    | fire b j => exact Or.inl (fire_fields w b j).1

theorem ctlRun_status (ops : List CtlOp) :
    ∀ w : World, (∀ op ∈ ops, op.isInit = false) →
      (ctlRun w ops).ctl._exitstatus = w.ctl._exitstatus ∨
      (ctlRun w ops).ctl._exitstatus = 3 := by
  induction ops with
  | nil => intro w _; exact Or.inl rfl
  | cons op rest ih =>
    intro w hno
    have h1 := ctlStep_status w op (hno op (List.mem_cons_self _ _))
    have h2 := ih (ctlStep w op) (fun o ho => hno o (List.mem_cons_of_mem _ ho))
    show (ctlRun (ctlStep w op) rest).ctl._exitstatus = _ ∨ _
    rcases h2 with h2 | h2
    · rcases h1 with h1 | h1
      · exact Or.inl (h2.trans h1)
      · exact Or.inr (h2.trans h1)
    · exact Or.inr h2

/-- C22, counterexample: `init(cfg)`, `shutdown()`, then `init(cfg)` again (the parent
sends `init` once more while the logger's cleanup is still pending) and `shutdown()`.
The first `shutdown()` sets the level to 3 and calls the cleanup callback; the second
`init` sets the level back to 1; the second `shutdown()`, without force, calls the
cleanup callbacks again. -/
theorem C22_init_lowers_exit_status :
    (ctlRun World.example2 [.init World.example2.ctl.cfg defaultPhases InitHooks.quiet 1000 (some false),
      .shutdown false]).ctl._exitstatus = 3 ∧
    cleanupCalls (ctlRun World.example2
      [.init World.example2.ctl.cfg defaultPhases InitHooks.quiet 1000 (some false),
       .shutdown false]).log = [0] ∧
    (ctlRun World.example2 [.init World.example2.ctl.cfg defaultPhases InitHooks.quiet 1000 (some false),
      .shutdown false,
      .init World.example2.ctl.cfg defaultPhases InitHooks.quiet 1000 (some false)]).exited = none ∧
    (ctlRun World.example2 [.init World.example2.ctl.cfg defaultPhases InitHooks.quiet 1000 (some false),
      .shutdown false,
      .init World.example2.ctl.cfg defaultPhases InitHooks.quiet 1000 (some false)]).ctl._exitstatus = 1 ∧
    cleanupCalls (ctlRun World.example2
      [.init World.example2.ctl.cfg defaultPhases InitHooks.quiet 1000 (some false),
       .shutdown false,
       .init World.example2.ctl.cfg defaultPhases InitHooks.quiet 1000 (some false),
       .shutdown false]).log = [0, 0, 1] := by
  refine ⟨by decide, by decide, by decide, by decide, by decide⟩

/-- C22, amended: for every sequence of control operations none of which is a call of
`init` (the continuations of the init pipeline being called, `begin`, `shutdown` with
or without force, `reopen`, tick handling, self-check handling, handles of cleanup
and tick callbacks being called, once or again), on a supervisor whose level is at
most 3: the exit-status level never
decreases and stays at most 3; and once it is 3 it stays 3, so that a later
`shutdown()` without force changes nothing and calls no cleanup callback. -/
theorem C22_exit_status_never_decreases_without_init (w : World) (ops : List CtlOp)
    (hno : ∀ op ∈ ops, op.isInit = false) (h3 : w.ctl._exitstatus ≤ 3) :
    w.ctl._exitstatus ≤ (ctlRun w ops).ctl._exitstatus ∧
    (ctlRun w ops).ctl._exitstatus ≤ 3 ∧
    (w.ctl._exitstatus = 3 →
      (ctlRun w ops).ctl._exitstatus = 3 ∧
      shutdown (ctlRun w ops) false = (ctlRun w ops, none) ∧
      ctlRun w (ops ++ [.shutdown false]) = ctlRun w ops) := by
  have h := ctlRun_status ops w hno
  refine ⟨by omega, by omega, ?_⟩
  intro he
  have h4 : (ctlRun w ops).ctl._exitstatus = 3 := by omega
  have h5 := shutdown_again_noop (ctlRun w ops) (by omega)
  refine ⟨h4, h5, ?_⟩
  have happ : ctlRun w (ops ++ [.shutdown false]) = ctlStep (ctlRun w ops) (.shutdown false) := by
    simp [ctlRun, List.foldl_append]
  rw [happ]
  unfold ctlStep
  split
  · rfl
  · simp only
    rw [h5]

/-- C22, amended, at a concrete supervisor: after `shutdown()` with a cleanup callback
that keeps its handle, further operations leave the level at 3. -/
theorem C22_exit_status_witness :
    (ctlRun (shutdown (World.example1 [Cleanup.callsLater]) false).1
      [.begin 1000 (some false), .shutdown false, .reopen, .handleTick, .runQueued,
       .handleSelfCheck 1000 (some false), .shutdown true]).ctl._exitstatus = 3 :=
  ((C22_exit_status_never_decreases_without_init
    (shutdown (World.example1 [Cleanup.callsLater]) false).1
    [.begin 1000 (some false), .shutdown false, .reopen, .handleTick, .runQueued,
     .handleSelfCheck 1000 (some false), .shutdown true]
    (by decide) (by decide)).2.2 (by decide)).1

end BaseControllerLibs
